import Mathlib

/-!
# CARISMA control plane: registries and discovery snapshot builder

A shallow embedding of the node registry (`pkg/registry/node_regisry.go`), the
service registry (`pkg/registry/service_regisry.go`) and the discovery snapshot
builder (`cmd/carisma-control-plane/app/xds`) together with the properties
established about them.

Conventions of the embedding:

* a Go `map[string]T` is an association list `List (String × T)`; `mapGet`,
  `mapSet` and `mapDelete` are the read, the write and the `delete` of Go.
  A `range` loop over a map visits the entries in list order, so that every
  iteration order Go may choose is the order of some list;
* a Go slice is a `List`; `int`, `int32` and `uint32` values are `Int`/`Nat`
  with the wrap-around written out where a conversion or an addition occurs;
* a send on a channel appends the value to a log kept in the state (the
  receiver is assumed to take the value);
* the mutex operations are dropped: every operation runs as one step;
* in the model of `encoding/json` a Go string is the list of its bytes, and a
  slice or a map is an `Option` whose `none` is the nil value.
-/

namespace Carisma

/-! ## Go maps -/

/-- A Go map with string keys. -/
abbrev GoMap (α : Type) := List (String × α)

/-- The read `m[key]` with the comma-ok flag: `none` when the key is absent. -/
def mapGet {α : Type} : GoMap α → String → Option α
  | [], _ => none
  | (k, v) :: m, key => if k = key then some v else mapGet m key

/-- The write `m[key] = v`: overwrites the entry of `key`, or adds one. -/
def mapSet {α : Type} : GoMap α → String → α → GoMap α
  | [], key, v => [(key, v)]
  | (k, w) :: m, key, v => if k = key then (key, v) :: m else (k, w) :: mapSet m key v

/-- The builtin `delete(m, key)`; a no-op when the key is absent. -/
def mapDelete {α : Type} : GoMap α → String → GoMap α
  | [], _ => []
  | (k, w) :: m, key => if k = key then mapDelete m key else (k, w) :: mapDelete m key

/-! ## `golang.org/x/exp/slices` -/

/-- `slices.Sort` on integers: the ascending rearrangement of the slice. -/
def slicesSort (s : List Int) : List Int := s.insertionSort (· ≤ ·)

/-- `slices.Compact`: every run of consecutive equal elements becomes one copy. -/
def slicesCompact : List Int → List Int
  | [] => []
  | [a] => [a]
  | a :: b :: t => if a = b then slicesCompact (b :: t) else a :: slicesCompact (b :: t)

/-- `slices.Index`: the first position of `v`, `none` standing for `-1`. -/
def slicesIndex : List Int → Int → Option Nat
  | [], _ => none
  | a :: t, v => if a = v then some 0 else (slicesIndex t v).map (· + 1)

/-- `slices.Delete(s, i, i+1)`: the slice without the element at position `i`. -/
def slicesDelete (s : List Int) (i : Nat) : List Int := s.eraseIdx i

/-- `slices.Contains` on strings. -/
def slicesContains (s : List String) (v : String) : Bool := s.contains v

/-! ## Node registry -/

/-- The type `NodeAddr`: host name and port of an endpoint. -/
structure NodeAddr where
  Host : String
  Port : Int
  deriving DecidableEq

/-- The message `RegisterRequest`. -/
structure RegisterRequest where
  Address : String
  Port : Int
  deriving DecidableEq

/-- The message `RegisterResponse`. -/
structure RegisterResponse where
  Id : String
  deriving DecidableEq

/-- The rendering `fmt.Sprintf("%v", i)` of a Go `int`. -/
def fmtInt (i : Int) : String := toString i

/-- The state of `NodeRegistryServer`: the node list and the values sent on
`chanNodes`, oldest first. -/
structure NodeRegistryServer where
  nodes : List NodeAddr
  chanNodes : List NodeAddr
  deriving DecidableEq

/-- The constructor `NewNodeRegistryServer`. -/
def NewNodeRegistryServer : NodeRegistryServer :=
  { nodes := [], chanNodes := [] }

/-- The method `NodeRegistryServer.Register`: appends the address, sends it on
the node channel and answers with the ID of the new index. The error result is
always `nil`, so only the response is returned. -/
def NodeRegistryServer.Register (s : NodeRegistryServer) (addr : RegisterRequest) :
    NodeRegistryServer × RegisterResponse :=
  let address := addr.Address
  let port := addr.Port
  let nodes := s.nodes ++ [{ Host := address, Port := port }]
  let newNodeIdx : Int := (nodes.length : Int) - 1
  let newNode : NodeAddr := { Host := address, Port := port }
  let nodeID := "node-" ++ fmtInt newNodeIdx
  ({ nodes := nodes, chanNodes := s.chanNodes ++ [newNode] }, { Id := nodeID })

/-- A run of sequential `Register` calls: the final state and the responses in
call order. -/
def registerAll : NodeRegistryServer → List RegisterRequest →
    NodeRegistryServer × List RegisterResponse
  | s, [] => (s, [])
  | s, r :: rs =>
    let (s1, resp) := s.Register r
    let (s2, resps) := registerAll s1 rs
    (s2, resp :: resps)

/-! ## Service registry -/

/-- The type `ServiceConfigSnapshot`: node ID to bundle ID to port list. -/
abbrev ServiceConfigSnapshot := GoMap (GoMap (List Int))

/-- The state of `ServiceRegistryServer`: the services map and the snapshots
sent on `updateChannel`, oldest first. -/
structure ServiceRegistryServer where
  services : ServiceConfigSnapshot
  updateChannel : List ServiceConfigSnapshot
  deriving DecidableEq

/-- The constructor `NewServiceRegistryServer`. -/
def NewServiceRegistryServer : ServiceRegistryServer :=
  { services := [], updateChannel := [] }

/-- The read `services[nodeID][bundleID]`: the nil slice when either key is
absent. -/
def portsOf (services : ServiceConfigSnapshot) (nodeID bundleID : String) : List Int :=
  (mapGet ((mapGet services nodeID).getD []) bundleID).getD []

/-- The part of `registerService` run under the lock: the inner map is created
when the node has none, the port is appended to the bundle's list, and the list
is sorted and compacted. -/
def registerPorts (services : ServiceConfigSnapshot) (nodeID bundleID : String)
    (port : Int) : ServiceConfigSnapshot :=
  let s1 := match mapGet services nodeID with
    | some _ => services
    | none => mapSet services nodeID []
  let inner := (mapGet s1 nodeID).getD []
  let appended := (mapGet inner bundleID).getD [] ++ [port]
  let sorted := slicesSort appended
  mapSet s1 nodeID (mapSet inner bundleID (slicesCompact sorted))

/-- The method `registerService`: the update under the lock, then the map is
sent on the update channel. -/
def ServiceRegistryServer.registerService (s : ServiceRegistryServer)
    (nodeID bundleID : String) (port : Int) : ServiceRegistryServer :=
  let services := registerPorts s.services nodeID bundleID port
  { services := services, updateChannel := s.updateChannel ++ [services] }

/-- The part of `unregisterService` run under the lock: the port is removed
from the bundle's list when present, and the bundle key is deleted when its
list is then empty. The write happens only when the port was found, hence only
when the node has an inner map. -/
def unregisterPorts (services : ServiceConfigSnapshot) (nodeID bundleID : String)
    (port : Int) : ServiceConfigSnapshot :=
  let ports := portsOf services nodeID bundleID
  let s1 := match slicesIndex ports port with
    | some idxPort =>
      mapSet services nodeID
        (mapSet ((mapGet services nodeID).getD []) bundleID (slicesDelete ports idxPort))
    | none => services
  if (portsOf s1 nodeID bundleID).length = 0 then
    match mapGet s1 nodeID with
    | some inner => mapSet s1 nodeID (mapDelete inner bundleID)
    | none => s1
  else s1

/-- The method `unregisterService`: the update under the lock, then the map is
sent on the update channel. -/
def ServiceRegistryServer.unregisterService (s : ServiceRegistryServer)
    (nodeID bundleID : String) (port : Int) : ServiceRegistryServer :=
  let services := unregisterPorts s.services nodeID bundleID port
  { services := services, updateChannel := s.updateChannel ++ [services] }

/-- The enumeration `ServiceAnnouncement_RegistrationState`. -/
inductive RegistrationState where
  | REGISTERED
  | UNREGISTERED
  deriving DecidableEq

/-- The message `ServiceAnnouncement`. -/
structure ServiceAnnouncement where
  BundleId : String
  LocalPort : Int
  RegistrationState : RegistrationState
  deriving DecidableEq

/-- The body of the receive loop of `ServiceRegistryServer.OpenChannel` for one
announcement received on the stream of node `nodeID`. -/
def ServiceRegistryServer.announce (s : ServiceRegistryServer) (nodeID : String)
    (a : ServiceAnnouncement) : ServiceRegistryServer :=
  if a.RegistrationState = RegistrationState.REGISTERED then
    s.registerService nodeID a.BundleId a.LocalPort
  else
    s.unregisterService nodeID a.BundleId a.LocalPort

/-- A finite sequence of announcements, each with the node ID of its stream,
applied in order. -/
def announceAll (s : ServiceRegistryServer) (as : List (String × ServiceAnnouncement)) :
    ServiceRegistryServer :=
  as.foldl (fun st na => st.announce na.1 na.2) s

/-! ## Node IDs -/

/-- The errors the embedded operations return. -/
inductive Error where
  /-- The error `strconv.ErrSyntax` of `strconv.Atoi`. -/
  | atoiSyntax
  /-- The error `strconv.ErrRange` of `strconv.Atoi`. -/
  | atoiRange
  /-- The error `errors.New(errorInvalidNodeID)` of the registry. -/
  | invalidNodeID
  /-- The message `errorMsgMissingHeader` of the registry. -/
  | missingHeader
  /-- The error `errors.New("invalid node ID")` of the snapshot builder. -/
  | xdsInvalidNodeID
  /-- A run-time panic for an index out of range. -/
  | indexOutOfRange
  /-- A run-time panic for an assignment to an entry of a nil map. -/
  | nilMapAssignment
  /-- A run-time panic for a slice bound out of range. -/
  | sliceBoundsOutOfRange
  /-- An error of `reference.ParseNormalizedNamed`. -/
  | invalidReference
  /-- The error `invalid reference format: missing '/'` of `ParseFQIN`. -/
  | missingSlash
  /-- An error of the container runtime, with its text. -/
  | runtime (msg : String)
  /-- A syntax error of `json.Unmarshal`. -/
  | jsonSyntax
  /-- The error `json.UnmarshalTypeError`. -/
  | jsonType
  /-- An error of the transport, with its text. -/
  | transport (msg : String)
  deriving DecidableEq

deriving instance DecidableEq for Except

/-- The call `strings.Split(s, "-")` on the characters of `s`: the pieces
between the separators, one piece when there is no separator. -/
def stringsSplit : List Char → List (List Char)
  | [] => [[]]
  | c :: cs =>
    if c = '-' then [] :: stringsSplit cs
    else
      match stringsSplit cs with
      | [] => [[c]]
      | seg :: rest => (c :: seg) :: rest

/-- The value of a decimal digit, `none` for any other character. -/
def digitValue (c : Char) : Option Nat :=
  if '0'.toNat ≤ c.toNat ∧ c.toNat ≤ '9'.toNat then some (c.toNat - '0'.toNat) else none

/-- The number written by a run of decimal digits, continuing from `acc`. -/
def parseDigits : List Char → Nat → Option Nat
  | [], acc => some acc
  | c :: cs, acc =>
    match digitValue c with
    | none => none
    | some d => parseDigits cs (acc * 10 + d)

/-- The function `strconv.Atoi` for a 64-bit `int`: an optional sign, then one
or more decimal digits; a value outside the `int` range is a range error. -/
def strconvAtoi (s : List Char) : Except Error Int :=
  let signed : Bool × List Char :=
    match s with
    | '-' :: t => (true, t)
    | '+' :: t => (false, t)
    | _ => (false, s)
  if signed.2 = [] then .error .atoiSyntax
  else
    match parseDigits signed.2 0 with
    | none => .error .atoiSyntax
    | some n =>
      let v : Int := if signed.1 then -(n : Int) else (n : Int)
      if -(2 : Int) ^ 63 ≤ v ∧ v ≤ (2 : Int) ^ 63 - 1 then .ok v else .error .atoiRange

/-- The function `GetNodeIdx`: the last piece of the ID split at `-`, read as
an integer. -/
def GetNodeIdx (nodeID : String) : Except Error Int :=
  let s := stringsSplit nodeID.data
  strconvAtoi (s.getLastD [])

/-- The method `NodeRegistryServer.ValidateNodeID`. -/
def NodeRegistryServer.ValidateNodeID (s : NodeRegistryServer) (nodeID : String) :
    Except Error Int :=
  match GetNodeIdx nodeID with
  | .error err => .error err
  | .ok nodeIdx =>
    if nodeIdx < 0 ∨ nodeIdx > (s.nodes.length : Int) - 1 then .error .invalidNodeID
    else .ok nodeIdx

/-! ## Deployment channel of the node registry -/

/-- The type `config.NodeState`, a string type. -/
abbrev NodeState := String

/-- The constant `config.NodeStateStarting`. -/
def NodeStateStarting : NodeState := "starting"

/-- The constant `config.NodeStateRunning`. -/
def NodeStateRunning : NodeState := "running"

/-- The constant `config.NodeStateStopping`. -/
def NodeStateStopping : NodeState := "stopping"

/-- The constant `config.NodeStateStopped`. -/
def NodeStateStopped : NodeState := "stopped"

/-- The type `config.NodeConfig`. -/
structure NodeConfig where
  State : NodeState
  Images : List String
  deriving DecidableEq

/-- The type `config.DeploymentConfig`: host name to node configuration. -/
abbrev DeploymentConfig := GoMap NodeConfig

/-- The function `config.DeploymentConfigForStartingNode`. -/
def DeploymentConfigForStartingNode (hostname : String) : DeploymentConfig :=
  [(hostname, { State := NodeStateStarting, Images := [] })]

/-- The function `config.DeploymentConfigForStoppedNode`. -/
def DeploymentConfigForStoppedNode (hostname : String) : DeploymentConfig :=
  [(hostname, { State := NodeStateStopped, Images := [] })]

/-- The enumeration `DeploymentConfiguration_StateType`. -/
inductive StateType where
  | DESIRED
  | ACTUAL
  deriving DecidableEq

/-- The message `DeploymentConfiguration`. -/
structure DeploymentConfiguration where
  Json : String
  StateType : StateType
  deriving DecidableEq

/-- The status error a channel handler returns: the gRPC code
`FailedPrecondition` with its cause, or the error of the stream itself. -/
inductive Status where
  | FailedPrecondition (cause : Error)
  | streamError (err : Error)
  deriving DecidableEq

/-- The header key `HeaderNodeID`. -/
def HeaderNodeID : String := "x-carisma-node-id"

/-- The call `md.Get(key)` on gRPC metadata: the values of the key, the nil
slice when the key is absent. -/
def mdGet (md : GoMap (List String)) (key : String) : List String :=
  (mapGet md key).getD []

/-- The method `NodeRegistryServer.OpenChannel` on a stream whose incoming
context carries the metadata `md` (`none` when it carries none), which delivers
the messages `recv` and then ends with `closeErr` (`none` for `io.EOF`).
`json` stands for `DeploymentConfig.JSON`. The result is the returned error
(`none` for `nil`) and the messages written to the broker, oldest first; the
goroutine forwarding broker messages to the peer is not part of the model. -/
def NodeRegistryServer.OpenChannel (s : NodeRegistryServer)
    (json : DeploymentConfig → Except Error String)
    (md : Option (GoMap (List String))) (recv : List DeploymentConfiguration)
    (closeErr : Option Error) : Option Status × List DeploymentConfiguration :=
  match md with
  | none => (some (.FailedPrecondition .missingHeader), [])
  | some md =>
    match mdGet md HeaderNodeID with
    | [] => (some (.FailedPrecondition .missingHeader), [])
    | nodeID0 :: _ =>
      match s.ValidateNodeID nodeID0 with
      | .error err => (some (.FailedPrecondition err), [])
      | .ok nodeIdx =>
        match s.nodes[nodeIdx.toNat]? with
        | none => (some (.streamError .indexOutOfRange), [])
        | some node =>
          let nodeHostname := node.Host
          let onOpen : List DeploymentConfiguration :=
            match json (DeploymentConfigForStartingNode nodeHostname) with
            | .error _ => [{ Json := "", StateType := .ACTUAL }]
            | .ok _ => []
          let onClose : List DeploymentConfiguration :=
            match json (DeploymentConfigForStoppedNode nodeHostname) with
            | .error _ => [{ Json := "", StateType := .ACTUAL }]
            | .ok _ => []
          (closeErr.map Status.streamError, onOpen ++ recv ++ onClose)

/-! ## Configuration -/

/-- The type `config.Config`. -/
structure Config where
  EnableDebugMode : Bool
  EmulateContainerRuntime : Bool
  EnableCentralMode : Bool
  EnableDiscovery : Bool
  CentralNodeHostname : String
  NodeHostname : String
  StatusMgrPort : Int
  GRPCPort : Int
  UDPPort : Int
  UDPDelay : Int
  UDPTimeout : Int
  IngressPort : Int
  EgressPort : Int
  AdminPort : Int
  DefaultContainerRegistryDomain : String
  deriving DecidableEq

/-- The function `config.Default`, for the host name `os.Hostname` reports. -/
def Config.Default (hostname : String) : Config :=
  { EnableDebugMode := false
    EmulateContainerRuntime := false
    EnableCentralMode := false
    EnableDiscovery := false
    CentralNodeHostname := "carisma-central"
    NodeHostname := hostname
    StatusMgrPort := 8010
    GRPCPort := 8016
    UDPPort := 8829
    UDPDelay := 5
    UDPTimeout := 60
    IngressPort := 8000
    EgressPort := 9000
    AdminPort := 9901
    DefaultContainerRegistryDomain := "docker.io" }

/-! ## Integer conversions -/

/-- The value of a 64-bit `int` after an addition: wrapped into
`[-2^63, 2^63)`. -/
def wrapInt (i : Int) : Int := (i + 2 ^ 63) % 2 ^ 64 - 2 ^ 63

/-- The conversion `int32(i)`. -/
def toInt32 (i : Int) : Int := (i + 2 ^ 31) % 2 ^ 32 - 2 ^ 31

/-- The conversion `uint32(i)`. -/
def toUint32 (i : Int) : Nat := (i % 2 ^ 32).toNat

/-! ## Discovery resources -/

/-- A `core.SocketAddress` over TCP: address and port value. -/
structure SocketAddress where
  Address : String
  PortValue : Nat
  deriving DecidableEq

/-- An `endpoint.LocalityLbEndpoints`: the socket addresses of its endpoints. -/
structure LocalityLbEndpoints where
  LbEndpoints : List SocketAddress
  deriving DecidableEq

/-- An `endpoint.ClusterLoadAssignment`. -/
structure ClusterLoadAssignment where
  ClusterName : String
  Endpoints : List LocalityLbEndpoints
  deriving DecidableEq

/-- A `cluster.Cluster` as `makeClusters` fills it: the lookup family is
`V4_ONLY`, the discovery type `STRICT_DNS`, the policy `ROUND_ROBIN` and the
protocol options those of `config.HTTP2ProtocolOptions` in every cluster, so
these are kept as names; the connect timeout is in seconds. -/
structure Cluster where
  Name : String
  DnsLookupFamily : String
  ConnectTimeout : Nat
  ClusterDiscoveryType : String
  LbPolicy : String
  TypedExtensionProtocolOptions : String
  LoadAssignment : ClusterLoadAssignment
  deriving DecidableEq

/-- A `route.Route` as `makeRoutes` fills it: the path prefix of the match,
whether the match carries gRPC options, and the target cluster. -/
structure Route where
  Prefix : String
  Grpc : Bool
  Cluster : String
  deriving DecidableEq

/-- A `route.VirtualHost`. -/
structure VirtualHost where
  Name : String
  Domains : List String
  Routes : List Route
  deriving DecidableEq

/-- A `route.RouteConfiguration`. -/
structure RouteConfiguration where
  Name : String
  VirtualHosts : List VirtualHost
  deriving DecidableEq

/-- An `hcm.HttpConnectionManager` as `makeHTTPConnectionManager` fills it: the
codec type, the statistics prefix, the name of the route configuration asked
for over RDS, the cluster of the configuration source and the HTTP filters. -/
structure HttpConnectionManager where
  CodecType : String
  StatPrefix : String
  RouteConfigName : String
  ConfigSourceCluster : String
  HttpFilters : List String
  deriving DecidableEq

/-- The direction `core.TrafficDirection` of a listener. -/
inductive TrafficDirection where
  | INBOUND
  | OUTBOUND
  deriving DecidableEq

/-- A `listener.Listener` with one filter chain of one filter. -/
structure Listener where
  Name : String
  Address : SocketAddress
  TrafficDirection : TrafficDirection
  FilterName : String
  TypedConfig : HttpConnectionManager
  deriving DecidableEq

/-- A `cache.Snapshot`: the version and the resources of the three types. -/
structure Snapshot where
  Version : String
  Clusters : List Cluster
  Routes : List RouteConfiguration
  Listeners : List Listener
  deriving DecidableEq

/-- The snapshot cache: the current snapshot of every node ID, and the calls
of `SetSnapshot` made so far, oldest first. -/
structure SnapshotCache where
  snapshots : GoMap Snapshot
  published : List (String × Snapshot)
  deriving DecidableEq

/-- The method `SetSnapshot` of the cache; it is taken to succeed. -/
def SnapshotCache.SetSnapshot (c : SnapshotCache) (node : String) (snapshot : Snapshot) :
    SnapshotCache :=
  { snapshots := mapSet c.snapshots node snapshot
    published := c.published ++ [(node, snapshot)] }

/-- The method `GetSnapshot` of the cache. -/
def SnapshotCache.GetSnapshot (c : SnapshotCache) (node : String) : Option Snapshot :=
  mapGet c.snapshots node

/-! ## Snapshot builder -/

/-- The name `wellknown.Router`. -/
def wellknownRouter : String := "envoy.filters.http.router"

/-- The constant `config.XDSClusterName`. -/
def XDSClusterName : String := "xds-cluster"

/-- The constant `gRPCRouteName`. -/
def gRPCRouteName : String := "grpc_route"

/-- The constant `localGRPCRouteName`. -/
def localGRPCRouteName : String := "local_grpc_route"

/-- The constant `gRPCVHostName`. -/
def gRPCVHostName : String := "grpc_vhost"

/-- The constant `localGRPCVHostName`. -/
def localGRPCVHostName : String := "local_grpc_vhost"

/-- The constant `ingressStatPrefix`. -/
def ingressStatPrefix : String := "ingress_http"

/-- The constant `egressStatPrefix`. -/
def egressStatPrefix : String := "egress_http"

/-- The constant `ingressListenerName`. -/
def ingressListenerName : String := "ingress_listener"

/-- The constant `egressListenerName`. -/
def egressListenerName : String := "egress_listener"

/-- The state of the snapshot builder `xds.Server`. -/
structure Server where
  snapshotVersion : Int
  cache : SnapshotCache
  nodes : List NodeAddr
  services : ServiceConfigSnapshot
  deriving DecidableEq

/-- The constructor `NewServer`. -/
def NewServer : Server :=
  { snapshotVersion := -1
    cache := { snapshots := [], published := [] }
    nodes := []
    services := [] }

/-- The function `generateNodeID`. -/
def generateNodeID (id : Int) : String := "node-" ++ fmtInt id

/-- The function `generateClusterName`. -/
def generateClusterName (bundleID : String) (isLocal : Bool) : String :=
  if isLocal then "local_" ++ bundleID ++ "_cluster" else bundleID ++ "_cluster"

/-- The function `makeHTTPConnectionManager`: the ingress connection manager
(element 0 of the result) and the egress one (element 1); the marshalling into
`anypb.Any` is taken to succeed. -/
def makeHTTPConnectionManager : HttpConnectionManager × HttpConnectionManager :=
  ( { CodecType := "AUTO"
      StatPrefix := ingressStatPrefix
      RouteConfigName := localGRPCRouteName
      ConfigSourceCluster := XDSClusterName
      HttpFilters := [wellknownRouter] },
    { CodecType := "AUTO"
      StatPrefix := egressStatPrefix
      RouteConfigName := gRPCRouteName
      ConfigSourceCluster := XDSClusterName
      HttpFilters := [wellknownRouter] } )

/-- The entries a nested `range` over the services map visits, in order: owner
node, bundle and port list. -/
def serviceEntries (services : ServiceConfigSnapshot) : List (String × String × List Int) :=
  services.flatMap (fun ns => ns.2.map (fun bp => (ns.1, bp.1, bp.2)))

/-- One pass of the loop body of `makeRoutes` for every entry: a route for the
bundle is appended to `routes` when the owner is another node and to
`localRoutes` when it is the local node. -/
def makeRoutesLoop (localNodeID : String) :
    List (String × String × List Int) → List Route → List Route → List Route × List Route
  | [], routes, localRoutes => (routes, localRoutes)
  | (nodeID, bundleID, _) :: rest, routes, localRoutes =>
    let clusterID := generateClusterName bundleID (nodeID = localNodeID)
    let r : Route := { Prefix := "/" ++ bundleID, Grpc := true, Cluster := clusterID }
    if nodeID ≠ localNodeID then makeRoutesLoop localNodeID rest (routes ++ [r]) localRoutes
    else makeRoutesLoop localNodeID rest routes (localRoutes ++ [r])

/-- The method `Server.makeRoutes`. -/
def Server.makeRoutes (x : Server) (localNodeID : String) : List RouteConfiguration :=
  let rs := makeRoutesLoop localNodeID (serviceEntries x.services) [] []
  [ { Name := gRPCRouteName
      VirtualHosts := [{ Name := gRPCVHostName, Domains := ["*"], Routes := rs.1 ++ rs.2 }] },
    { Name := localGRPCRouteName
      VirtualHosts := [{ Name := localGRPCVHostName, Domains := ["*"], Routes := rs.2 }] } ]

/-- The method `Server.makeHTTPListener`. -/
def Server.makeHTTPListener (_x : Server) (cfg : Config) : List Listener :=
  let httpConnectionManager := makeHTTPConnectionManager
  [ { Name := ingressListenerName
      Address := { Address := "0.0.0.0", PortValue := toUint32 cfg.IngressPort }
      TrafficDirection := .INBOUND
      FilterName := wellknownRouter
      TypedConfig := httpConnectionManager.1 },
    { Name := egressListenerName
      Address := { Address := "0.0.0.0", PortValue := toUint32 cfg.EgressPort }
      TrafficDirection := .OUTBOUND
      FilterName := wellknownRouter
      TypedConfig := httpConnectionManager.2 } ]

/-- The method `Server.makeEndpoints`. -/
def Server.makeEndpoints (x : Server) (nodeID _bundleID : String) (ports : List Int) :
    Except Error (List LocalityLbEndpoints) :=
  match GetNodeIdx nodeID with
  | .error err => .error err
  | .ok nodeIdx =>
    if nodeIdx ≥ (x.nodes.length : Int) ∨ nodeIdx < (x.nodes.length : Int) then
      .error .xdsInvalidNodeID
    else
      match x.nodes[nodeIdx.toNat]? with
      | none => .error .indexOutOfRange
      | some node =>
        let nodeAddress := node.Host
        .ok (ports.map (fun port =>
          { LbEndpoints := [{ Address := nodeAddress, PortValue := toUint32 port }] }))

/-- The cluster name the loop body of `makeClusters` gives to an entry. -/
def clusterIDOf (localNodeID nodeID bundleID : String) : String :=
  if nodeID = localNodeID then generateClusterName bundleID true
  else generateClusterName bundleID false

/-- The loop of `makeClusters` over the entries of the services map, with the
clusters built and the names seen so far. -/
def makeClustersLoop (x : Server) (localNodeID : String) (ingressPort : Int) :
    List (String × String × List Int) → List Cluster → List String →
    Except Error (List Cluster)
  | [], clusters, _ => .ok clusters
  | (nodeID, bundleID, instances) :: rest, clusters, seen =>
    let clusterID := clusterIDOf localNodeID nodeID bundleID
    let ports := if nodeID = localNodeID then instances else [ingressPort]
    if slicesContains seen clusterID then
      makeClustersLoop x localNodeID ingressPort rest clusters seen
    else
      match x.makeEndpoints nodeID bundleID ports with
      | .error err => .error err
      | .ok endpoints =>
        makeClustersLoop x localNodeID ingressPort rest
          (clusters ++ [{ Name := clusterID
                          DnsLookupFamily := "V4_ONLY"
                          ConnectTimeout := 1
                          ClusterDiscoveryType := "STRICT_DNS"
                          LbPolicy := "ROUND_ROBIN"
                          TypedExtensionProtocolOptions :=
                            "envoy.extensions.upstreams.http.v3.HttpProtocolOptions"
                          LoadAssignment := { ClusterName := clusterID, Endpoints := endpoints } }])
          (seen ++ [clusterID])

/-- The method `Server.makeClusters`. -/
def Server.makeClusters (x : Server) (localNodeID : String) (ingressPort : Int) :
    Except Error (List Cluster) :=
  makeClustersLoop x localNodeID ingressPort (serviceEntries x.services) [] []

/-- The names `makeClusters` gives to the entries of the services map for the
target node `localNodeID`, in the order of the entries. -/
def clusterNames (services : ServiceConfigSnapshot) (localNodeID : String) : List String :=
  (serviceEntries services).map (fun e => clusterIDOf localNodeID e.1 e.2.1)

/-- The clusters named as route targets by `makeRoutes` for `localNodeID`, in
the order of the routes of `grpc_route`. -/
def routeTargets (x : Server) (localNodeID : String) : List String :=
  match x.makeRoutes localNodeID with
  | rc :: _ => rc.VirtualHosts.flatMap (fun vh => vh.Routes.map (fun r => r.Cluster))
  | [] => []

/-- The loop of `generateSnapshots` over the node indices still to visit, for
the counter value `version`: `none` is the result `nil`. The functions
`cache.NewSnapshot` and `SetSnapshot` are taken to succeed. -/
def generateSnapshotsLoop (cfg : Config) (nodes : List NodeAddr)
    (services : ServiceConfigSnapshot) (version : Int) :
    List Nat → SnapshotCache → SnapshotCache × Option Error
  | [], cache => (cache, none)
  | i :: rest, cache =>
    let x : Server :=
      { snapshotVersion := version, cache := cache, nodes := nodes, services := services }
    let nodeID := generateNodeID (i : Int)
    let httpListener := x.makeHTTPListener cfg
    match x.makeClusters nodeID (toInt32 cfg.IngressPort) with
    | .error err => (cache, some err)
    | .ok clusters =>
      let snapshot : Snapshot :=
        { Version := fmtInt version ++ ".0"
          Clusters := clusters
          Routes := x.makeRoutes nodeID
          Listeners := httpListener }
      generateSnapshotsLoop cfg nodes services version rest (cache.SetSnapshot nodeID snapshot)

/-- The method `Server.generateSnapshots`: the state afterwards and the
returned error (`none` for `nil`). -/
def Server.generateSnapshots (x : Server) (cfg : Config) : Server × Option Error :=
  let version := wrapInt (x.snapshotVersion + 1)
  let r := generateSnapshotsLoop cfg x.nodes x.services version
    (List.range x.nodes.length) x.cache
  ({ x with snapshotVersion := version, cache := r.1 }, r.2)

/-- The handler of `RegisterServer` for a node received on the node channel. -/
def Server.onNewNode (x : Server) (cfg : Config) (newNode : NodeAddr) :
    Server × Option Error :=
  Server.generateSnapshots { x with nodes := x.nodes ++ [newNode] } cfg

/-- The handler of `RegisterServer` for a services map received on the services
channel. -/
def Server.onNewServices (x : Server) (cfg : Config) (newServiceConfig : ServiceConfigSnapshot) :
    Server × Option Error :=
  Server.generateSnapshots { x with services := newServiceConfig } cfg

/-! ## Container images -/

/-- The type `container.Image`. -/
structure Image where
  Name : String
  Version : String
  deriving DecidableEq

/-- The call `strings.LastIndex(s, string(c))` on the characters of `s`: the
position of the last occurrence of `c`, `none` standing for `-1`. -/
def stringsLastIndex : List Char → Char → Option Nat
  | [], _ => none
  | x :: t, c =>
    match stringsLastIndex t c with
    | some i => some (i + 1)
    | none => if x = c then some 0 else none

/-- The function `container.ParseImageName`. -/
def ParseImageName (str : String) : Image :=
  match stringsLastIndex str.data ':' with
  | some idx =>
    { Name := String.mk (str.data.take idx), Version := String.mk (str.data.drop (idx + 1)) }
  | none => { Name := str, Version := "latest" }

/-- The type `container.Container`. -/
structure Container where
  ID : String
  FirstName : String
  Image : String
  Ports : String
  Status : String
  deriving DecidableEq

/-- The function `container.ExtractImageList`. -/
def ExtractImageList (containers : List Container) : List Image :=
  containers.map (fun c => ParseImageName c.Image)

/-! ## Orchestrator: difference of image lists -/

/-- The first loop of `diff`: the map from image name to version, filled in the
order of `a`, so that a later element overwrites an earlier one of the same
name. -/
def diffMemory (a : List Image) : GoMap String :=
  a.foldl (fun memory i => mapSet memory i.Name i.Version) []

/-- The function `diff` of the orchestrator: the elements of `b` whose name is
not in the memory built from `a`, or is there with another version. -/
def diff (a b : List Image) : List Image :=
  let memory := diffMemory a
  b.foldl
    (fun missing i =>
      match mapGet memory i.Name with
      | some version => if version ≠ i.Version then missing ++ [i] else missing
      | none => missing ++ [i])
    []

/-- The version `diff` remembers for a name: that of the last element of `a`
with the name. -/
def lastVersion (a : List Image) (name : String) : Option String :=
  ((a.filter (fun i => decide (i.Name = name))).getLast?).map (fun i => i.Version)

/-- No name occurs in the list with two different versions. -/
def OneVersionPerName (a : List Image) : Prop :=
  ∀ x ∈ a, ∀ y ∈ a, x.Name = y.Name → x.Version = y.Version

/-! ## Discovery messages (UDP) -/

/-- The constant `magicString`. -/
def magicString : String := "$CARISMA$"

/-- The conversion `[]byte(s)` for a string of ASCII characters. -/
def asciiBytes (s : String) : List Nat := s.data.map (fun c => c.toNat)

/-- The type `udp.MessageType`. -/
inductive MessageType where
  | Invalid
  | Broadcast
  deriving DecidableEq

/-- The byte value of a message type: `Invalid` is 0 and `Broadcast` is 1. -/
def MessageType.byte : MessageType → Nat
  | .Invalid => 0
  | .Broadcast => 1

/-- The type `udp.BroadcastMessage`. -/
structure BroadcastMessage where
  Hostname : String
  deriving DecidableEq

/-- The constructor `NewBroadcastMessage`. -/
def NewBroadcastMessage (hostname : String) : BroadcastMessage := { Hostname := hostname }

/-- The function `IsCARISMAMessage`; its error result is always `nil`. -/
def IsCARISMAMessage (b : List Nat) : Bool :=
  if b.length < magicString.length then false
  else decide (b.take magicString.length = asciiBytes magicString)

/-- The method `BroadcastMessage.Bytes`: the magic string, the type byte and
what the gob encoder appends to the buffer. `gobEncode` stands for
`gob.NewEncoder(&buf).Encode`. -/
def BroadcastMessage.Bytes (gobEncode : BroadcastMessage → Except Error (List Nat))
    (g : BroadcastMessage) : Except Error (List Nat) :=
  let buf := asciiBytes magicString ++ [MessageType.Broadcast.byte]
  match gobEncode g with
  | .error err => .error err
  | .ok encoded => .ok (buf ++ encoded)

/-- The function `GetMessageType` for a broadcast message; an index out of
range is the result `indexOutOfRange`. -/
def GetMessageType (gobEncode : BroadcastMessage → Except Error (List Nat))
    (msg : BroadcastMessage) : Except Error MessageType :=
  match msg.Bytes gobEncode with
  | .error err => .error err
  | .ok b =>
    match b[magicString.length]? with
    | none => .error .indexOutOfRange
    | some t => if t = MessageType.Broadcast.byte then .ok .Broadcast else .ok .Invalid

/-- The function `DecodeBroadcastMessage`: the message and the error of the
gob decoder run on the bytes after the magic string and the type byte.
`gobDecode` stands for `gob.NewDecoder(buf).Decode`; a slice bound out of range
is the result `indexOutOfRange`. -/
def DecodeBroadcastMessage (gobDecode : List Nat → BroadcastMessage × Option Error)
    (msg : List Nat) : Except Error (BroadcastMessage × Option Error) :=
  if msg.length < magicString.length + 1 then .error .indexOutOfRange
  else .ok (gobDecode (msg.drop (magicString.length + 1)))

/-! ## Central actual-state aggregator -/

/-- The state a configuration holds for a host: the zero value `""` when the
host has no entry. -/
def stateOf (cfg : DeploymentConfig) (hostname : String) : NodeState :=
  ((mapGet cfg hostname).map (fun node => node.State)).getD ""

/-- The first loop of the aggregator over a received actual configuration: an
entry with state running or stopped is recorded in the global configuration;
the result also counts the calls of `Diff(true)`, made for an entry with state
starting when the received configuration has exactly one entry. -/
def recordActual (received : DeploymentConfig) :
    List (String × NodeConfig) → DeploymentConfig × Nat → DeploymentConfig × Nat
  | [], acc => acc
  | (hostname, node) :: rest, (globalActualDplmCfg, forced) =>
    if node.State = NodeStateStarting then
      recordActual received rest
        (globalActualDplmCfg, if received.length = 1 then forced + 1 else forced)
    else if node.State = NodeStateRunning ∨ node.State = NodeStateStopped then
      recordActual received rest (mapSet globalActualDplmCfg hostname node, forced)
    else recordActual received rest (globalActualDplmCfg, forced)

/-- The state the second loop of the aggregator writes for a host whose
persisted state is `prev` and whose recorded state is `new`. -/
def coerceState (prev new : NodeState) : NodeState :=
  let s1 := if prev = NodeStateStopping ∧ new = NodeStateRunning then NodeStateStopping else new
  if prev = NodeStateStarting ∧ s1 = NodeStateStopped then NodeStateStarting else s1

/-- The second loop of the aggregator: every entry of the global configuration
is written into the previous configuration, its state coerced against the state
the previous configuration holds for the host. -/
def coerceAll : List (String × NodeConfig) → DeploymentConfig → DeploymentConfig
  | [], prev => prev
  | (hostname, node) :: rest, prev =>
    coerceAll rest
      (mapSet prev hostname { node with State := coerceState (stateOf prev hostname) node.State })

/-- What reading and parsing the actual-state file gives the aggregator. -/
inductive ActualFileRead where
  /-- The read failed: the previous configuration stays the new empty map. -/
  | readFailed
  /-- The parser returned a map, all of the file or the part it could read. -/
  | parsed (cfg : DeploymentConfig)
  /-- The parser returned no map (a syntax error, or the text `null`): the
  previous configuration is nil. -/
  | nilMap

/-- The state of the aggregator goroutine: the global actual configuration, the
configuration last written to the actual-state file, and the number of
`Diff(true)` calls made. -/
structure Aggregator where
  globalActualDplmCfg : DeploymentConfig
  written : Option DeploymentConfig
  forcedDiffs : Nat

/-- The body of the aggregator loop for one received ACTUAL message whose JSON
parsed into `dplmCfg`, with `read` the outcome of reading the actual-state
file. An assignment into the nil map is the panic `nilMapAssignment`. The
marshalling and the write of the file are taken to succeed. -/
def Aggregator.onActual (s : Aggregator) (read : ActualFileRead) (dplmCfg : DeploymentConfig) :
    Except Error Aggregator :=
  let r := recordActual dplmCfg dplmCfg (s.globalActualDplmCfg, s.forcedDiffs)
  match read with
  | .nilMap =>
    match r.1 with
    | [] => .ok { globalActualDplmCfg := r.1, written := some [], forcedDiffs := r.2 }
    | _ :: _ => .error .nilMapAssignment
  | .readFailed =>
    .ok { globalActualDplmCfg := r.1, written := some (coerceAll r.1 []), forcedDiffs := r.2 }
  | .parsed prev =>
    .ok { globalActualDplmCfg := r.1, written := some (coerceAll r.1 prev), forcedDiffs := r.2 }

/-- The keys of the map are pairwise distinct, as in every Go map. -/
def KeysNodup {α : Type} (m : GoMap α) : Prop := (m.map Prod.fst).Nodup

/-- A run of reports of one host: every report is a received configuration
with the single entry of the host, and the file read before each report gives
back what the previous step wrote (the read fails when nothing was written). -/
def reportAll (hostname : String) : List NodeConfig → Aggregator → Except Error Aggregator
  | [], s => .ok s
  | node :: rest, s =>
    let read : ActualFileRead :=
      match s.written with
      | some file => .parsed file
      | none => .readFailed
    match s.onActual read [(hostname, node)] with
    | .error err => .error err
    | .ok s1 => reportAll hostname rest s1

/-! ## File watcher -/

/-- The state of `io.FileWatcher`: the bytes last read, whether a handler is
set, and the calls of `ProcessDiff` made so far (prior bytes and new bytes),
oldest first. -/
structure FileWatcher where
  lastRead : List Nat
  handlerSet : Bool
  calls : List (List Nat × List Nat)
  deriving DecidableEq

/-- The method `FileWatcher.Diff`: with `force` the last-read bytes are
emptied; then an event is sent to the `Watch` loop. -/
def FileWatcher.Diff (c : FileWatcher) (force : Bool) : FileWatcher :=
  if force then { c with lastRead := [] } else c

/-- One pass of the loop of `FileWatcher.Watch` for an event: `content` is
what `os.ReadFile` returns, `none` when the file cannot be found or read. -/
def FileWatcher.processEvent (c : FileWatcher) (content : Option (List Nat)) : FileWatcher :=
  match content with
  | none => c
  | some content =>
    { lastRead := content
      handlerSet := c.handlerSet
      calls := if c.handlerSet then c.calls ++ [(c.lastRead, content)] else c.calls }

/-- What the callback registered by `Run` does when it acts. -/
inductive DesiredEffect where
  /-- The bytes are sent as a DESIRED deployment configuration. -/
  | sendDesired (json : List Nat)
  /-- The orchestrator processes the parsed configuration. -/
  | process (dplmCfg : DeploymentConfig)

/-- The callback `Run` registers with `HandleDiff`: nothing when the two byte
sequences are equal or the new bytes do not parse; otherwise the new bytes are
sent and processed. `fromJSON` stands for `config.DeploymentConfigFromJSON`. -/
def desiredHandler (fromJSON : List Nat → Except Error DeploymentConfig)
    (a b : List Nat) : List DesiredEffect :=
  if a = b then []
  else
    match fromJSON b with
    | .error _ => []
    | .ok dplmCfg => [.sendDesired b, .process dplmCfg]

/-! ## Image references (`github.com/distribution/reference`) -/

/-- The call `strings.IndexRune(s, c)` on the characters of `s`: the position
of the first occurrence of `c`, `none` standing for `-1`. -/
def stringsIndex : List Char → Char → Option Nat
  | [], _ => none
  | x :: t, c => if x = c then some 0 else (stringsIndex t c).map (· + 1)

/-- The call `strings.ToLower` on a string of ASCII characters. -/
def stringsToLower (s : List Char) : List Char := s.map Char.toLower

/-- The condition of `splitDockerDomain` under which the piece before the
first `/` is no registry domain: it has no `.` and no `:`, is not `localhost`
and is in lower case. -/
def noDomain (seg : List Char) : Bool :=
  !(seg.any (fun c => c = '.' ∨ c = ':')) && seg ≠ "localhost".data && stringsToLower seg = seg

/-- The function `splitDockerDomain` of the reference package: the domain and
the remainder of a name; the default domain is `docker.io`, the legacy domain
`index.docker.io` is replaced by it, and a remainder of one component under
the default domain gets the prefix `library/`. -/
def splitDockerDomain (name : List Char) : List Char × List Char :=
  let split : List Char × List Char :=
    match stringsIndex name '/' with
    | none => ("docker.io".data, name)
    | some i =>
      if noDomain (name.take i) then ("docker.io".data, name)
      else (name.take i, name.drop (i + 1))
  let domain := if split.1 = "index.docker.io".data then "docker.io".data else split.1
  let remainder :=
    if domain = "docker.io".data ∧ '/' ∉ split.2 then "library/".data ++ split.2 else split.2
  (domain, remainder)

/-- The part of a remainder before its tag and its digest. -/
def namePart (remainder : List Char) : List Char :=
  remainder.takeWhile (fun c => c ≠ ':' ∧ c ≠ '@')

/-- The tag of a remainder: what stands between a `:` right after the name
part and the digest, `none` when the name part is not followed by `:`. -/
def tagPart (remainder : List Char) : Option (List Char) :=
  match remainder.dropWhile (fun c => c ≠ ':' ∧ c ≠ '@') with
  | ':' :: t => some (t.takeWhile (fun c => c ≠ '@'))
  | _ => none

/-- Whether the string is a 64-digit hexadecimal identifier, which the
reference package refuses as a name. -/
def isIdentifier (s : List Char) : Bool :=
  s.length = 64 && s.all (fun c => c.isDigit || ('a' ≤ c && c ≤ 'f'))

/-- A named reference as `reference.ParseNormalizedNamed` returns it: the
result of `Name()`, and the tag when the reference is tagged. -/
structure NamedRef where
  Name : String
  Tag : Option String
  deriving DecidableEq

/-- The function `reference.ParseNormalizedNamed`. `grammar` stands for the
grammar check `reference.Parse` makes on the domain, `/` and the remainder; the
grammar has ASCII characters only, so a name with any other character is
refused whatever `grammar` says. The name of the result is the domain, `/` and
the part of the remainder before tag and digest. -/
def ParseNormalizedNamed (grammar : String → Bool) (s : String) : Except Error NamedRef :=
  if isIdentifier s.data then .error .invalidReference
  else
    let dr := splitDockerDomain s.data
    let remote :=
      match stringsIndex dr.2 ':' with
      | some tagSep => dr.2.take tagSep
      | none => dr.2
    if stringsToLower remote ≠ remote then .error .invalidReference
    else if s.data.all (fun c => c.toNat < 128) ∧ grammar (String.mk (dr.1 ++ '/' :: dr.2)) then
      .ok { Name := String.mk (dr.1 ++ '/' :: namePart dr.2)
            Tag := (tagPart dr.2).map String.mk }
    else .error .invalidReference

/-- The function `container.ParseFQIN`. The slice `name[:idx+1]` is out of
range when the name is shorter than `idx+1` bytes. -/
def ParseFQIN (grammar : String → Bool) (name defaultDomain : String) : Except Error String :=
  match ParseNormalizedNamed grammar name with
  | .error err => .error err
  | .ok ref =>
    let normalizedImageName := ref.Name.data
    match stringsIndex normalizedImageName '/' with
    | none => .error .missingSlash
    | some idx =>
      let replaced : Except Error (List Char) :=
        if normalizedImageName.length ≠ name.data.length then
          if name.data.length < idx + 1 then .error .sliceBoundsOutOfRange
          else if normalizedImageName.take (idx + 1) ≠ name.data.take (idx + 1) then
            .ok (defaultDomain.data ++ normalizedImageName.drop idx)
          else .ok normalizedImageName
        else .ok normalizedImageName
      match replaced with
      | .error err => .error err
      | .ok normalizedImageName =>
        match ref.Tag with
        | some tag => .ok (String.mk normalizedImageName ++ ":" ++ tag)
        | none => .ok (String.mk normalizedImageName)

/-- Whether a reference names no registry domain, by the test of
`splitDockerDomain`: it has no `/`, or the piece before its first `/` is no
domain. -/
def namesNoDomain (name : List Char) : Bool :=
  match stringsIndex name '/' with
  | none => true
  | some i => noDomain (name.take i)

/-- The text `ParseFQIN` appends for the tag of a remainder: `:` and the tag,
nothing when there is no tag. -/
def tagSuffix (remainder : List Char) : String :=
  match tagPart remainder with
  | some tag => ":" ++ String.mk tag
  | none => ""

/-- The repository path of a reference that names no registry domain: the part
before tag and digest, with `library/` in front when it has one component. -/
def repoPath (name : List Char) : List Char :=
  if '/' ∈ name then namePart name else "library/".data ++ namePart name

/-! ## Orchestrator: reconciliation -/

/-- The interface `container.Manager` over a runtime with states of type `σ`:
every method returns its result and the state of the runtime afterwards. The
arguments and port bindings of `PullImageAndCreateContainer`, which the
orchestrator leaves nil, are not kept. -/
structure Manager (σ : Type) where
  Containers : σ → Except Error (List Container) × σ
  PullImageAndCreateContainer : σ → String → Bool → Except Error (String × Int) × σ
  RemoveImageAndContainer : σ → String → Bool → Except Error (String × Int) × σ

/-- What the orchestrator does to the runtime and to the service channel. -/
inductive OrchestratorEvent where
  /-- A call of `RemoveImageAndContainer` with the image and the flag. -/
  | remove (name : String) (verifyBundleConfig : Bool)
  /-- A call of `PullImageAndCreateContainer` with the image. -/
  | pull (name : String)
  /-- A call of the handler `hUnreg`: an UNREGISTERED announcement. -/
  | unregistered (bundleID : String) (servicePort : Int)
  /-- A call of the handler `hReg`: a REGISTERED announcement. -/
  | registered (bundleID : String) (servicePort : Int)
  deriving DecidableEq

/-- The constant `unmanagedContainerNamePrefix`. -/
def unmanagedContainerNamePrefix : String := "/carisma-keep-"

/-- The constant `envoyContainerImageName`. -/
def envoyContainerImageName : String := "envoyproxy/envoy:distroless-v1.27-latest"

/-- The call `strings.HasPrefix`. -/
def stringsHasPrefix (s pre : String) : Bool := pre.data.isPrefixOf s.data

/-- The call `strings.HasSuffix`. -/
def stringsHasSuffix (s suf : String) : Bool := suf.data.isSuffixOf s.data

/-- The filter of `process` on the container list: the containers that are
managed and running. -/
def managedRunning (containers : List Container) : List Container :=
  containers.filter (fun c =>
    !stringsHasPrefix c.FirstName unmanagedContainerNamePrefix && stringsHasPrefix c.Status "Up")

/-- The loop of `process` that turns the desired image names into fully
qualified ones; it returns at the first error of `ParseFQIN`. -/
def qualifyAll (grammar : String → Bool) (defaultDomain : String) :
    List Image → Except Error (List Image)
  | [] => .ok []
  | i :: rest =>
    match ParseFQIN grammar i.Name defaultDomain with
    | .error err => .error err
    | .ok fqin =>
      match qualifyAll grammar defaultDomain rest with
      | .error err => .error err
      | .ok rest => .ok ({ i with Name := fqin } :: rest)

/-- The removal loop of `process`: the image of the communication middleware
is skipped; a failed removal is tried once more without the bundle descriptor
and announces nothing; a removal that succeeds is announced as UNREGISTERED. -/
def removeAll {σ : Type} (cntMgr : Manager σ) :
    List Image → σ → List OrchestratorEvent → σ × List OrchestratorEvent
  | [], s, events => (s, events)
  | i :: rest, s, events =>
    if stringsHasSuffix i.Name (ParseImageName envoyContainerImageName).Name then
      removeAll cntMgr rest s events
    else
      let name := i.Name ++ ":" ++ i.Version
      match cntMgr.RemoveImageAndContainer s name true with
      | (.error _, s1) =>
        let r := cntMgr.RemoveImageAndContainer s1 name false
        removeAll cntMgr rest r.2 (events ++ [.remove name true, .remove name false])
      | (.ok (bundleID, servicePort), s1) =>
        removeAll cntMgr rest s1 (events ++ [.remove name true, .unregistered bundleID servicePort])

/-- The installation loop of `process`: a failed pull announces nothing; a
pull that succeeds is announced as REGISTERED. -/
def installAll {σ : Type} (cntMgr : Manager σ) :
    List Image → σ → List OrchestratorEvent → σ × List OrchestratorEvent
  | [], s, events => (s, events)
  | i :: rest, s, events =>
    let name := i.Name ++ ":" ++ i.Version
    match cntMgr.PullImageAndCreateContainer s name true with
    | (.error _, s1) => installAll cntMgr rest s1 (events ++ [.pull name])
    | (.ok (bundleID, servicePort), s1) =>
      installAll cntMgr rest s1 (events ++ [.pull name, .registered bundleID servicePort])

/-- The outcome of `process`: the returned error (`none` for `nil`; a panic is
the error of its kind), the state of the runtime and the events, oldest
first. -/
structure ProcessResult (σ : Type) where
  err : Option Error
  state : σ
  events : List OrchestratorEvent

/-- The method `orchestrator.process`. -/
def process {σ : Type} (grammar : String → Bool) (cfg : Config) (cntMgr : Manager σ) (s : σ)
    (dplmCfg : DeploymentConfig) : ProcessResult σ :=
  match mapGet dplmCfg cfg.NodeHostname with
  | none => { err := none, state := s, events := [] }
  | some node =>
    match cntMgr.Containers s with
    | (.error err, s1) => { err := some err, state := s1, events := [] }
    | (.ok currContainers, s1) =>
      let currContainers := managedRunning currContainers
      let currDeploymentConfig := ExtractImageList currContainers
      let newDeploymentConfig := node.Images.map ParseImageName
      match qualifyAll grammar cfg.DefaultContainerRegistryDomain newDeploymentConfig with
      | .error err => { err := some err, state := s1, events := [] }
      | .ok newDeploymentConfig =>
        let removedImages := diff newDeploymentConfig currDeploymentConfig
        let r1 := removeAll cntMgr removedImages s1 []
        let newImages := diff currDeploymentConfig newDeploymentConfig
        let r2 := installAll cntMgr newImages r1.1 r1.2
        { err := none, state := r2.1, events := r2.2 }

/-! ## Go strings as bytes (`unicode/utf8`)

In the model of `encoding/json` a Go string is the sequence of its bytes,
whether or not they are valid UTF-8, a slice carries its nil flag and so does a
map. -/

/-- A Go string or byte slice: its bytes, each a number below 256. -/
abbrev GoString := List Nat

/-- The constant `utf8.RuneError`, U+FFFD. -/
def runeError : Nat := 65533

/-- The function `utf8.DecodeRune`: the first rune of the bytes and the number
of bytes it takes; `(RuneError, 1)` when the bytes do not start with a
well-formed encoding and `(RuneError, 0)` when there is no byte. The lead byte
fixes the length and the range of the second byte (`first` and `acceptRanges`
of the package). -/
def decodeRune (s : GoString) : Nat × Nat :=
  match s with
  | [] => (runeError, 0)
  | s0 :: t =>
    if s0 < 128 then (s0, 1)
    else if s0 < 194 then (runeError, 1)
    else if s0 < 224 then
      match t with
      | s1 :: _ =>
        if 128 ≤ s1 ∧ s1 ≤ 191 then (s0 % 32 * 64 + s1 % 64, 2) else (runeError, 1)
      | [] => (runeError, 1)
    else if s0 < 240 then
      match t with
      | s1 :: s2 :: _ =>
        if (if s0 = 224 then 160 else 128) ≤ s1 ∧ s1 ≤ (if s0 = 237 then 159 else 191) ∧
            128 ≤ s2 ∧ s2 ≤ 191 then
          (s0 % 16 * 4096 + s1 % 64 * 64 + s2 % 64, 3)
        else (runeError, 1)
      | _ => (runeError, 1)
    else if s0 < 245 then
      match t with
      | s1 :: s2 :: s3 :: _ =>
        if (if s0 = 240 then 144 else 128) ≤ s1 ∧ s1 ≤ (if s0 = 244 then 143 else 191) ∧
            128 ≤ s2 ∧ s2 ≤ 191 ∧ 128 ≤ s3 ∧ s3 ≤ 191 then
          (s0 % 8 * 262144 + s1 % 64 * 4096 + s2 % 64 * 64 + s3 % 64, 4)
        else (runeError, 1)
      | _ => (runeError, 1)
    else (runeError, 1)

/-- The function `utf8.AppendRune` on no bytes: the UTF-8 encoding of a rune,
that of `RuneError` for a surrogate and for a value above U+10FFFF. -/
def encodeRune (r : Nat) : GoString :=
  if r < 128 then [r]
  else if r < 2048 then [192 + r / 64, 128 + r % 64]
  else if (55296 ≤ r ∧ r < 57344) ∨ 1114111 < r then [239, 191, 189]
  else if r < 65536 then [224 + r / 4096, 128 + r / 64 % 64, 128 + r % 64]
  else [240 + r / 262144, 128 + r / 4096 % 64, 128 + r / 64 % 64, 128 + r % 64]

/-- The loop of `utf8.Valid`: every rune of the bytes decodes without
`(RuneError, 1)`. The fuel bounds the runes read. -/
def validLoop : Nat → GoString → Bool
  | 0, s => s.isEmpty
  | _ + 1, [] => true
  | fuel + 1, b :: t =>
    if b < 128 then validLoop fuel t
    else if (decodeRune (b :: t)).2 = 1 then false
    else validLoop fuel ((b :: t).drop (decodeRune (b :: t)).2)

/-- The function `utf8.Valid` (`utf8.ValidString`). -/
def utf8Valid (s : GoString) : Bool := validLoop s.length s

/-- The bytes of a string of Unicode characters: the conversion `[]byte(s)` of
a Go string that holds this text. -/
def goString (s : String) : GoString := s.data.flatMap (fun c => encodeRune c.toNat)

/-- The runes a `range` over the bytes yields, an ill-formed byte counting as
`RuneError`. The fuel bounds the runes read. -/
def runesOf : Nat → GoString → List Nat
  | 0, _ => []
  | _ + 1, [] => []
  | fuel + 1, b :: t =>
    (decodeRune (b :: t)).1 :: runesOf fuel ((b :: t).drop (decodeRune (b :: t)).2)

/-- The conversion `string(b)` read as a string of Unicode characters. -/
def stringOfBytes (b : GoString) : String :=
  String.mk ((runesOf b.length b).map Char.ofNat)

/-- The type `config.NodeConfig` as Go stores it: the state as bytes and the
image slice with its nil flag (`none` is the nil slice). -/
structure GoNodeConfig where
  State : GoString
  Images : Option (List GoString)
  deriving DecidableEq

/-- The type `config.DeploymentConfig` as Go stores it: `none` is the nil map,
and the entries of a map stand in the order a `range` visits them. -/
abbrev GoDeploymentConfig := Option (List (GoString × GoNodeConfig))

/-- The Go value of a node configuration of the model: the slice is not
nil. -/
def NodeConfig.toGo (node : NodeConfig) : GoNodeConfig :=
  { State := goString node.State, Images := some (node.Images.map goString) }

/-- The Go value of a deployment configuration of the model: the map is not
nil. -/
def DeploymentConfig.toGo (d : DeploymentConfig) : GoDeploymentConfig :=
  some (d.map (fun e => (goString e.1, e.2.toGo)))

/-! ## JSON text of a deployment configuration (`encoding/json`) -/

/-- The digit `"0123456789abcdef"[n]` the encoder writes for a value below
16. -/
def hexDigit (n : Nat) : Nat := if n < 10 then 48 + n else 87 + n

/-- The table `htmlSafeSet` of the encoder: the ASCII bytes written as they
are, which are those from the space on except `"`, `&`, `<`, `>` and `\`. -/
def htmlSafe (b : Nat) : Bool :=
  decide (32 ≤ b ∧ b < 128 ∧ b ≠ 34 ∧ b ≠ 38 ∧ b ≠ 60 ∧ b ≠ 62 ∧ b ≠ 92)

/-- What `appendString` writes for one ASCII byte, with HTML escaping on: the
byte itself when it is in `htmlSafeSet`; `\\` and `\"`; `\b`, `\f`, `\n`, `\r`
and `\t`; and `\u00XX` for any other control byte and for `<`, `>`, `&`. -/
def escapeByte (b : Nat) : GoString :=
  if htmlSafe b then [b]
  else if b = 92 ∨ b = 34 then [92, b]
  else if b = 8 then [92, 98]
  else if b = 12 then [92, 102]
  else if b = 10 then [92, 110]
  else if b = 13 then [92, 114]
  else if b = 9 then [92, 116]
  else [92, 117, 48, 48, hexDigit (b / 16), hexDigit (b % 16)]

/-- The loop of `appendString` over the bytes of a string: an ASCII byte is
written by `escapeByte`; a byte that starts no well-formed rune is written as
the escape of U+FFFD; U+2028 and U+2029 are written as their escapes; the bytes
of any other rune are copied. The fuel bounds the runes read. -/
def appendStringLoop : Nat → GoString → GoString
  | 0, _ => []
  | _ + 1, [] => []
  | fuel + 1, b :: t =>
    if b < 128 then escapeByte b ++ appendStringLoop fuel t
    else if (decodeRune (b :: t)).1 = runeError ∧ (decodeRune (b :: t)).2 = 1 then
      [92, 117, 102, 102, 102, 100] ++ appendStringLoop fuel t
    else if (decodeRune (b :: t)).1 = 8232 ∨ (decodeRune (b :: t)).1 = 8233 then
      [92, 117, 50, 48, 50, hexDigit ((decodeRune (b :: t)).1 % 16)] ++
        appendStringLoop fuel ((b :: t).drop (decodeRune (b :: t)).2)
    else
      (b :: t).take (decodeRune (b :: t)).2 ++
        appendStringLoop fuel ((b :: t).drop (decodeRune (b :: t)).2)

/-- The function `appendString` of the encoder: the JSON string literal of a
Go string. -/
def appendString (src : GoString) : GoString :=
  34 :: (appendStringLoop src.length src ++ [34])

/-- The indentation of `MarshalIndent(d, "", "    ")` at a nesting level. -/
def jsonIndent (level : Nat) : GoString := List.replicate (4 * level) 32

/-- The elements of an array of strings at a nesting level, one per line. -/
def renderElems (level : Nat) : List GoString → GoString
  | [] => []
  | [s] => jsonIndent level ++ appendString s
  | s :: t => jsonIndent level ++ appendString s ++ [44, 10] ++ renderElems level t

/-- The JSON text of the image slice of a node configuration written at a
nesting level: `null` for the nil slice, `[]` for an empty slice, and one
element per line otherwise. -/
def renderImages (level : Nat) (images : Option (List GoString)) : GoString :=
  match images with
  | none => [110, 117, 108, 108]
  | some [] => [91, 93]
  | some (s :: t) =>
    [91, 10] ++ renderElems (level + 1) (s :: t) ++ [10] ++ jsonIndent level ++ [93]

/-- The JSON text of a node configuration written at a nesting level: the
fields `state` and `container` in the order of the struct. -/
def renderNode (level : Nat) (node : GoNodeConfig) : GoString :=
  [123, 10] ++ jsonIndent (level + 1) ++ appendString (asciiBytes "state") ++ [58, 32] ++
    appendString node.State ++ [44, 10] ++
    jsonIndent (level + 1) ++ appendString (asciiBytes "container") ++ [58, 32] ++
    renderImages (level + 1) node.Images ++ [10] ++ jsonIndent level ++ [125]

/-- The members of the top-level object, one host per member. -/
def renderHosts : List (GoString × GoNodeConfig) → GoString
  | [] => []
  | [e] => jsonIndent 1 ++ appendString e.1 ++ [58, 32] ++ renderNode 1 e.2
  | e :: t =>
    jsonIndent 1 ++ appendString e.1 ++ [58, 32] ++ renderNode 1 e.2 ++ [44, 10] ++
      renderHosts t

/-- The comparison `strings.Compare(a, b) <= 0`: byte by byte. -/
def bytesLE : GoString → GoString → Bool
  | [], _ => true
  | _ :: _, [] => false
  | a :: s, b :: t => if a < b then true else if b < a then false else bytesLE s t

/-- The order in which the encoder writes the entries of a map: by key. -/
def sortHosts (l : List (GoString × GoNodeConfig)) : List (GoString × GoNodeConfig) :=
  l.insertionSort (fun a b => bytesLE a.1 b.1 = true)

/-- The call `json.MarshalIndent(d, "", "    ")` for a deployment
configuration: `null` for the nil map, `{}` for an empty map, and one host
per member otherwise; its error is always nil. -/
def marshalIndent (d : GoDeploymentConfig) : GoString :=
  match d with
  | none => [110, 117, 108, 108]
  | some l =>
    match sortHosts l with
    | [] => [123, 125]
    | e :: t => [123, 10] ++ renderHosts (e :: t) ++ [10, 125]

/-- The method `DeploymentConfig.JSON` on the Go value; the marshalling of a
deployment configuration has no error case. -/
def GoDeploymentConfig.JSON (d : GoDeploymentConfig) : Except Error GoString :=
  .ok (marshalIndent d)

/-- The method `DeploymentConfig.JSON` on a configuration of the model, its
bytes read as text as in `string(j)`. -/
def DeploymentConfig.JSON (d : DeploymentConfig) : Except Error String :=
  match GoDeploymentConfig.JSON d.toGo with
  | .error err => .error err
  | .ok j => .ok (stringOfBytes j)

/-! ## Reading JSON text (`encoding/json`) -/

/-- A JSON value as the decoder sees it; a string is held unquoted, as the
bytes `unquote` gives, and the text of a number is not kept. -/
inductive JValue where
  | null
  | bool (b : Bool)
  | number
  | string (s : GoString)
  | array (elems : List JValue)
  | object (members : List (GoString × JValue))

/-- The white space of JSON: space, tab, carriage return and newline. -/
def isJsonSpace (c : Nat) : Bool := c = 32 || c = 9 || c = 13 || c = 10

/-- The text without its leading white space. -/
def skipSpace (cs : GoString) : GoString := cs.dropWhile isJsonSpace

/-- The value of a hexadecimal digit in either case. -/
def hexValue (c : Nat) : Option Nat :=
  if 48 ≤ c ∧ c ≤ 57 then some (c - 48)
  else if 97 ≤ c ∧ c ≤ 102 then some (c - 87)
  else if 65 ≤ c ∧ c ≤ 70 then some (c - 55)
  else none

/-- The function `getu4` of the decoder on the four bytes after `\u`: the
value of four hexadecimal digits. -/
def parseHex4 (a b c d : Nat) : Option Nat :=
  match hexValue a, hexValue b, hexValue c, hexValue d with
  | some x, some y, some z, some w => some (((x * 16 + y) * 16 + z) * 16 + w)
  | _, _, _, _ => none

/-- The byte of an escape of one letter, `none` for a letter that is no
escape: `"`, `\`, `/`, and `b`, `f`, `n`, `r`, `t`. -/
def simpleEscape (e : Nat) : Option Nat :=
  if e = 34 then some 34
  else if e = 92 then some 92
  else if e = 47 then some 47
  else if e = 98 then some 8
  else if e = 102 then some 12
  else if e = 110 then some 10
  else if e = 114 then some 13
  else if e = 116 then some 9
  else none

/-- The rune of a `\u` escape with value `rr` followed by the text `cs`, and
the text after it: a high surrogate followed by the escape of a low surrogate
gives the rune of the pair and takes that escape too; any other surrogate gives
U+FFFD. -/
def decodeEscape (rr : Nat) (cs : GoString) : Nat × GoString :=
  if 55296 ≤ rr ∧ rr < 57344 then
    match cs with
    | b :: u :: a1 :: b1 :: c1 :: d1 :: cs3 =>
      if b = 92 ∧ u = 117 then
        match parseHex4 a1 b1 c1 d1 with
        | some rr1 =>
          if rr < 56320 ∧ 56320 ≤ rr1 ∧ rr1 < 57344 then
            ((rr - 55296) * 1024 + (rr1 - 56320) + 65536, cs3)
          else (runeError, cs)
        | none => (runeError, cs)
      else (runeError, cs)
    | _ => (runeError, cs)
  else (rr, cs)

/-- The string literal whose opening quote has been read: its bytes unquoted
and the text after its closing quote; `none` for a literal that is not closed,
has a control byte or has a wrong escape. An escape gives its byte or the
encoding of its rune, an ASCII byte stands for itself, and any other byte is
read as a rune and written back well formed, an ill-formed byte as U+FFFD. The
fuel bounds the runes read. -/
def scanString : Nat → GoString → Option (GoString × GoString)
  | 0, _ => none
  | _ + 1, [] => none
  | fuel + 1, c :: cs =>
    if c = 34 then some ([], cs)
    else if c = 92 then
      match cs with
      | [] => none
      | e :: cs1 =>
        if e = 117 then
          match cs1 with
          | a :: b :: c2 :: d :: cs2 =>
            match parseHex4 a b c2 d with
            | none => none
            | some rr =>
              (scanString fuel (decodeEscape rr cs2).2).map
                (fun r => (encodeRune (decodeEscape rr cs2).1 ++ r.1, r.2))
          | _ => none
        else
          match simpleEscape e with
          | some ch => (scanString fuel cs1).map (fun r => (ch :: r.1, r.2))
          | none => none
    else if c < 32 then none
    else if c < 128 then (scanString fuel cs).map (fun r => (c :: r.1, r.2))
    else
      (scanString fuel ((c :: cs).drop (decodeRune (c :: cs)).2)).map
        (fun r => (encodeRune (decodeRune (c :: cs)).1 ++ r.1, r.2))

/-- Whether a byte is a decimal digit. -/
def isDigitByte (c : Nat) : Bool := decide (48 ≤ c ∧ c ≤ 57)

/-- The text after a run of one or more decimal digits, `none` when there is
no digit. -/
def scanDigits (cs : GoString) : Option GoString :=
  match cs with
  | c :: _ => if isDigitByte c then some (cs.dropWhile isDigitByte) else none
  | [] => none

/-- The text after a JSON number: an optional `-`, `0` or a run of digits not
starting with `0`, an optional fraction and an optional exponent. -/
def scanNumber (cs : GoString) : Option GoString :=
  let afterSign := match cs with
    | 45 :: t => t
    | _ => cs
  let afterInt : Option GoString :=
    match afterSign with
    | 48 :: t => some t
    | _ => scanDigits afterSign
  match afterInt with
  | none => none
  | some r1 =>
    let afterFrac : Option GoString :=
      match r1 with
      | 46 :: t => scanDigits t
      | _ => some r1
    match afterFrac with
    | none => none
    | some r2 =>
      match r2 with
      | e :: t =>
        if e = 101 ∨ e = 69 then
          match t with
          | s :: t1 => if s = 43 ∨ s = 45 then scanDigits t1 else scanDigits t
          | [] => none
        else some r2
      | [] => some r2

/-- The text after a literal, `none` when the text does not start with it. -/
def scanLiteral (lit cs : GoString) : Option GoString :=
  if lit.isPrefixOf cs then some (cs.drop lit.length) else none

/-- The elements of an array from the start of an element on, read with the
parser `pv` for values, and the text after the closing bracket. The fuel bounds
the number of elements. -/
def parseElems (pv : GoString → Option (JValue × GoString)) :
    Nat → GoString → Option (List JValue × GoString)
  | 0, _ => none
  | fuel + 1, cs =>
    match pv cs with
    | none => none
    | some (v, rest) =>
      match skipSpace rest with
      | c :: rest1 =>
        if c = 44 then (parseElems pv fuel rest1).map (fun r => (v :: r.1, r.2))
        else if c = 93 then some ([v], rest1)
        else none
      | [] => none

/-- The members of an object from the start of a key on, read with the parser
`pv` for values, and the text after the closing brace. The fuel bounds the
number of members. -/
def parseMembers (pv : GoString → Option (JValue × GoString)) :
    Nat → GoString → Option (List (GoString × JValue) × GoString)
  | 0, _ => none
  | fuel + 1, cs =>
    match skipSpace cs with
    | q :: cs1 =>
      if q = 34 then
        match scanString cs1.length cs1 with
        | none => none
        | some (key, rest) =>
          match skipSpace rest with
          | colon :: rest1 =>
            if colon = 58 then
              match pv rest1 with
              | none => none
              | some (v, rest2) =>
                match skipSpace rest2 with
                | c :: rest3 =>
                  if c = 44 then
                    (parseMembers pv fuel rest3).map (fun r => ((key, v) :: r.1, r.2))
                  else if c = 125 then some ([(key, v)], rest3)
                  else none
                | [] => none
            else none
          | [] => none
      else none
    | [] => none

/-- The JSON value at the start of the text, after white space, and the text
after it; `depth` is the nesting still allowed for arrays and objects. -/
def parseValue : Nat → GoString → Option (JValue × GoString)
  | depth, cs =>
    match skipSpace cs with
    | [] => none
    | c :: rest =>
      if c = 34 then (scanString rest.length rest).map (fun r => (JValue.string r.1, r.2))
      else if c = 91 then
        match depth with
        | 0 => none
        | d + 1 =>
          match skipSpace rest with
          | 93 :: r => some (JValue.array [], r)
          | _ => (parseElems (parseValue d) rest.length rest).map
              (fun r => (JValue.array r.1, r.2))
      else if c = 123 then
        match depth with
        | 0 => none
        | d + 1 =>
          match skipSpace rest with
          | 125 :: r => some (JValue.object [], r)
          | _ => (parseMembers (parseValue d) rest.length rest).map
              (fun r => (JValue.object r.1, r.2))
      else if c = 116 then
        (scanLiteral [116, 114, 117, 101] (c :: rest)).map (fun r => (JValue.bool true, r))
      else if c = 102 then
        (scanLiteral [102, 97, 108, 115, 101] (c :: rest)).map (fun r => (JValue.bool false, r))
      else if c = 110 then
        (scanLiteral [110, 117, 108, 108] (c :: rest)).map (fun r => (JValue.null, r))
      else (scanNumber (c :: rest)).map (fun r => (JValue.number, r))

/-- The bytes a key is compared under when a field name is matched without
regard to case: ASCII letters in lower case, the long s (U+017F) as `s` and the
Kelvin sign (U+212A) as `k`, the two runes outside ASCII that fold to an ASCII
letter. -/
def foldKey : GoString → GoString
  | [] => []
  | 197 :: 191 :: t => 115 :: foldKey t
  | 226 :: 132 :: 170 :: t => 107 :: foldKey t
  | b :: t => (if 65 ≤ b ∧ b ≤ 90 then b + 32 else b) :: foldKey t

/-- Whether a key of an object names the field with the JSON name `name`, a
name of lower-case ASCII letters. -/
def matchesField (key : GoString) (name : String) : Bool :=
  foldKey key = asciiBytes name

/-- The struct a member of the top-level object is decoded into: the two
fields of a node configuration, and the strings the backing array of the image
slice holds after the end of the slice, which an array decoded later finds in
its elements. -/
structure NodeTarget where
  State : GoString
  Images : Option (List GoString)
  spare : List GoString
  deriving DecidableEq

/-- The element of the image slice after a JSON value is decoded into it:
a string sets it and `null` leaves what it held. -/
def decodeImage (old : GoString) : JValue → Except Error GoString
  | .string s => .ok s
  | .null => .ok old
  | _ => .error .jsonType

/-- The elements of the image slice after the values of an array are decoded
into them one by one; `slots` holds what the elements held before, an element
past them being new and empty. -/
def decodeImages : List JValue → List GoString → Except Error (List GoString)
  | [], _ => .ok []
  | v :: vs, slots =>
    match decodeImage (slots.headD []) v with
    | .error err => .error err
    | .ok s =>
      match decodeImages vs slots.tail with
      | .error err => .error err
      | .ok rest => .ok (s :: rest)

/-- One member of an object decoded into a node configuration. Under `state`
a string sets the field and `null` leaves it. Under `container` an array is
decoded into the elements the slice and its backing array hold and the slice
is cut to the length of the array, an empty array gives a new empty slice, and
`null` gives the nil slice. A member of another name is skipped. -/
def decodeField (node : NodeTarget) (key : GoString) (v : JValue) : Except Error NodeTarget :=
  if matchesField key "state" then
    match v with
    | .string s => .ok { State := s, Images := node.Images, spare := node.spare }
    | .null => .ok node
    | _ => .error .jsonType
  else if matchesField key "container" then
    match v with
    | .array [] => .ok { State := node.State, Images := some [], spare := [] }
    | .array (e :: elems) =>
      match decodeImages (e :: elems) (node.Images.getD [] ++ node.spare) with
      | .error err => .error err
      | .ok images =>
        .ok { State := node.State, Images := some images,
              spare := (node.Images.getD [] ++ node.spare).drop (e :: elems).length }
    | .null => .ok { State := node.State, Images := none, spare := [] }
    | _ => .error .jsonType
  else .ok node

/-- The members of an object decoded into a node configuration, in order. -/
def decodeFields : List (GoString × JValue) → NodeTarget → Except Error NodeTarget
  | [], node => .ok node
  | (key, v) :: rest, node =>
    match decodeField node key v with
    | .error err => .error err
    | .ok node1 => decodeFields rest node1

/-- The node configuration a JSON value decodes to: an object is read member by
member into the zero value, and `null` leaves the zero value. -/
def decodeNode : JValue → Except Error GoNodeConfig
  | .object members =>
    match decodeFields members { State := [], Images := none, spare := [] } with
    | .error err => .error err
    | .ok node => .ok { State := node.State, Images := node.Images }
  | .null => .ok { State := [], Images := none }
  | _ => .error .jsonType

/-- The assignment `m[key] = node` on the entries of a map with byte keys:
overwrites the entry of `key`, or adds one. -/
def hostSet : List (GoString × GoNodeConfig) → GoString → GoNodeConfig →
    List (GoString × GoNodeConfig)
  | [], key, v => [(key, v)]
  | (k, w) :: m, key, v => if k = key then (key, v) :: m else (k, w) :: hostSet m key v

/-- The members of the top-level object decoded into the map, in order; every
member is decoded into a new zero value, and a later member overwrites an
earlier one of the same key. -/
def decodeHosts : List (GoString × JValue) → List (GoString × GoNodeConfig) →
    Except Error (List (GoString × GoNodeConfig))
  | [], d => .ok d
  | (key, v) :: rest, d =>
    match decodeNode v with
    | .error err => .error err
    | .ok node => decodeHosts rest (hostSet d key node)

/-- The nesting of arrays and objects the decoder allows. -/
def maxNestingDepth : Nat := 10000

/-- The call `json.Unmarshal(str, &dplmCfg)` on a nil map: a syntax error when
the text is not one JSON value; a type error when a value does not fit its
place; otherwise the map, which an object makes and fills and `null` leaves
nil. -/
def unmarshal (str : GoString) : Except Error GoDeploymentConfig :=
  match parseValue maxNestingDepth str with
  | none => .error .jsonSyntax
  | some (v, rest) =>
    if skipSpace rest ≠ [] then .error .jsonSyntax
    else
      match v with
      | .object members =>
        match decodeHosts members [] with
        | .error err => .error err
        | .ok hosts => .ok (some hosts)
      | .null => .ok none
      | _ => .error .jsonType

/-- The function `config.DeploymentConfigFromJSON`; the configuration Go
returns beside an error is not kept. -/
def DeploymentConfigFromJSON (str : GoString) : Except Error GoDeploymentConfig :=
  unmarshal str

/-- The JSON value of an image slice: `null` for the nil slice and the array
of its strings otherwise. -/
def imagesValue (images : Option (List GoString)) : JValue :=
  match images with
  | none => .null
  | some l => .array (l.map (fun s => JValue.string s))

/-- The JSON value of a node configuration: the object the encoder writes. -/
def nodeValue (node : GoNodeConfig) : JValue :=
  .object
    [ (asciiBytes "state", .string node.State),
      (asciiBytes "container", imagesValue node.Images) ]

/-- The members of the top-level object the encoder writes for a list of
hosts. -/
def hostMembers (hosts : List (GoString × GoNodeConfig)) : List (GoString × JValue) :=
  hosts.map (fun e => (e.1, nodeValue e.2))

/-- Every string of a deployment configuration is valid UTF-8: host names,
states and image names. -/
def ValidStrings (d : GoDeploymentConfig) : Bool :=
  match d with
  | none => true
  | some l =>
    l.all (fun e =>
      utf8Valid e.1 && utf8Valid e.2.State &&
        (match e.2.Images with
          | none => true
          | some images => images.all utf8Valid))

/-- The host names of a deployment configuration. -/
def hostNames (d : GoDeploymentConfig) : List GoString :=
  match d with
  | none => []
  | some l => l.map Prod.fst

/-- Two Go values of a deployment configuration are the same map: both nil,
or both maps with the same entries, whatever order stands for their
iteration. -/
def SameConfig (a b : GoDeploymentConfig) : Prop :=
  match a, b with
  | none, none => True
  | some l1, some l2 => l1.Perm l2
  | _, _ => False

/-! ## Deployment channel of the service registry -/

/-- How the announcements of a stream end: `Recv` returns `io.EOF`, and
`SendAndClose` then returns its error (`none` for `nil`), or `Recv` returns
another error. -/
inductive StreamEnd where
  | eof (sendAndClose : Option Error)
  | recvError (err : Error)
  deriving DecidableEq

/-- The method `ServiceRegistryServer.OpenChannel` on a stream whose incoming
context carries the metadata `md` (`none` when it carries none), which delivers
the announcements `recv` and then ends with `streamEnd`. The result is the
returned error (`none` for `nil`), or the run-time panic that ends the call,
and the registry afterwards. The first value of the header is read before the
number of values is looked at. -/
def ServiceRegistryServer.OpenChannel (s : ServiceRegistryServer)
    (nodeRegistry : NodeRegistryServer) (md : Option (GoMap (List String)))
    (recv : List ServiceAnnouncement) (streamEnd : StreamEnd) :
    Except Error (Option Status) × ServiceRegistryServer :=
  match md with
  | none => (.ok (some (.FailedPrecondition .missingHeader)), s)
  | some md =>
    let nodeID := mdGet md HeaderNodeID
    match nodeID[0]? with
    | none => (.error .indexOutOfRange, s)
    | some nodeID0 =>
      match nodeRegistry.ValidateNodeID nodeID0 with
      | .error _ => (.ok (some (.FailedPrecondition .missingHeader)), s)
      | .ok _ =>
        if nodeID.length < 1 then (.ok (some (.FailedPrecondition .missingHeader)), s)
        else
          let s1 := recv.foldl (fun st a => st.announce nodeID0 a) s
          match streamEnd with
          | .eof sendAndClose => (.ok (sendAndClose.map Status.streamError), s1)
          | .recvError err => (.ok (some (.streamError err)), s1)

/-! ## Configuration: central mode -/

/-- The method `Config.fix`. -/
def Config.fix (c : Config) : Config :=
  if c.EnableCentralMode then { c with CentralNodeHostname := c.NodeHostname } else c

/-! ## Message broker -/

/-- The capacity of the channel `Broker.Read` makes for a reader. -/
def readerCapacity : Nat := 5

/-- The statement `select { case ch <- msg: default: }` on the channel of a
reader whose buffer holds `buf`, oldest first: the message is appended when
the buffer has room, and nothing happens otherwise. -/
def trySend {T : Type} (buf : List T) (msg : T) : List T :=
  if buf.length < readerCapacity then buf ++ [msg] else buf

/-- The loop of `Broker.Listen` over its listeners for one message read from
the source: one send attempt per listener. -/
def fanOut {T : Type} (listeners : List (List T)) (msg : T) : List (List T) :=
  listeners.map (fun ch => trySend ch msg)

/-- The receive `<-ch` by the reader at position `reader`, which takes the
oldest message of its buffer. -/
def receiveAt {T : Type} : List (List T) → Nat → List (List T)
  | [], _ => []
  | ch :: rest, 0 => ch.tail :: rest
  | ch :: rest, reader + 1 => ch :: receiveAt rest reader

/-- What happens to the listeners of a broker: a channel made by `Read` is
taken from `destinations`, a message written with `Write` is taken from
`source`, or a reader receives from its channel. -/
inductive BrokerEvent (T : Type) where
  | attach
  | write (msg : T)
  | receive (reader : Nat)

/-- The listeners of `Broker.Listen`, each with the content of its buffer,
after one event. -/
def brokerStep {T : Type} (listeners : List (List T)) : BrokerEvent T → List (List T)
  | .attach => listeners ++ [[]]
  | .write msg => fanOut listeners msg
  | .receive reader => receiveAt listeners reader

/-- The listeners of `Broker.Listen` after a sequence of events; it starts
with no listener. -/
def brokerRun {T : Type} (events : List (BrokerEvent T)) : List (List T) :=
  events.foldl brokerStep []

/-! ## Emulated container runtime (`debugContainerManager`) -/

/-- The constant `statusRunning`. -/
def statusRunning : String := "running"

/-- The constant `statusExited`. -/
def statusExited : String := "exited"

/-- The constant `servicePortBase`. -/
def servicePortBase : Int := 8080

/-- The constant `appIdxBase`. -/
def appIdxBase : Int := 1

/-- The rendering `fmt.Sprintf(bundleIDFormat, appIdx)`. -/
def bundleIDOf (appIdx : Int) : String := "com.mercedes_benz.app_" ++ fmtInt appIdx

/-- The type `virtualContainer`. -/
structure virtualContainer where
  appIdx : Int
  container : Container
  deriving DecidableEq

/-- The state of `debugContainerManager`; the two counters are `int32`. What
is printed to the writer is not kept. -/
structure debugContainerManager where
  container : GoMap virtualContainer
  nextServicePort : Int
  nextAppIdx : Int
  deriving DecidableEq

/-- The constructor `NewDebugContainerManager`. -/
def NewDebugContainerManager : debugContainerManager :=
  { container := [], nextServicePort := servicePortBase, nextAppIdx := appIdxBase }

/-- The method `debugContainerManager.Containers`; its error is always
`nil`. -/
def debugContainerManager.Containers (d : debugContainerManager) : List Container :=
  d.container.map (fun e => e.2.container)

/-- The method `debugContainerManager.StartContainer`. -/
def debugContainerManager.StartContainer (d : debugContainerManager) (id : String) :
    debugContainerManager × Option Error :=
  match mapGet d.container id with
  | some vc =>
    ({ container :=
         mapSet d.container id
           { appIdx := vc.appIdx
             container :=
               { ID := vc.container.ID, FirstName := vc.container.FirstName,
                 Image := vc.container.Image, Ports := vc.container.Ports,
                 Status := statusRunning } }
       nextServicePort := d.nextServicePort
       nextAppIdx := d.nextAppIdx }, none)
  | none => (d, some (.runtime ("container not found: " ++ id)))

/-- The method `debugContainerManager.StopContainer`. -/
def debugContainerManager.StopContainer (d : debugContainerManager) (id : String) :
    debugContainerManager × Option Error :=
  match mapGet d.container id with
  | some vc =>
    ({ container :=
         mapSet d.container id
           { appIdx := vc.appIdx
             container :=
               { ID := vc.container.ID, FirstName := vc.container.FirstName,
                 Image := vc.container.Image, Ports := vc.container.Ports,
                 Status := statusExited } }
       nextServicePort := d.nextServicePort
       nextAppIdx := d.nextAppIdx }, none)
  | none => (d, some (.runtime ("container not found: " ++ id)))

/-- The method `debugContainerManager.PullImageAndCreateContainer`: `id` is
the string `generateRandomContainerId` returns in the call and `ports` the
text `formatPortBindings` makes of the port bindings. The error is always
`nil`; the result is the bundle ID and the service port. -/
def debugContainerManager.PullImageAndCreateContainer (d : debugContainerManager)
    (id name ports : String) : debugContainerManager × (String × Int) :=
  let container := mapSet d.container id
    { appIdx := d.nextAppIdx
      container :=
        { ID := id, FirstName := id, Image := name, Ports := ports, Status := statusRunning } }
  let bundleID := bundleIDOf d.nextAppIdx
  let servicePort := d.nextServicePort
  ({ container := container
     nextServicePort := toInt32 (d.nextServicePort + 1)
     nextAppIdx := toInt32 (d.nextAppIdx + 1) }, (bundleID, servicePort))

/-- The method `debugContainerManager.RemoveImageAndContainer`: the loop ends
at the first container of the image it meets. The order in which a `range`
visits the map is not fixed, so `pick` says which of the containers of the
image is met first. The error is always `nil`; the result is the ID of the
container removed (`none` when the image has no container), the bundle ID and
the service port. -/
def debugContainerManager.RemoveImageAndContainer (d : debugContainerManager)
    (name : String) (pick : Nat) : debugContainerManager × Option String × (String × Int) :=
  let found := d.container.filter (fun e => decide (e.2.container.Image = name))
  match found[pick % found.length]? with
  | some (id, vc) =>
    ({ container := mapDelete d.container id
       nextServicePort := d.nextServicePort
       nextAppIdx := d.nextAppIdx },
      some id, (bundleIDOf vc.appIdx, toInt32 (servicePortBase - 1 + vc.appIdx)))
  | none => (d, none, ("", -1))

/-- A call of a method of the emulated runtime, with what the call draws from
outside: the random container ID of a pull and the iteration order of a
removal. -/
inductive DebugCall where
  | pull (id name ports : String)
  | remove (name : String) (pick : Nat)
  | start (id : String)
  | stop (id : String)
  deriving DecidableEq

/-- What a call of the emulated runtime returns; for a removal also the ID of
the container it removed, which the method prints. -/
inductive DebugResult where
  | pulled (bundleID : String) (servicePort : Int)
  | removed (id : Option String) (bundleID : String) (servicePort : Int)
  | started (err : Option Error)
  | stopped (err : Option Error)
  deriving DecidableEq

/-- One call on the emulated runtime. -/
def debugStep (d : debugContainerManager) : DebugCall → debugContainerManager × DebugResult
  | .pull id name ports =>
    let r := d.PullImageAndCreateContainer id name ports
    (r.1, .pulled r.2.1 r.2.2)
  | .remove name pick =>
    let r := d.RemoveImageAndContainer name pick
    (r.1, .removed r.2.1 r.2.2.1 r.2.2.2)
  | .start id =>
    let r := d.StartContainer id
    (r.1, .started r.2)
  | .stop id =>
    let r := d.StopContainer id
    (r.1, .stopped r.2)

/-- A sequence of calls on the emulated runtime: the state afterwards and the
results in call order. -/
def debugRun : debugContainerManager → List DebugCall →
    debugContainerManager × List DebugResult
  | d, [] => (d, [])
  | d, c :: rest =>
    let r := debugStep d c
    let rs := debugRun r.1 rest
    (rs.1, r.2 :: rs.2)

/-- The container IDs the pulls of a call sequence generate, in call order. -/
def pullIDs (calls : List DebugCall) : List String :=
  calls.filterMap (fun c =>
    match c with
    | .pull id _ _ => some id
    | _ => none)

/-- The emulated runtime with the sources it draws from: the random container
IDs still to come and the iteration orders still to come. -/
structure EmulatedRuntime where
  manager : debugContainerManager
  randomIDs : Nat → String
  drawn : Nat
  orders : Nat → Nat
  ranged : Nat

/-- The emulated runtime behind the interface `container.Manager`. -/
def emulatedManager : Manager EmulatedRuntime :=
  { Containers := fun r => (.ok r.manager.Containers, r)
    PullImageAndCreateContainer := fun r name _ =>
      let res := r.manager.PullImageAndCreateContainer (r.randomIDs r.drawn) name ""
      (.ok res.2,
        { manager := res.1, randomIDs := r.randomIDs, drawn := r.drawn + 1,
          orders := r.orders, ranged := r.ranged })
    RemoveImageAndContainer := fun r name _ =>
      let res := r.manager.RemoveImageAndContainer name (r.orders r.ranged)
      (.ok res.2.2,
        { manager := res.1, randomIDs := r.randomIDs, drawn := r.drawn,
          orders := r.orders, ranged := r.ranged + 1 }) }

/-- The state of the emulated runtime after pulls that generated the container
IDs `ids`, in this order: the counters stand at the number of pulls, and every
container held was created by one of the pulls and carries its number. -/
def TracksPulls (d : debugContainerManager) (ids : List String) : Prop :=
  d.nextAppIdx = toInt32 (1 + (ids.length : Int)) ∧
    d.nextServicePort = toInt32 (8080 + (ids.length : Int)) ∧
    ∀ e ∈ d.container, ∃ j : Nat, ids[j]? = some e.1 ∧ e.2.appIdx = toInt32 (1 + (j : Int))

/-- Every container held has one of the two statuses of the emulated
runtime. -/
def StatusesEmulated (d : debugContainerManager) : Prop :=
  ∀ e ∈ d.container, e.2.container.Status = statusRunning ∨ e.2.container.Status = statusExited

/-! ## Orchestrator: what a reconciliation does, item by item -/

/-- The identifier `fmt.Sprintf("%s:%s", i.Name, i.Version)` that `process`
passes to the runtime for an image. -/
def imageIdentifier (i : Image) : String := i.Name ++ ":" ++ i.Version

/-- The test of the removal loop for the communication middleware:
`strings.HasSuffix(i.Name, ParseImageName(envoyContainerImageName).Name)`. -/
def isMiddleware (i : Image) : Bool :=
  stringsHasSuffix i.Name (ParseImageName envoyContainerImageName).Name

/-- The images passed to `RemoveImageAndContainer` with bundle introspection,
in the order of the calls. -/
def removalsOf (events : List OrchestratorEvent) : List String :=
  events.filterMap (fun e =>
    match e with
    | .remove name true => some name
    | _ => none)

/-- The images passed to `PullImageAndCreateContainer`, in the order of the
calls. -/
def pullsOf (events : List OrchestratorEvent) : List String :=
  events.filterMap (fun e =>
    match e with
    | .pull name => some name
    | _ => none)

/-- What the reconciliation is to do for one image to remove: one removal with
bundle introspection; when it fails, one more removal without introspection and
no announcement; when it succeeds, one UNREGISTERED announcement with the
bundle ID and port the removal returned. -/
def removeOne {σ : Type} (cntMgr : Manager σ) (s : σ) (i : Image) :
    σ × List OrchestratorEvent :=
  match cntMgr.RemoveImageAndContainer s (imageIdentifier i) true with
  | (.error _, s1) =>
    ((cntMgr.RemoveImageAndContainer s1 (imageIdentifier i) false).2,
      [.remove (imageIdentifier i) true, .remove (imageIdentifier i) false])
  | (.ok (bundleID, servicePort), s1) =>
    (s1, [.remove (imageIdentifier i) true, .unregistered bundleID servicePort])

/-- What the reconciliation is to do for one image to install: one pull; when
it fails, nothing more; when it succeeds, one REGISTERED announcement with the
bundle ID and port the pull returned. -/
def installOne {σ : Type} (cntMgr : Manager σ) (s : σ) (i : Image) :
    σ × List OrchestratorEvent :=
  match cntMgr.PullImageAndCreateContainer s (imageIdentifier i) true with
  | (.error _, s1) => (s1, [.pull (imageIdentifier i)])
  | (.ok (bundleID, servicePort), s1) =>
    (s1, [.pull (imageIdentifier i), .registered bundleID servicePort])

/-- Every item of a list handled in order, each from the state the one before
left, whatever the outcome of the one before was: the final state and the
events of all items. -/
def runItems {σ : Type} (step : σ → Image → σ × List OrchestratorEvent) :
    List Image → σ → σ × List OrchestratorEvent
  | [], s => (s, [])
  | i :: rest, s =>
    let r1 := step s i
    let r2 := runItems step rest r1.1
    (r2.1, r1.2 ++ r2.2)

/-! ## Predicates on the services map -/

/-- Every port list stored in the services map satisfies `P`. -/
def AllPorts (P : List Int → Prop) (services : ServiceConfigSnapshot) : Prop :=
  ∀ e ∈ services, ∀ bp ∈ e.2, P bp.2

/-- The port lists of the services map are strictly ascending. -/
def PortsSorted (services : ServiceConfigSnapshot) : Prop :=
  AllPorts (fun ports => ports.Sorted (· < ·)) services

/-- No bundle key of the services map holds an empty port list. -/
def NoEmptyPorts (services : ServiceConfigSnapshot) : Prop :=
  AllPorts (fun ports => ports ≠ []) services

/-- The services map has an entry for `bundleID` under the node `nodeID`. -/
def Owns (services : ServiceConfigSnapshot) (nodeID bundleID : String) : Prop :=
  ∃ inner ports, (nodeID, inner) ∈ services ∧ (bundleID, ports) ∈ inner

/-! ## Node registry: identifiers -/

theorem registerAll_spec (reqs : List RegisterRequest) (s : NodeRegistryServer) :
    (registerAll s reqs).2 =
        (List.range' s.nodes.length reqs.length).map
          (fun (k : Nat) => ({ Id := "node-" ++ fmtInt (k : Int) } : RegisterResponse)) ∧
      (registerAll s reqs).1.nodes =
        s.nodes ++ reqs.map (fun r => ({ Host := r.Address, Port := r.Port } : NodeAddr)) := by
  induction reqs generalizing s with
  | nil => simp [registerAll]
  | cons r rs ih =>
    have h := ih (s.Register r).1
    have hlen : (s.Register r).1.nodes.length = s.nodes.length + 1 := by
      simp [NodeRegistryServer.Register]
    have hid : (s.Register r).2 = { Id := "node-" ++ fmtInt (s.nodes.length : Int) } := by
      simp [NodeRegistryServer.Register]
    have hnodes : (s.Register r).1.nodes = s.nodes ++ [{ Host := r.Address, Port := r.Port }] := by
      simp [NodeRegistryServer.Register]
    rw [hlen, hnodes] at h
    constructor
    · simp only [registerAll, List.length_cons, List.range'_succ, List.map_cons]
      rw [h.1, hid]
    · simp only [registerAll, List.map_cons]
      rw [h.2]
      simp

/-- C1: on a fresh node registry, the k-th of n sequential `Register` calls
answers with the ID `node-k`, and afterwards the node list has exactly n
entries, entry k holding the address and port of the k-th call. -/
theorem register_ids_dense (reqs : List RegisterRequest) :
    (registerAll NewNodeRegistryServer reqs).2 =
        (List.range reqs.length).map
          (fun (k : Nat) => ({ Id := "node-" ++ fmtInt (k : Int) } : RegisterResponse)) ∧
      (registerAll NewNodeRegistryServer reqs).1.nodes =
        reqs.map (fun r => ({ Host := r.Address, Port := r.Port } : NodeAddr)) ∧
      (registerAll NewNodeRegistryServer reqs).1.nodes.length = reqs.length := by
  have h := registerAll_spec reqs NewNodeRegistryServer
  have h0 : NewNodeRegistryServer.nodes = [] := rfl
  rw [h0] at h
  simp only [List.length_nil, List.nil_append] at h
  refine ⟨?_, h.2, ?_⟩
  · rw [h.1, List.range_eq_range']
  · rw [h.2, List.length_map]

/-! ## Go maps: basic facts -/

theorem mem_mapSet {α : Type} {m : GoMap α} {key : String} {v : α} {e : String × α}
    (h : e ∈ mapSet m key v) : e = (key, v) ∨ e ∈ m := by
  induction m with
  | nil => simp [mapSet] at h; exact Or.inl h
  | cons a m ih =>
    obtain ⟨k, w⟩ := a
    unfold mapSet at h
    split_ifs at h with hk
    · rcases List.mem_cons.1 h with h | h
      · exact Or.inl h
      · exact Or.inr (List.mem_cons_of_mem _ h)
    · rcases List.mem_cons.1 h with h | h
      · exact Or.inr (h ▸ List.mem_cons_self _ _)
      · rcases ih h with h | h
        · exact Or.inl h
        · exact Or.inr (List.mem_cons_of_mem _ h)

theorem mem_mapDelete {α : Type} {m : GoMap α} {key : String} {e : String × α}
    (h : e ∈ mapDelete m key) : e ∈ m ∧ e.1 ≠ key := by
  induction m with
  | nil => simp [mapDelete] at h
  | cons a m ih =>
    obtain ⟨k, w⟩ := a
    unfold mapDelete at h
    split_ifs at h with hk
    · exact ⟨List.mem_cons_of_mem _ (ih h).1, (ih h).2⟩
    · rcases List.mem_cons.1 h with h | h
      · subst h
        exact ⟨List.mem_cons_self _ _, hk⟩
      · exact ⟨List.mem_cons_of_mem _ (ih h).1, (ih h).2⟩

theorem mem_of_mapGet {α : Type} {m : GoMap α} {key : String} {v : α}
    (h : mapGet m key = some v) : (key, v) ∈ m := by
  induction m with
  | nil => simp [mapGet] at h
  | cons a m ih =>
    obtain ⟨k, w⟩ := a
    unfold mapGet at h
    split_ifs at h with hk
    · simp only [Option.some.injEq] at h
      subst h hk
      exact List.mem_cons_self _ _
    · exact List.mem_cons_of_mem _ (ih h)

theorem mapGet_mapSet_same {α : Type} (m : GoMap α) (key : String) (v : α) :
    mapGet (mapSet m key v) key = some v := by
  induction m with
  | nil => simp [mapSet, mapGet]
  | cons a m ih =>
    obtain ⟨k, w⟩ := a
    unfold mapSet
    split_ifs with hk
    · simp [mapGet]
    · simp [mapGet, hk, ih]

theorem mapSet_mapSet {α : Type} (m : GoMap α) (key : String) (v w : α) :
    mapSet (mapSet m key v) key w = mapSet m key w := by
  induction m with
  | nil => simp [mapSet]
  | cons a m ih =>
    obtain ⟨k, u⟩ := a
    by_cases hk : k = key
    · simp [mapSet, hk]
    · simp [mapSet, hk, ih]

theorem mapSet_of_mapGet {α : Type} {m : GoMap α} {key : String} {v : α}
    (h : mapGet m key = some v) : mapSet m key v = m := by
  induction m with
  | nil => simp [mapGet] at h
  | cons a m ih =>
    obtain ⟨k, w⟩ := a
    unfold mapGet at h
    unfold mapSet
    split_ifs at h ⊢ with hk
    · simp only [Option.some.injEq] at h
      subst h hk
      rfl
    · rw [ih h]

theorem mapDelete_of_mapGet_none {α : Type} {m : GoMap α} {key : String}
    (h : mapGet m key = none) : mapDelete m key = m := by
  induction m with
  | nil => rfl
  | cons a m ih =>
    obtain ⟨k, w⟩ := a
    unfold mapGet at h
    unfold mapDelete
    split_ifs at h ⊢ with hk
    rw [ih h]

/-! ## Slices: sorting and compaction -/

theorem mem_slicesCompact (l : List Int) (x : Int) : x ∈ slicesCompact l ↔ x ∈ l := by
  induction l using slicesCompact.induct with
  | case1 => simp [slicesCompact]
  | case2 a => simp [slicesCompact]
  | case3 b t ih =>
    simp only [slicesCompact, if_true, ih, List.mem_cons]
    tauto
  | case4 a b t hab ih =>
    simp only [slicesCompact, hab, if_false, List.mem_cons, ih]

theorem sorted_slicesCompact (l : List Int) (h : l.Sorted (· ≤ ·)) :
    (slicesCompact l).Sorted (· < ·) := by
  induction l using slicesCompact.induct with
  | case1 => simp [slicesCompact]
  | case2 a => simp [slicesCompact]
  | case3 b t ih =>
    simp only [slicesCompact, if_true]
    exact ih (List.Sorted.of_cons h)
  | case4 a b t hab ih =>
    simp only [slicesCompact, hab, if_false]
    have hs := ih (List.Sorted.of_cons h)
    refine List.sorted_cons.2 ⟨?_, hs⟩
    intro y hy
    rw [mem_slicesCompact] at hy
    have hab2 : a ≤ b := List.rel_of_sorted_cons h b (List.mem_cons_self _ _)
    have hay : a ≤ y := List.rel_of_sorted_cons h y hy
    rcases List.mem_cons.1 hy with hy | hy
    · subst hy
      exact lt_of_le_of_ne hab2 hab
    · have hby : b ≤ y := List.rel_of_sorted_cons (List.Sorted.of_cons h) y hy
      exact lt_of_lt_of_le (lt_of_le_of_ne hab2 hab) hby

/-- The port list `registerService` stores: sorted and compacted. -/
theorem sorted_compact_sort (l : List Int) :
    (slicesCompact (slicesSort l)).Sorted (· < ·) :=
  sorted_slicesCompact _ (List.sorted_insertionSort (· ≤ ·) l)

theorem mem_compact_sort (l : List Int) (x : Int) :
    x ∈ slicesCompact (slicesSort l) ↔ x ∈ l := by
  rw [mem_slicesCompact]
  exact (List.perm_insertionSort (· ≤ ·) l).mem_iff

theorem compact_sort_append_of_mem (l : List Int) (p : Int) (hs : l.Sorted (· < ·))
    (hp : p ∈ l) : slicesCompact (slicesSort (l ++ [p])) = l := by
  apply List.eq_of_perm_of_sorted _ (sorted_compact_sort _) hs
  rw [List.perm_ext_iff_of_nodup (sorted_compact_sort _).nodup hs.nodup]
  intro x
  rw [mem_compact_sort]
  simp only [List.mem_append, List.mem_singleton]
  constructor
  · rintro (h | h)
    · exact h
    · exact h ▸ hp
  · exact Or.inl

/-! ## Service registry: the two updates in closed form -/

theorem mapGet_mapDelete_same {α : Type} (m : GoMap α) (key : String) :
    mapGet (mapDelete m key) key = none := by
  induction m with
  | nil => rfl
  | cons a m ih =>
    obtain ⟨k, w⟩ := a
    by_cases hk : k = key
    · simp [mapDelete, hk, ih]
    · simp [mapDelete, mapGet, hk, ih]

theorem slicesIndex_eq_none {l : List Int} {v : Int} :
    slicesIndex l v = none ↔ v ∉ l := by
  induction l with
  | nil => simp [slicesIndex]
  | cons a t ih =>
    by_cases h : a = v
    · simp [slicesIndex, h]
    · simp [slicesIndex, h, ih, Ne.symm h]

theorem registerPorts_eq (s : ServiceConfigSnapshot) (n b : String) (p : Int) :
    registerPorts s n b p =
      mapSet s n (mapSet ((mapGet s n).getD []) b
        (slicesCompact (slicesSort (portsOf s n b ++ [p])))) := by
  unfold registerPorts portsOf
  cases h : mapGet s n with
  | none => simp [mapGet_mapSet_same, mapSet_mapSet]
  | some inner => simp [h]

theorem portsOf_registerPorts (s : ServiceConfigSnapshot) (n b : String) (p : Int) :
    portsOf (registerPorts s n b p) n b =
      slicesCompact (slicesSort (portsOf s n b ++ [p])) := by
  rw [registerPorts_eq]
  simp [portsOf, mapGet_mapSet_same]

theorem unregisterPorts_of_not_found {s : ServiceConfigSnapshot} {n b : String} {p : Int}
    (h : slicesIndex (portsOf s n b) p = none) :
    unregisterPorts s n b p =
      if (portsOf s n b).length = 0 then
        match mapGet s n with
        | some inner => mapSet s n (mapDelete inner b)
        | none => s
      else s := by
  unfold unregisterPorts
  simp only [h]

theorem unregisterPorts_of_found {s : ServiceConfigSnapshot} {n b : String} {p : Int}
    {i : Nat} (h : slicesIndex (portsOf s n b) p = some i) :
    unregisterPorts s n b p =
      if (slicesDelete (portsOf s n b) i).length = 0 then
        mapSet s n (mapDelete (mapSet ((mapGet s n).getD []) b
          (slicesDelete (portsOf s n b) i)) b)
      else
        mapSet s n (mapSet ((mapGet s n).getD []) b (slicesDelete (portsOf s n b) i)) := by
  unfold unregisterPorts
  simp only [h]
  have hp : portsOf (mapSet s n (mapSet ((mapGet s n).getD []) b
      (slicesDelete (portsOf s n b) i))) n b = slicesDelete (portsOf s n b) i := by
    simp [portsOf, mapGet_mapSet_same]
  rw [hp]
  split_ifs with hlen
  · simp [mapGet_mapSet_same, mapSet_mapSet]
  · rfl

/-! ## Service registry: invariants of the port lists -/

theorem allPorts_inner {P : List Int → Prop} {s : ServiceConfigSnapshot}
    (hs : AllPorts P s) (n : String) : ∀ bp ∈ (mapGet s n).getD [], P bp.2 := by
  intro bp hbp
  cases h : mapGet s n with
  | none => simp [h] at hbp
  | some inner =>
    simp only [h, Option.getD_some] at hbp
    exact hs _ (mem_of_mapGet h) bp hbp

theorem allPorts_mapSet {P : List Int → Prop} {s : ServiceConfigSnapshot}
    (hs : AllPorts P s) (n : String) {inner : GoMap (List Int)}
    (hi : ∀ bp ∈ inner, P bp.2) : AllPorts P (mapSet s n inner) := by
  intro e he bp hbp
  rcases mem_mapSet he with h | h
  · subst h
    exact hi bp hbp
  · exact hs e h bp hbp

theorem portsOf_mem_inner {s : ServiceConfigSnapshot} {n b : String}
    (h : portsOf s n b ≠ []) : (b, portsOf s n b) ∈ (mapGet s n).getD [] := by
  unfold portsOf at h ⊢
  cases hb : mapGet ((mapGet s n).getD []) b with
  | none => simp [hb] at h
  | some ports =>
    simp only [Option.getD_some]
    exact mem_of_mapGet hb

theorem allPorts_registerPorts {P : List Int → Prop} {s : ServiceConfigSnapshot}
    (hs : AllPorts P s) (n b : String) (p : Int)
    (hnew : P (slicesCompact (slicesSort (portsOf s n b ++ [p])))) :
    AllPorts P (registerPorts s n b p) := by
  rw [registerPorts_eq]
  apply allPorts_mapSet hs
  intro bp hbp
  rcases mem_mapSet hbp with h | h
  · subst h
    exact hnew
  · exact allPorts_inner hs n bp h

theorem allPorts_unregisterPorts {P : List Int → Prop} {s : ServiceConfigSnapshot}
    (hs : AllPorts P s) (n b : String) (p : Int)
    (hdel : ∀ ports i, P ports → slicesDelete ports i ≠ [] → P (slicesDelete ports i)) :
    AllPorts P (unregisterPorts s n b p) := by
  cases hidx : slicesIndex (portsOf s n b) p with
  | none =>
    rw [unregisterPorts_of_not_found hidx]
    split_ifs with hlen
    · cases hn : mapGet s n with
      | none => exact hs
      | some inner =>
        apply allPorts_mapSet hs
        intro bp hbp
        exact hs _ (mem_of_mapGet hn) bp (mem_mapDelete hbp).1
    · exact hs
  | some i =>
    have hne : portsOf s n b ≠ [] := by
      intro h0
      rw [h0] at hidx
      simp [slicesIndex] at hidx
    have hP : P (portsOf s n b) := allPorts_inner hs n _ (portsOf_mem_inner hne)
    rw [unregisterPorts_of_found hidx]
    split_ifs with hlen
    · apply allPorts_mapSet hs
      intro bp hbp
      obtain ⟨hmem, hkey⟩ := mem_mapDelete hbp
      rcases mem_mapSet hmem with h | h
      · subst h
        exact absurd rfl hkey
      · exact allPorts_inner hs n bp h
    · apply allPorts_mapSet hs
      intro bp hbp
      rcases mem_mapSet hbp with h | h
      · subst h
        exact hdel _ i hP (fun h0 => hlen (by rw [h0]; rfl))
      · exact allPorts_inner hs n bp h

theorem allPorts_announceAll {P : List Int → Prop}
    (hreg : ∀ (l : List Int) (p : Int), P (slicesCompact (slicesSort (l ++ [p]))))
    (hdel : ∀ ports i, P ports → slicesDelete ports i ≠ [] → P (slicesDelete ports i))
    (as : List (String × ServiceAnnouncement)) (s : ServiceRegistryServer)
    (hs : AllPorts P s.services) : AllPorts P (announceAll s as).services := by
  induction as generalizing s with
  | nil => exact hs
  | cons a as ih =>
    simp only [announceAll, List.foldl_cons]
    apply ih
    unfold ServiceRegistryServer.announce
    split_ifs with hst
    · exact allPorts_registerPorts hs _ _ _ (hreg _ _)
    · exact allPorts_unregisterPorts hs _ _ _ hdel

theorem compact_sort_ne_nil (l : List Int) (p : Int) :
    slicesCompact (slicesSort (l ++ [p])) ≠ [] := by
  intro h
  have hp : p ∈ slicesCompact (slicesSort (l ++ [p])) := by
    rw [mem_compact_sort]
    simp
  rw [h] at hp
  exact List.not_mem_nil _ hp

theorem portsSorted_announceAll (as : List (String × ServiceAnnouncement)) :
    PortsSorted (announceAll NewServiceRegistryServer as).services := by
  apply allPorts_announceAll (P := fun ports => ports.Sorted (· < ·))
  · exact fun l p => sorted_compact_sort _
  · intro ports i hP _
    exact List.Pairwise.sublist (List.eraseIdx_sublist ports i) hP
  · intro e he
    simp [NewServiceRegistryServer] at he

theorem noEmptyPorts_announceAll (as : List (String × ServiceAnnouncement)) :
    NoEmptyPorts (announceAll NewServiceRegistryServer as).services := by
  apply allPorts_announceAll (P := fun ports => ports ≠ [])
  · exact compact_sort_ne_nil
  · intro ports i _ h
    exact h
  · intro e he
    simp [NewServiceRegistryServer] at he

theorem registerPorts_of_mem {s : ServiceConfigSnapshot} (hs : PortsSorted s)
    {n b : String} {p : Int} (hp : p ∈ portsOf s n b) : registerPorts s n b p = s := by
  have hne : portsOf s n b ≠ [] := List.ne_nil_of_mem hp
  have hsorted : (portsOf s n b).Sorted (· < ·) :=
    allPorts_inner hs n _ (portsOf_mem_inner hne)
  rw [registerPorts_eq, compact_sort_append_of_mem _ _ hsorted hp]
  have hn : ∃ inner, mapGet s n = some inner := by
    cases h : mapGet s n with
    | none => simp [portsOf, h, mapGet] at hne
    | some inner => exact ⟨inner, rfl⟩
  obtain ⟨inner, hn⟩ := hn
  have hb : mapGet inner b = some (portsOf s n b) := by
    cases h : mapGet inner b with
    | none => simp [portsOf, hn, h] at hne
    | some ports => simp [portsOf, hn, h]
  simp only [hn, Option.getD_some]
  rw [mapSet_of_mapGet hb, mapSet_of_mapGet hn]

theorem unregisterPorts_of_not_mem {s : ServiceConfigSnapshot} (hs : NoEmptyPorts s)
    {n b : String} {p : Int} (hp : p ∉ portsOf s n b) : unregisterPorts s n b p = s := by
  rw [unregisterPorts_of_not_found (slicesIndex_eq_none.2 hp)]
  split_ifs with hlen
  · cases hn : mapGet s n with
    | none => rfl
    | some inner =>
      simp only
      have hb : mapGet inner b = none := by
        cases h : mapGet inner b with
        | none => rfl
        | some ports =>
          have h0 : ports = [] := by
            have := List.length_eq_zero.1 hlen
            simpa [portsOf, hn, h] using this
          exact absurd h0 (hs _ (mem_of_mapGet hn) _ (mem_of_mapGet h))
      rw [mapDelete_of_mapGet_none hb, mapSet_of_mapGet hn]
  · rfl

theorem unregisterPorts_last {s : ServiceConfigSnapshot} {n b : String} {p : Int}
    (h : portsOf s n b = [p]) :
    mapGet ((mapGet (unregisterPorts s n b p) n).getD []) b = none := by
  have hidx : slicesIndex (portsOf s n b) p = some 0 := by simp [h, slicesIndex]
  rw [unregisterPorts_of_found hidx, h]
  simp [slicesDelete, mapGet_mapSet_same, mapGet_mapDelete_same]

/-! ## Service registry: the claims -/

/-- C2: after every finite sequence of REGISTERED and UNREGISTERED
announcements applied to an empty service registry, every stored port list is
strictly ascending, and registering a (node, bundle, port) a second time
leaves the registry as the first registration left it, the port list of the
pair included. -/
theorem ports_sorted_and_register_idempotent (as : List (String × ServiceAnnouncement))
    (nodeID bundleID : String) (port : Int) :
    PortsSorted (announceAll NewServiceRegistryServer as).services ∧
      (((announceAll NewServiceRegistryServer as).registerService nodeID bundleID
          port).registerService nodeID bundleID port).services =
        ((announceAll NewServiceRegistryServer as).registerService nodeID bundleID
          port).services ∧
      portsOf (((announceAll NewServiceRegistryServer as).registerService nodeID bundleID
          port).registerService nodeID bundleID port).services nodeID bundleID =
        portsOf ((announceAll NewServiceRegistryServer as).registerService nodeID bundleID
          port).services nodeID bundleID := by
  have hs := portsSorted_announceAll as
  have hs1 : PortsSorted (registerPorts (announceAll NewServiceRegistryServer as).services
      nodeID bundleID port) :=
    allPorts_registerPorts hs _ _ _ (sorted_compact_sort _)
  have hmem : port ∈ portsOf (registerPorts (announceAll NewServiceRegistryServer as).services
      nodeID bundleID port) nodeID bundleID := by
    rw [portsOf_registerPorts, mem_compact_sort]
    simp
  have heq := registerPorts_of_mem hs1 hmem
  refine ⟨hs, ?_, ?_⟩
  · simpa [ServiceRegistryServer.registerService] using heq
  · simp only [ServiceRegistryServer.registerService]
    rw [heq]

/-- C3: in every state reached from the empty service registry no bundle key
holds an empty port list; when `unregisterService` removes the only port of a
bundle the bundle key is gone from the node's map afterwards; and REGISTER of
(com.x.app, 8080) followed by its UNREGISTER on node-1 leaves node-1 without a
com.x.app key. -/
theorem no_empty_port_list (as : List (String × ServiceAnnouncement))
    (nodeID bundleID : String) (port : Int) :
    NoEmptyPorts (announceAll NewServiceRegistryServer as).services ∧
      (portsOf (announceAll NewServiceRegistryServer as).services nodeID bundleID = [port] →
        mapGet ((mapGet ((announceAll NewServiceRegistryServer as).unregisterService
          nodeID bundleID port).services nodeID).getD []) bundleID = none) ∧
      mapGet ((mapGet (announceAll NewServiceRegistryServer
          [("node-1", ⟨"com.x.app", 8080, .REGISTERED⟩),
           ("node-1", ⟨"com.x.app", 8080, .UNREGISTERED⟩)]).services "node-1").getD [])
        "com.x.app" = none := by
  refine ⟨noEmptyPorts_announceAll as, ?_, by decide⟩
  intro h
  exact unregisterPorts_last h

/-- Witness for C3: after REGISTER of (com.x.app, 8080) on node-1 the port
list is `[8080]`, and its UNREGISTER deletes the key. -/
theorem no_empty_port_list_witness :
    portsOf (announceAll NewServiceRegistryServer
        [("node-1", ⟨"com.x.app", 8080, .REGISTERED⟩)]).services "node-1" "com.x.app" = [8080] ∧
      mapGet ((mapGet ((announceAll NewServiceRegistryServer
        [("node-1", ⟨"com.x.app", 8080, .REGISTERED⟩)]).unregisterService
          "node-1" "com.x.app" 8080).services "node-1").getD []) "com.x.app" = none :=
  ⟨by decide,
    (no_empty_port_list [("node-1", ⟨"com.x.app", 8080, .REGISTERED⟩)]
      "node-1" "com.x.app" 8080).2.1 (by decide)⟩

/-- C4: in every state reached from the empty service registry,
`unregisterService` of a port that is not in the port list of (node, bundle),
the node or the bundle having no entry included, leaves the services map as it
was. -/
theorem unregister_absent_port_noop (as : List (String × ServiceAnnouncement))
    (nodeID bundleID : String) (port : Int)
    (h : port ∉ portsOf (announceAll NewServiceRegistryServer as).services nodeID bundleID) :
    ((announceAll NewServiceRegistryServer as).unregisterService nodeID bundleID
      port).services = (announceAll NewServiceRegistryServer as).services := by
  simp only [ServiceRegistryServer.unregisterService]
  exact unregisterPorts_of_not_mem (noEmptyPorts_announceAll as) h

/-- Witness for C4: with (com.x.app, 8080) registered on node-1, UNREGISTER of
port 80 changes nothing. -/
theorem unregister_absent_port_noop_witness :
    (80 : Int) ∉ portsOf (announceAll NewServiceRegistryServer
        [("node-1", ⟨"com.x.app", 8080, .REGISTERED⟩)]).services "node-1" "com.x.app" ∧
      ((announceAll NewServiceRegistryServer
        [("node-1", ⟨"com.x.app", 8080, .REGISTERED⟩)]).unregisterService
          "node-1" "com.x.app" 80).services =
        (announceAll NewServiceRegistryServer
          [("node-1", ⟨"com.x.app", 8080, .REGISTERED⟩)]).services :=
  ⟨by decide,
    unregister_absent_port_noop [("node-1", ⟨"com.x.app", 8080, .REGISTERED⟩)]
      "node-1" "com.x.app" 80 (by decide)⟩

/-! ## Node IDs: rendering and reading back -/

theorem digitValue_digitChar : ∀ m : Nat, m < 10 → digitValue (Nat.digitChar m) = some m := by
  decide

theorem parseDigits_append (l1 l2 : List Char) (acc : Nat) :
    parseDigits (l1 ++ l2) acc = (parseDigits l1 acc).bind (parseDigits l2) := by
  induction l1 generalizing acc with
  | nil => rfl
  | cons c cs ih =>
    simp only [List.cons_append, parseDigits]
    cases digitValue c with
    | none => rfl
    | some d => exact ih _

theorem toDigitsCore_spec (n : Nat) : ∀ (fuel : Nat) (ds : List Char), n < fuel →
    ∃ l, Nat.toDigitsCore 10 fuel n ds = l ++ ds ∧ l ≠ [] ∧
      (∀ c ∈ l, digitValue c ≠ none) ∧
      ∀ acc, parseDigits l acc = some (acc * 10 ^ l.length + n) := by
  induction n using Nat.strong_induction_on with
  | _ n ih =>
    intro fuel ds hfuel
    obtain ⟨fuel, rfl⟩ : ∃ f, fuel = f + 1 := ⟨fuel - 1, by omega⟩
    have hd : digitValue (Nat.digitChar (n % 10)) = some (n % 10) :=
      digitValue_digitChar _ (Nat.mod_lt _ (by decide))
    by_cases h0 : n / 10 = 0
    · refine ⟨[Nat.digitChar (n % 10)], ?_, by simp, ?_, ?_⟩
      · simp [Nat.toDigitsCore, h0]
      · intro c hc
        rw [List.mem_singleton.1 hc, hd]
        simp
      · intro acc
        simp only [parseDigits, hd, List.length_singleton, pow_one]
        congr 1
        omega
    · have hlt : n / 10 < n := by omega
      obtain ⟨l, hl, hne, hdig, hparse⟩ :=
        ih (n / 10) hlt fuel (Nat.digitChar (n % 10) :: ds) (by omega)
      refine ⟨l ++ [Nat.digitChar (n % 10)], ?_, by simp, ?_, ?_⟩
      · simp [Nat.toDigitsCore, h0, hl]
      · intro c hc
        rcases List.mem_append.1 hc with hc | hc
        · exact hdig c hc
        · rw [List.mem_singleton.1 hc, hd]
          simp
      · intro acc
        rw [parseDigits_append, hparse]
        simp only [Option.some_bind, parseDigits, hd, List.length_append,
          List.length_singleton, pow_succ]
        congr 1
        have := Nat.div_add_mod n 10
        nlinarith [this]

theorem toDigits_spec (n : Nat) :
    Nat.toDigits 10 n ≠ [] ∧ (∀ c ∈ Nat.toDigits 10 n, digitValue c ≠ none) ∧
      parseDigits (Nat.toDigits 10 n) 0 = some n := by
  obtain ⟨l, hl, hne, hdig, hparse⟩ := toDigitsCore_spec n (n + 1) [] (by omega)
  rw [List.append_nil] at hl
  unfold Nat.toDigits
  rw [hl]
  refine ⟨hne, hdig, ?_⟩
  rw [hparse]
  simp


theorem stringsSplit_of_no_sep (l : List Char) (h : ∀ c ∈ l, c ≠ '-') :
    stringsSplit l = [l] := by
  induction l with
  | nil => rfl
  | cons c cs ih =>
    have hc : c ≠ '-' := h c (List.mem_cons_self _ _)
    have hcs := ih (fun d hd => h d (List.mem_cons_of_mem _ hd))
    simp [stringsSplit, hc, hcs]

theorem strconvAtoi_toDigits (n : Nat) (hn : n < 2 ^ 63) :
    strconvAtoi (Nat.toDigits 10 n) = .ok (n : Int) := by
  obtain ⟨hne, hdig, hparse⟩ := toDigits_spec n
  obtain ⟨c, cs, hcs⟩ := List.exists_cons_of_ne_nil hne
  have hc : digitValue c ≠ none := hdig c (by rw [hcs]; exact List.mem_cons_self _ _)
  have hminus : c ≠ '-' := by
    rintro rfl
    exact hc (by decide)
  have hplus : c ≠ '+' := by
    rintro rfl
    exact hc (by decide)
  rw [hcs] at hparse ⊢
  unfold strconvAtoi
  split
  · rename_i heq
    simp only [List.cons.injEq] at heq
    exact absurd heq.1 hminus
  · rename_i heq
    simp only [List.cons.injEq] at heq
    exact absurd heq.1 hplus
  · simp only [hparse]
    have h1 : -(2 : Int) ^ 63 ≤ (n : Int) := by
      have : (0 : Int) ≤ (n : Int) := Int.ofNat_nonneg n
      omega
    have h2 : (n : Int) ≤ (2 : Int) ^ 63 - 1 := by
      have : (n : Int) < ((2 ^ 63 : Nat) : Int) := Int.ofNat_lt.2 hn
      norm_num at this ⊢
      omega
    rw [if_neg (List.cons_ne_nil c cs)]
    simp only [Bool.false_eq_true, if_false]
    rw [if_pos ⟨h1, h2⟩]

theorem GetNodeIdx_generateNodeID (n : Nat) (hn : n < 2 ^ 63) :
    GetNodeIdx (generateNodeID (n : Int)) = .ok (n : Int) := by
  have hdata : (generateNodeID (n : Int)).data = 'n' :: 'o' :: 'd' :: 'e' :: '-' :: Nat.toDigits 10 n := by
    show ("node-" ++ toString (n : Int)).data = _
    rw [String.data_append]
    rfl
  have hnosep : ∀ c ∈ Nat.toDigits 10 n, c ≠ '-' := by
    intro c hc
    rintro rfl
    exact (toDigits_spec n).2.1 _ hc (by decide)
  unfold GetNodeIdx
  rw [hdata]
  simp only [stringsSplit, stringsSplit_of_no_sep _ hnosep]
  simp [strconvAtoi_toDigits n hn]

theorem strconvAtoi_toDigits_large (n : Nat) (hn : 2 ^ 63 ≤ n) :
    strconvAtoi (Nat.toDigits 10 n) = .error .atoiRange := by
  obtain ⟨hne, hdig, hparse⟩ := toDigits_spec n
  obtain ⟨c, cs, hcs⟩ := List.exists_cons_of_ne_nil hne
  have hc : digitValue c ≠ none := hdig c (by rw [hcs]; exact List.mem_cons_self _ _)
  have hminus : c ≠ '-' := by
    rintro rfl
    exact hc (by decide)
  have hplus : c ≠ '+' := by
    rintro rfl
    exact hc (by decide)
  rw [hcs] at hparse ⊢
  unfold strconvAtoi
  split
  · rename_i heq
    simp only [List.cons.injEq] at heq
    exact absurd heq.1 hminus
  · rename_i heq
    simp only [List.cons.injEq] at heq
    exact absurd heq.1 hplus
  · simp only [hparse]
    rw [if_neg (List.cons_ne_nil c cs)]
    simp only [Bool.false_eq_true, if_false]
    have h2 : ¬ ((n : Int) ≤ (2 : Int) ^ 63 - 1) := by
      have : ((2 ^ 63 : Nat) : Int) ≤ (n : Int) := Int.ofNat_le.2 hn
      norm_num at this ⊢
      omega
    rw [if_neg (fun h => h2 h.2)]

theorem GetNodeIdx_generateNodeID_large (n : Nat) (hn : 2 ^ 63 ≤ n) :
    GetNodeIdx (generateNodeID (n : Int)) = .error .atoiRange := by
  have hdata : (generateNodeID (n : Int)).data =
      'n' :: 'o' :: 'd' :: 'e' :: '-' :: Nat.toDigits 10 n := by
    show ("node-" ++ toString (n : Int)).data = _
    rw [String.data_append]
    rfl
  have hnosep : ∀ c ∈ Nat.toDigits 10 n, c ≠ '-' := by
    intro c hc
    rintro rfl
    exact (toDigits_spec n).2.1 _ hc (by decide)
  unfold GetNodeIdx
  rw [hdata]
  simp only [stringsSplit, stringsSplit_of_no_sep _ hnosep]
  simp [strconvAtoi_toDigits_large n hn]

theorem validateNodeID_ok_iff (s : NodeRegistryServer) (nodeID : String) (i : Int) :
    s.ValidateNodeID nodeID = .ok i ↔
      GetNodeIdx nodeID = .ok i ∧ 0 ≤ i ∧ i < (s.nodes.length : Int) := by
  unfold NodeRegistryServer.ValidateNodeID
  cases h : GetNodeIdx nodeID with
  | error e => simp
  | ok j =>
    simp only
    split_ifs with hj
    · simp only [reduceCtorEq, Except.ok.injEq, false_iff, not_and, not_lt]
      rintro rfl h0
      omega
    · simp only [Except.ok.injEq]
      constructor
      · rintro rfl
        exact ⟨rfl, by omega, by omega⟩
      · exact fun h => h.1

/-! ## Node registry: validation of node IDs -/

/-- C5, as the code has it: with n nodes registered, `ValidateNodeID` succeeds
with index i exactly when `GetNodeIdx` reads i from the string (the piece after
its last `-`, taken as a decimal integer) and 0 ≤ i < n. Hence the ID `node-k`
of every registered node is accepted with index k, `node-k` for an index that
is not registered is refused, and `OpenChannel` answers every refusal with
`FailedPrecondition` before it writes anything to the broker. -/
theorem validateNodeID_spec (reqs : List RegisterRequest) :
    (∀ (nodeID : String) (i : Int),
        (registerAll NewNodeRegistryServer reqs).1.ValidateNodeID nodeID = .ok i ↔
          GetNodeIdx nodeID = .ok i ∧ 0 ≤ i ∧ i < (reqs.length : Int)) ∧
      (∀ k : Nat, k < reqs.length → k < 2 ^ 63 →
        (registerAll NewNodeRegistryServer reqs).1.ValidateNodeID
          ("node-" ++ fmtInt (k : Int)) = .ok (k : Int)) ∧
      (∀ k : Nat, reqs.length ≤ k →
        ∃ err, (registerAll NewNodeRegistryServer reqs).1.ValidateNodeID
          ("node-" ++ fmtInt (k : Int)) = .error err) ∧
      (∀ (json : DeploymentConfig → Except Error String) (md : GoMap (List String))
          (nodeID : String) (rest : List String) (recv : List DeploymentConfiguration)
          (closeErr : Option Error) (err : Error),
        mdGet md HeaderNodeID = nodeID :: rest →
        (registerAll NewNodeRegistryServer reqs).1.ValidateNodeID nodeID = .error err →
        (registerAll NewNodeRegistryServer reqs).1.OpenChannel json (some md) recv closeErr =
          (some (.FailedPrecondition err), [])) := by
  have hlen : (registerAll NewNodeRegistryServer reqs).1.nodes.length = reqs.length := by
    have h := (registerAll_spec reqs NewNodeRegistryServer).2
    have h0 : NewNodeRegistryServer.nodes = [] := rfl
    rw [h0, List.nil_append] at h
    rw [h, List.length_map]
  refine ⟨?_, ?_, ?_, ?_⟩
  · intro nodeID i
    rw [validateNodeID_ok_iff, hlen]
  · intro k hk hk63
    rw [validateNodeID_ok_iff, hlen]
    exact ⟨GetNodeIdx_generateNodeID k hk63, Int.ofNat_nonneg k, Int.ofNat_lt.2 hk⟩
  · intro k hk
    unfold NodeRegistryServer.ValidateNodeID
    by_cases hk63 : k < 2 ^ 63
    · have hget := GetNodeIdx_generateNodeID k hk63
      unfold generateNodeID at hget
      rw [hget, hlen]
      have hgt : (k : Int) > (reqs.length : Int) - 1 := by
        have : (reqs.length : Int) ≤ (k : Int) := Int.ofNat_le.2 hk
        omega
      exact ⟨.invalidNodeID, by simp [hgt]⟩
    · have hget := GetNodeIdx_generateNodeID_large k (by omega)
      unfold generateNodeID at hget
      rw [hget]
      exact ⟨.atoiRange, rfl⟩
  · intro json md nodeID rest recv closeErr err hmd herr
    unfold NodeRegistryServer.OpenChannel
    simp only [hmd, herr]

/-- Witness for C5: with two nodes registered, `node-1` is accepted with
index 1. -/
theorem validateNodeID_spec_witness :
    (registerAll NewNodeRegistryServer [⟨"10.0.0.1", 8000⟩, ⟨"10.0.0.2", 8000⟩]).1.ValidateNodeID
      ("node-" ++ fmtInt ((1 : Nat) : Int)) = .ok ((1 : Nat) : Int) :=
  (validateNodeID_spec [⟨"10.0.0.1", 8000⟩, ⟨"10.0.0.2", 8000⟩]).2.1 1
    (by decide) (by norm_num)

/-- C5 as stated fails: with one node registered, the string `0`, which is no
ID issued by `Register`, is accepted with index 0, and so are `x-0` and
`node-+0`. -/
theorem validateNodeID_accepts_bare_index :
    (registerAll NewNodeRegistryServer [⟨"10.0.0.1", 8000⟩]).1.ValidateNodeID "0" = .ok 0 ∧
      "0" ≠ "node-" ++ fmtInt 0 ∧
      (registerAll NewNodeRegistryServer [⟨"10.0.0.1", 8000⟩]).1.ValidateNodeID "x-0" = .ok 0 ∧
      (registerAll NewNodeRegistryServer [⟨"10.0.0.1", 8000⟩]).1.ValidateNodeID "node-+0" =
        .ok 0 := by
  decide

/-! ## Snapshot builder: versions -/

theorem generateSnapshotsLoop_published (cfg : Config) (nodes : List NodeAddr)
    (services : ServiceConfigSnapshot) (version : Int) (idxs : List Nat)
    (cache : SnapshotCache) :
    ∃ new, (generateSnapshotsLoop cfg nodes services version idxs cache).1.published =
        cache.published ++ new ∧
      ∀ p ∈ new, p.2.Version = fmtInt version ++ ".0" := by
  induction idxs generalizing cache with
  | nil => exact ⟨[], by simp [generateSnapshotsLoop], by simp⟩
  | cons i rest ih =>
    have key : ∀ (node : String) (snap : Snapshot), snap.Version = fmtInt version ++ ".0" →
        ∃ new, (generateSnapshotsLoop cfg nodes services version rest
            (cache.SetSnapshot node snap)).1.published = cache.published ++ new ∧
          ∀ p ∈ new, p.2.Version = fmtInt version ++ ".0" := by
      intro node snap hsnap
      obtain ⟨new, hnew, hver⟩ := ih (cache.SetSnapshot node snap)
      refine ⟨(node, snap) :: new, ?_, ?_⟩
      · rw [hnew]
        simp [SnapshotCache.SetSnapshot]
      · intro p hp
        rcases List.mem_cons.1 hp with hp | hp
        · rw [hp]
          exact hsnap
        · exact hver p hp
    unfold generateSnapshotsLoop
    simp only
    split
    · exact ⟨[], by simp, by simp⟩
    · exact key _ _ rfl

theorem wrapInt_of_range (i : Int) (h1 : -(2 : Int) ^ 63 ≤ i) (h2 : i < (2 : Int) ^ 63) :
    wrapInt i = i := by
  unfold wrapInt
  norm_num at h1 h2 ⊢
  omega

theorem generateSnapshots_step (x : Server) (cfg : Config)
    (h1 : -(2 : Int) ^ 63 ≤ x.snapshotVersion + 1) (h2 : x.snapshotVersion + 1 < (2 : Int) ^ 63) :
    (x.generateSnapshots cfg).1.snapshotVersion = x.snapshotVersion + 1 ∧
      (x.generateSnapshots cfg).1.nodes = x.nodes ∧
      (x.generateSnapshots cfg).1.services = x.services ∧
      ∃ new, (x.generateSnapshots cfg).1.cache.published = x.cache.published ++ new ∧
        ∀ p ∈ new, p.2.Version = fmtInt (x.snapshotVersion + 1) ++ ".0" := by
  unfold Server.generateSnapshots
  simp only [wrapInt_of_range _ h1 h2, true_and]
  exact generateSnapshotsLoop_published cfg x.nodes x.services _ _ x.cache

theorem onNewNode_step (x : Server) (cfg : Config) (newNode : NodeAddr)
    (h1 : -(2 : Int) ^ 63 ≤ x.snapshotVersion + 1) (h2 : x.snapshotVersion + 1 < (2 : Int) ^ 63) :
    (x.onNewNode cfg newNode).1.snapshotVersion = x.snapshotVersion + 1 ∧
      ∃ new, (x.onNewNode cfg newNode).1.cache.published = x.cache.published ++ new ∧
        ∀ p ∈ new, p.2.Version = fmtInt (x.snapshotVersion + 1) ++ ".0" := by
  have h := generateSnapshots_step
    { snapshotVersion := x.snapshotVersion, cache := x.cache,
      nodes := x.nodes ++ [newNode], services := x.services } cfg h1 h2
  exact ⟨h.1, h.2.2.2⟩

theorem onNewServices_step (x : Server) (cfg : Config) (sc : ServiceConfigSnapshot)
    (h1 : -(2 : Int) ^ 63 ≤ x.snapshotVersion + 1) (h2 : x.snapshotVersion + 1 < (2 : Int) ^ 63) :
    (x.onNewServices cfg sc).1.snapshotVersion = x.snapshotVersion + 1 ∧
      ∃ new, (x.onNewServices cfg sc).1.cache.published = x.cache.published ++ new ∧
        ∀ p ∈ new, p.2.Version = fmtInt (x.snapshotVersion + 1) ++ ".0" := by
  have h := generateSnapshots_step
    { snapshotVersion := x.snapshotVersion, cache := x.cache,
      nodes := x.nodes, services := sc } cfg h1 h2
  exact ⟨h.1, h.2.2.2⟩

/-- C6: a run of `generateSnapshots` raises the snapshot counter by exactly one
and every snapshot it hands to the cache in that run carries the version
`<v>.0` of the new counter value v; the next regeneration, whether a new node
or a new services map triggers it, stamps its snapshots with the counter value
one higher again, so the later version is the greater. The counter is a 64-bit
`int`; the statement is for counter values that two increments do not take
past its maximum. -/
theorem generateSnapshots_version_increases (x : Server) (cfg cfg2 : Config)
    (newNode : NodeAddr) (newServiceConfig : ServiceConfigSnapshot)
    (hlo : -(2 : Int) ^ 63 ≤ x.snapshotVersion + 1)
    (hhi : x.snapshotVersion + 2 < (2 : Int) ^ 63) :
    (x.generateSnapshots cfg).1.snapshotVersion = x.snapshotVersion + 1 ∧
      (∃ new1, (x.generateSnapshots cfg).1.cache.published = x.cache.published ++ new1 ∧
        ∀ p ∈ new1, p.2.Version = fmtInt (x.snapshotVersion + 1) ++ ".0") ∧
      (∃ new2, ((x.generateSnapshots cfg).1.onNewNode cfg2 newNode).1.cache.published =
          (x.generateSnapshots cfg).1.cache.published ++ new2 ∧
        ∀ p ∈ new2, p.2.Version = fmtInt (x.snapshotVersion + 2) ++ ".0") ∧
      (∃ new2, ((x.generateSnapshots cfg).1.onNewServices cfg2
          newServiceConfig).1.cache.published =
          (x.generateSnapshots cfg).1.cache.published ++ new2 ∧
        ∀ p ∈ new2, p.2.Version = fmtInt (x.snapshotVersion + 2) ++ ".0") ∧
      x.snapshotVersion + 1 < x.snapshotVersion + 2 := by
  obtain ⟨hv1, _, _, hpub1⟩ := generateSnapshots_step x cfg hlo (by omega)
  have e : x.snapshotVersion + 1 + 1 = x.snapshotVersion + 2 := by omega
  have hn := (onNewNode_step (x.generateSnapshots cfg).1 cfg2 newNode
    (by rw [hv1]; omega) (by rw [hv1]; omega)).2
  have hs := (onNewServices_step (x.generateSnapshots cfg).1 cfg2 newServiceConfig
    (by rw [hv1]; omega) (by rw [hv1]; omega)).2
  rw [hv1, e] at hn hs
  exact ⟨hv1, hpub1, hn, hs, by omega⟩

/-- Witness for C6: on a new builder holding one node, the run publishes under
counter value 0 and the regeneration for a second node under counter value 1. -/
theorem generateSnapshots_version_increases_witness :
    (-(2 : Int) ^ 63 ≤ -1 + 1 ∧ (-1 : Int) + 2 < (2 : Int) ^ 63) ∧
      (∃ new2, ((Server.generateSnapshots
            { snapshotVersion := -1, cache := { snapshots := [], published := [] },
              nodes := [⟨"10.0.0.1", 8000⟩], services := [] }
            (Config.Default "central")).1.onNewNode (Config.Default "central")
              ⟨"10.0.0.2", 8000⟩).1.cache.published =
          (Server.generateSnapshots
            { snapshotVersion := -1, cache := { snapshots := [], published := [] },
              nodes := [⟨"10.0.0.1", 8000⟩], services := [] }
            (Config.Default "central")).1.cache.published ++ new2 ∧
        ∀ p ∈ new2, p.2.Version = fmtInt (-1 + 2) ++ ".0") :=
  ⟨⟨by decide, by decide⟩,
    (generateSnapshots_version_increases
      { snapshotVersion := -1, cache := { snapshots := [], published := [] },
        nodes := [⟨"10.0.0.1", 8000⟩], services := [] }
      (Config.Default "central") (Config.Default "central") ⟨"10.0.0.2", 8000⟩ []
      (by decide) (by decide)).2.2.1⟩

/-! ## Snapshot builder: the first snapshot -/

/-- C7, as the code has it: on a new builder with the default ports and no
services, the arrival of the first node (10.0.0.1, 8000) leaves in the cache,
under the key `node-0`, a snapshot with version `0.0` (the counter starts at
-1), exactly two listeners (ingress on port 8000, egress on port 9000), no
clusters, and the two route tables `grpc_route` and `local_grpc_route`, each
with one virtual host without routes; the run returns no error. -/
theorem first_snapshot (hostname : String) :
    (NewServer.onNewNode (Config.Default hostname) ⟨"10.0.0.1", 8000⟩).2 = none ∧
      ∃ snap, (NewServer.onNewNode (Config.Default hostname)
          ⟨"10.0.0.1", 8000⟩).1.cache.GetSnapshot "node-0" = some snap ∧
        snap.Version = "0.0" ∧
        snap.Listeners.map (fun l => (l.Name, l.Address.PortValue, l.TrafficDirection)) =
          [("ingress_listener", 8000, .INBOUND), ("egress_listener", 9000, .OUTBOUND)] ∧
        snap.Clusters = [] ∧
        snap.Routes.map (fun rc => (rc.Name, rc.VirtualHosts.map (fun vh => vh.Routes))) =
          [("grpc_route", [[]]), ("local_grpc_route", [[]])] := by
  exact ⟨rfl, _, rfl, rfl, rfl, rfl, rfl⟩

/-- C7 as stated fails: the snapshot the cache holds for `node-0` after the
first node arrived has version `0.0`, not `1.0`. -/
theorem first_snapshot_version_not_one :
    ((NewServer.onNewNode (Config.Default "central")
        ⟨"10.0.0.1", 8000⟩).1.cache.GetSnapshot "node-0").map (fun snap => snap.Version) =
        some "0.0" ∧
      ¬ ∃ snap, (NewServer.onNewNode (Config.Default "central")
          ⟨"10.0.0.1", 8000⟩).1.cache.GetSnapshot "node-0" = some snap ∧
        snap.Version = "1.0" := by
  refine ⟨by decide, ?_⟩
  rintro ⟨snap, hsnap, hver⟩
  have h : ((NewServer.onNewNode (Config.Default "central")
      ⟨"10.0.0.1", 8000⟩).1.cache.GetSnapshot "node-0").map (fun snap => snap.Version) =
      some "0.0" := by decide
  rw [hsnap, Option.map_some', hver] at h
  exact absurd h (by decide)

/-! ## Snapshot builder: clusters -/

/-- C8 at its input: with node-0 at 10.0.0.1:8000, node-1 at 10.0.0.2:8000 and
com.x.app registered on node-1 with port 8080, `makeClusters` returns the error
of `makeEndpoints` for node-0 and for node-1 alike, and `makeEndpoints` refuses
the registered owner `node-1`. -/
theorem makeClusters_scenario_fails :
    Server.makeClusters
        { snapshotVersion := 0, cache := { snapshots := [], published := [] },
          nodes := [⟨"10.0.0.1", 8000⟩, ⟨"10.0.0.2", 8000⟩],
          services := [("node-1", [("com.x.app", [8080])])] } "node-0" 8000 =
        .error .xdsInvalidNodeID ∧
      Server.makeClusters
        { snapshotVersion := 0, cache := { snapshots := [], published := [] },
          nodes := [⟨"10.0.0.1", 8000⟩, ⟨"10.0.0.2", 8000⟩],
          services := [("node-1", [("com.x.app", [8080])])] } "node-1" 8000 =
        .error .xdsInvalidNodeID ∧
      Server.makeEndpoints
        { snapshotVersion := 0, cache := { snapshots := [], published := [] },
          nodes := [⟨"10.0.0.1", 8000⟩, ⟨"10.0.0.2", 8000⟩],
          services := [("node-1", [("com.x.app", [8080])])] } "node-1" "com.x.app" [8080] =
        .error .xdsInvalidNodeID := by
  decide

/-! ## Snapshot builder: routes -/

theorem makeRoutesLoop_eq (localNodeID : String) (es : List (String × String × List Int))
    (routes localRoutes : List Route) :
    makeRoutesLoop localNodeID es routes localRoutes =
      (routes ++ (es.filter (fun e => decide (e.1 ≠ localNodeID))).map
          (fun e => ({ Prefix := "/" ++ e.2.1, Grpc := true,
                       Cluster := e.2.1 ++ "_cluster" } : Route)),
        localRoutes ++ (es.filter (fun e => decide (e.1 = localNodeID))).map
          (fun e => ({ Prefix := "/" ++ e.2.1, Grpc := true,
                       Cluster := "local_" ++ e.2.1 ++ "_cluster" } : Route))) := by
  induction es generalizing routes localRoutes with
  | nil => simp [makeRoutesLoop]
  | cons e es ih =>
    obtain ⟨nodeID, bundleID, ports⟩ := e
    by_cases h : nodeID = localNodeID
    · simp [makeRoutesLoop, h, ih, generateClusterName]
    · simp [makeRoutesLoop, h, ih, generateClusterName]

/-- C10: for every services map and target node `makeRoutes` returns exactly
the two route tables `grpc_route` and `local_grpc_route`, each with one virtual
host for the domain `*`; the routes of `local_grpc_route` are one route with
prefix `/<bundle>` for every entry owned by the target node, in the order of
the entries, and nothing else; the routes of `grpc_route` are one route for
every entry owned by another node followed by exactly the routes of
`local_grpc_route`. -/
theorem makeRoutes_spec (x : Server) (localNodeID : String) :
    x.makeRoutes localNodeID =
      [ { Name := "grpc_route"
          VirtualHosts :=
            [{ Name := "grpc_vhost"
               Domains := ["*"]
               Routes :=
                 ((serviceEntries x.services).filter
                    (fun e => decide (e.1 ≠ localNodeID))).map
                   (fun e => ({ Prefix := "/" ++ e.2.1, Grpc := true,
                                Cluster := e.2.1 ++ "_cluster" } : Route)) ++
                 ((serviceEntries x.services).filter
                    (fun e => decide (e.1 = localNodeID))).map
                   (fun e => ({ Prefix := "/" ++ e.2.1, Grpc := true,
                                Cluster := "local_" ++ e.2.1 ++ "_cluster" } : Route)) }] },
        { Name := "local_grpc_route"
          VirtualHosts :=
            [{ Name := "local_grpc_vhost"
               Domains := ["*"]
               Routes :=
                 ((serviceEntries x.services).filter
                    (fun e => decide (e.1 = localNodeID))).map
                   (fun e => ({ Prefix := "/" ++ e.2.1, Grpc := true,
                                Cluster := "local_" ++ e.2.1 ++ "_cluster" } : Route)) }] } ] := by
  unfold Server.makeRoutes
  rw [makeRoutesLoop_eq]
  simp [gRPCRouteName, gRPCVHostName, localGRPCRouteName, localGRPCVHostName]

/-! ## Snapshot builder: cluster names -/

theorem string_append_right_cancel {a b c : String} (h : a ++ c = b ++ c) : a = b := by
  have hd : (a ++ c).data = (b ++ c).data := by rw [h]
  rw [String.data_append, String.data_append] at hd
  exact String.ext (List.append_cancel_right hd)

theorem string_append_left_cancel {a b c : String} (h : c ++ a = c ++ b) : a = b := by
  have hd : (c ++ a).data = (c ++ b).data := by rw [h]
  rw [String.data_append, String.data_append] at hd
  exact String.ext (List.append_cancel_left hd)

theorem mem_serviceEntries {services : ServiceConfigSnapshot} {nodeID bundleID : String}
    {ports : List Int} :
    (nodeID, bundleID, ports) ∈ serviceEntries services ↔
      ∃ inner, (nodeID, inner) ∈ services ∧ (bundleID, ports) ∈ inner := by
  unfold serviceEntries
  simp only [List.mem_flatMap, List.mem_map, Prod.mk.injEq, Prod.exists]
  constructor
  · rintro ⟨n, inner, hmem, b, p, hb, rfl, rfl, rfl⟩
    exact ⟨inner, hmem, hb⟩
  · rintro ⟨inner, hmem, hb⟩
    exact ⟨nodeID, inner, hmem, bundleID, ports, hb, rfl, rfl, rfl⟩

theorem mem_clusterNames {services : ServiceConfigSnapshot} {localNodeID name : String} :
    name ∈ clusterNames services localNodeID ↔
      ∃ nodeID bundleID, Owns services nodeID bundleID ∧
        clusterIDOf localNodeID nodeID bundleID = name := by
  unfold clusterNames Owns
  simp only [List.mem_map, Prod.exists]
  constructor
  · rintro ⟨n, b, p, hmem, rfl⟩
    obtain ⟨inner, h1, h2⟩ := mem_serviceEntries.1 hmem
    exact ⟨n, b, ⟨inner, p, h1, h2⟩, rfl⟩
  · rintro ⟨n, b, ⟨inner, p, h1, h2⟩, rfl⟩
    exact ⟨n, b, p, mem_serviceEntries.2 ⟨inner, h1, h2⟩, rfl⟩

theorem mem_routeTargets {x : Server} {localNodeID name : String} :
    name ∈ routeTargets x localNodeID ↔ name ∈ clusterNames x.services localNodeID := by
  unfold routeTargets clusterNames Server.makeRoutes
  rw [makeRoutesLoop_eq]
  simp only [List.nil_append, List.flatMap_cons, List.flatMap_nil, List.append_nil, List.map_append,
    List.map_map, List.mem_append, List.mem_map, List.mem_filter, Function.comp,
    decide_eq_true_eq, Prod.exists]
  constructor
  · rintro (⟨n, b, p, ⟨hmem, hne⟩, rfl⟩ | ⟨n, b, p, ⟨hmem, heq⟩, rfl⟩)
    · exact ⟨n, b, p, hmem, by simp [clusterIDOf, hne, generateClusterName]⟩
    · exact ⟨n, b, p, hmem, by simp [clusterIDOf, heq, generateClusterName]⟩
  · rintro ⟨n, b, p, hmem, rfl⟩
    by_cases h : n = localNodeID
    · exact Or.inr ⟨n, b, p, ⟨hmem, h⟩, by simp [clusterIDOf, h, generateClusterName]⟩
    · exact Or.inl ⟨n, b, p, ⟨hmem, h⟩, by simp [clusterIDOf, h, generateClusterName]⟩

/-- C9, as the code has it: for every services map, target node and bundle b,
the name `local_<b>_cluster` is among the cluster names generated for the
target node exactly when the map has an entry for b owned by the target node,
or an entry for a bundle named `local_<b>` owned by another node (whose remote
name `<bundle>_cluster` is the same string). The names `makeRoutes` uses as
route targets are the names `makeClusters` gives to the entries. -/
theorem local_cluster_name_iff (x : Server) (localNodeID bundleID : String) :
    (generateClusterName bundleID true ∈ clusterNames x.services localNodeID ↔
        Owns x.services localNodeID bundleID ∨
          ∃ nodeID, nodeID ≠ localNodeID ∧ Owns x.services nodeID ("local_" ++ bundleID)) ∧
      ∀ name, name ∈ routeTargets x localNodeID ↔
        name ∈ clusterNames x.services localNodeID := by
  refine ⟨?_, fun name => mem_routeTargets⟩
  rw [mem_clusterNames]
  constructor
  · rintro ⟨n, b, hown, hname⟩
    by_cases h : n = localNodeID
    · subst h
      simp only [clusterIDOf, generateClusterName, if_true] at hname
      have hb : b = bundleID := string_append_left_cancel (string_append_right_cancel hname)
      exact Or.inl (hb ▸ hown)
    · simp only [clusterIDOf, generateClusterName, h, if_false, if_true,
        Bool.false_eq_true] at hname
      have hb : b = "local_" ++ bundleID := string_append_right_cancel hname
      exact Or.inr ⟨n, h, hb ▸ hown⟩
  · rintro (hown | ⟨n, h, hown⟩)
    · exact ⟨localNodeID, bundleID, hown, by simp [clusterIDOf]⟩
    · exact ⟨n, "local_" ++ bundleID, hown, by simp [clusterIDOf, h, generateClusterName]⟩

/-- C9 as stated fails: with the bundle `local_x` registered on node-1 only,
the name `local_x_cluster` is among the cluster names generated for node-0,
although node-0 owns no bundle `x`. -/
theorem local_cluster_name_without_owner :
    generateClusterName "x" true ∈
        clusterNames [("node-1", [("local_x", [8080])])] "node-0" ∧
      ¬ Owns [("node-1", [("local_x", [8080])])] "node-0" "x" := by
  refine ⟨by decide, ?_⟩
  rintro ⟨inner, ports, h1, _⟩
  simp at h1

/-! ## Container images: `ParseImageName` -/

theorem stringsLastIndex_eq_none {s : List Char} {c : Char} :
    stringsLastIndex s c = none ↔ c ∉ s := by
  induction s with
  | nil => simp [stringsLastIndex]
  | cons x t ih =>
    unfold stringsLastIndex
    cases h : stringsLastIndex t c with
    | some i =>
      have hmem : c ∈ t := by
        by_contra hc
        rw [ih.2 hc] at h
        exact absurd h (by simp)
      simp [hmem]
    | none =>
      have hnot : c ∉ t := ih.1 h
      by_cases hx : x = c
      · simp [hx]
      · simp [hx, hnot, Ne.symm hx]

theorem stringsLastIndex_some {s : List Char} {c : Char} {i : Nat}
    (h : stringsLastIndex s c = some i) :
    s = s.take i ++ c :: s.drop (i + 1) ∧ c ∉ s.drop (i + 1) := by
  induction s generalizing i with
  | nil => simp [stringsLastIndex] at h
  | cons x t ih =>
    unfold stringsLastIndex at h
    cases ht : stringsLastIndex t c with
    | some j =>
      simp only [ht, Option.some.injEq] at h
      subst h
      obtain ⟨h1, h2⟩ := ih ht
      refine ⟨?_, by simpa using h2⟩
      simp only [List.take_succ_cons, List.drop_succ_cons, List.cons_append]
      rw [← h1]
    | none =>
      simp only [ht] at h
      split_ifs at h with hx
      simp only [Option.some.injEq] at h
      subst h hx
      exact ⟨by simp, by simpa using stringsLastIndex_eq_none.1 ht⟩

/-- C12: for a string without `:` the image is the string itself with version
`latest`; for a string with `:` the version holds no `:` and name, `:` and
version put together give the string back, so the name is the part before the
last `:` and the version the part after it (empty for `envoyproxy/envoy:`). -/
theorem parseImageName_spec (s : String) :
    (':' ∉ s.data → ParseImageName s = { Name := s, Version := "latest" }) ∧
      (':' ∈ s.data →
        (ParseImageName s).Name ++ ":" ++ (ParseImageName s).Version = s ∧
          ':' ∉ (ParseImageName s).Version.data) ∧
      ParseImageName "envoyproxy/envoy:" = { Name := "envoyproxy/envoy", Version := "" } ∧
      ParseImageName "envoyproxy/envoy:distroless-v1.27-latest" =
        { Name := "envoyproxy/envoy", Version := "distroless-v1.27-latest" } ∧
      ParseImageName "envoyproxy/envoy" = { Name := "envoyproxy/envoy", Version := "latest" } := by
  refine ⟨?_, ?_, by decide, by decide, by decide⟩
  · intro h
    unfold ParseImageName
    rw [stringsLastIndex_eq_none.2 h]
  · intro h
    unfold ParseImageName
    cases hidx : stringsLastIndex s.data ':' with
    | none => exact absurd h (stringsLastIndex_eq_none.1 hidx)
    | some idx =>
      obtain ⟨h1, h2⟩ := stringsLastIndex_some hidx
      refine ⟨?_, h2⟩
      apply String.ext
      simp only [String.data_append]
      show List.take idx s.data ++ [':'] ++ List.drop (idx + 1) s.data = s.data
      rw [List.append_assoc, List.singleton_append, ← h1]

/-- Witness for C12: `envoyproxy/envoy:` has a `:`, and its parts put together
give it back. -/
theorem parseImageName_spec_witness :
    (ParseImageName "envoyproxy/envoy:").Name ++ ":" ++
        (ParseImageName "envoyproxy/envoy:").Version = "envoyproxy/envoy:" ∧
      ':' ∉ (ParseImageName "envoyproxy/envoy:").Version.data :=
  (parseImageName_spec "envoyproxy/envoy:").2.1 (by decide)

/-! ## Orchestrator: `diff` -/

theorem mapGet_mapSet_ne {α : Type} (m : GoMap α) {key k : String} (v : α) (h : key ≠ k) :
    mapGet (mapSet m key v) k = mapGet m k := by
  induction m with
  | nil => simp [mapSet, mapGet, h]
  | cons a m ih =>
    obtain ⟨k', w⟩ := a
    by_cases hk : k' = key
    · subst hk
      simp [mapSet, mapGet, h]
    · by_cases hk2 : k' = k
      · subst hk2
        simp [mapSet, mapGet, hk]
      · simp [mapSet, mapGet, hk, hk2, ih]

theorem mapGet_foldl_mapSet (a : List Image) (m : GoMap String) (name : String) :
    mapGet (a.foldl (fun memory i => mapSet memory i.Name i.Version) m) name =
      (lastVersion a name).orElse (fun _ => mapGet m name) := by
  induction a generalizing m with
  | nil => simp [lastVersion]
  | cons x a ih =>
    rw [List.foldl_cons, ih]
    by_cases hx : x.Name = name
    · have hfil : (x :: a).filter (fun i => decide (i.Name = name)) =
          x :: a.filter (fun i => decide (i.Name = name)) := by simp [hx]
      unfold lastVersion
      rw [hfil]
      cases hl : a.filter (fun i => decide (i.Name = name)) with
      | nil => simp [hx, mapGet_mapSet_same]
      | cons y l =>
        rw [List.getLast?_cons_cons, List.getLast?_eq_getLast _ (List.cons_ne_nil y l)]
        rfl
    · have hfil : (x :: a).filter (fun i => decide (i.Name = name)) =
          a.filter (fun i => decide (i.Name = name)) := by simp [hx]
      unfold lastVersion
      rw [hfil, mapGet_mapSet_ne _ _ hx]

theorem mapGet_diffMemory (a : List Image) (name : String) :
    mapGet (diffMemory a) name = lastVersion a name := by
  unfold diffMemory
  rw [mapGet_foldl_mapSet]
  cases lastVersion a name <;> simp [mapGet]

theorem diff_foldl_eq (memory : GoMap String) (b missing : List Image) :
    b.foldl
        (fun missing i =>
          match mapGet memory i.Name with
          | some version => if version ≠ i.Version then missing ++ [i] else missing
          | none => missing ++ [i])
        missing =
      missing ++ b.filter (fun i => decide (mapGet memory i.Name ≠ some i.Version)) := by
  induction b generalizing missing with
  | nil => simp
  | cons x b ih =>
    rw [List.foldl_cons, ih]
    cases h : mapGet memory x.Name with
    | none => simp [h]
    | some version =>
      by_cases hv : version = x.Version
      · simp [h, hv]
      · simp [h, hv]

theorem diff_eq_filter (a b : List Image) :
    diff a b = b.filter (fun i => decide (lastVersion a i.Name ≠ some i.Version)) := by
  unfold diff
  simp only []
  rw [diff_foldl_eq]
  simp only [List.nil_append, mapGet_diffMemory]

theorem lastVersion_eq_some_iff {a : List Image} (ha : OneVersionPerName a) (i : Image) :
    lastVersion a i.Name = some i.Version ↔ i ∈ a := by
  unfold lastVersion
  constructor
  · intro h
    rw [Option.map_eq_some'] at h
    obtain ⟨y, hy, hv⟩ := h
    have hmem := List.mem_of_getLast?_eq_some hy
    rw [List.mem_filter, decide_eq_true_eq] at hmem
    have : y = i := by
      cases y
      cases i
      simp_all
    exact this ▸ hmem.1
  · intro hi
    have hmem : i ∈ a.filter (fun j => decide (j.Name = i.Name)) := by
      rw [List.mem_filter]
      exact ⟨hi, by simp⟩
    cases hl : (a.filter (fun j => decide (j.Name = i.Name))).getLast? with
    | none =>
      rw [List.getLast?_eq_none_iff] at hl
      rw [hl] at hmem
      exact absurd hmem (List.not_mem_nil _)
    | some y =>
      have hy := List.mem_of_getLast?_eq_some hl
      rw [List.mem_filter, decide_eq_true_eq] at hy
      simp only [Option.map_some', Option.some.injEq]
      exact ha y hy.1 i hi hy.2

/-- C11, as the code has it: `diff(a, b)` is the list of the elements of b, in
b's order, whose version is not the one of the last element of a with the same
name (or whose name a does not have); when no name occurs in a with two
different versions, that is exactly the list of the elements of b for which no
element of a has the same (name, version) pair. So the to-remove list
`diff(desired, current)` is current minus desired when no desired name has two
versions, and the to-install list `diff(current, desired)` is desired minus
current when no current name has two versions. -/
theorem diff_spec (a b : List Image) :
    diff a b = b.filter (fun i => decide (lastVersion a i.Name ≠ some i.Version)) ∧
      (OneVersionPerName a → diff a b = b.filter (fun i => decide (i ∉ a))) := by
  refine ⟨diff_eq_filter a b, ?_⟩
  intro ha
  rw [diff_eq_filter]
  apply List.filter_congr
  intro i _
  rw [decide_eq_decide, ne_eq, lastVersion_eq_some_iff ha]

/-- Witness for C11: with desired `[alpine:3]` and current `[alpine:3,
nginx:1]` the to-remove list is `[nginx:1]`. -/
theorem diff_spec_witness :
    diff [⟨"alpine", "3"⟩] [⟨"alpine", "3"⟩, ⟨"nginx", "1"⟩] =
      [⟨"alpine", "3"⟩, ⟨"nginx", "1"⟩].filter
        (fun i => decide (i ∉ ([⟨"alpine", "3"⟩] : List Image))) :=
  (diff_spec [⟨"alpine", "3"⟩] [⟨"alpine", "3"⟩, ⟨"nginx", "1"⟩]).2 (by
    intro x hx y hy _
    simp only [List.mem_singleton] at hx hy
    rw [hx, hy])

/-- C11 as stated fails: with a = `[x:1, x:2]` and b = `[x:1]` the element x:1
of b is in a, yet `diff(a, b)` returns it, because the memory of `diff` keeps
one version per name. -/
theorem diff_keeps_matched_element :
    diff [⟨"x", "1"⟩, ⟨"x", "2"⟩] [⟨"x", "1"⟩] = [⟨"x", "1"⟩] ∧
      (⟨"x", "1"⟩ : Image) ∈ ([⟨"x", "1"⟩, ⟨"x", "2"⟩] : List Image) := by
  decide

/-! ## Discovery messages: framing -/

theorem magic_length : magicString.length = 9 := by decide

theorem asciiBytes_magic : asciiBytes magicString = [36, 67, 65, 82, 73, 83, 77, 65, 36] := by
  decide

theorem bytes_of_encode {gobEncode : BroadcastMessage → Except Error (List Nat)}
    {m : BroadcastMessage} {encoded : List Nat} (h : gobEncode m = .ok encoded) :
    m.Bytes gobEncode = .ok ([36, 67, 65, 82, 73, 83, 77, 65, 36, 1] ++ encoded) := by
  unfold BroadcastMessage.Bytes
  rw [h, asciiBytes_magic]
  rfl

/-- C17: for every broadcast message whose gob encoding succeeds, `Bytes` is
the 9 ASCII bytes of `$CARISMA$`, then the type byte 0x01, then the encoding;
`IsCARISMAMessage` accepts these bytes and `GetMessageType` answers
`Broadcast`. -/
theorem bytes_header (gobEncode : BroadcastMessage → Except Error (List Nat))
    (m : BroadcastMessage) (encoded : List Nat) (h : gobEncode m = .ok encoded) :
    m.Bytes gobEncode = .ok ([36, 67, 65, 82, 73, 83, 77, 65, 36] ++ [1] ++ encoded) ∧
      asciiBytes "$CARISMA$" = [36, 67, 65, 82, 73, 83, 77, 65, 36] ∧
      IsCARISMAMessage ([36, 67, 65, 82, 73, 83, 77, 65, 36] ++ [1] ++ encoded) = true ∧
      GetMessageType gobEncode m = .ok .Broadcast := by
  have hb := bytes_of_encode h
  refine ⟨hb, by decide, ?_, ?_⟩
  · unfold IsCARISMAMessage
    rw [magic_length, asciiBytes_magic]
    simp
  · unfold GetMessageType
    rw [hb, magic_length]
    simp [MessageType.byte]

/-- Witness for C17: with an encoder that emits the bytes of the host name,
the message for `127.0.0.1` starts with the magic string and the type byte. -/
theorem bytes_header_witness :
    GetMessageType (fun g => .ok (asciiBytes g.Hostname)) (NewBroadcastMessage "127.0.0.1") =
      .ok .Broadcast :=
  (bytes_header (fun g => .ok (asciiBytes g.Hostname)) (NewBroadcastMessage "127.0.0.1")
    (asciiBytes "127.0.0.1") rfl).2.2.2

/-- C16: for every host name h, when the gob encoder succeeds on the message
of h and the gob decoder gives the message back from the encoder's bytes,
`Bytes` succeeds and `DecodeBroadcastMessage` on its result succeeds and
returns a message with host name h: the ten bytes `Bytes` puts in front are
the ten bytes `DecodeBroadcastMessage` drops. -/
theorem decode_bytes_roundtrip (gobEncode : BroadcastMessage → Except Error (List Nat))
    (gobDecode : List Nat → BroadcastMessage × Option Error) (h : String)
    (encoded : List Nat) (henc : gobEncode (NewBroadcastMessage h) = .ok encoded)
    (hdec : gobDecode encoded = (NewBroadcastMessage h, none)) :
    ∃ b, (NewBroadcastMessage h).Bytes gobEncode = .ok b ∧
      ∃ g, DecodeBroadcastMessage gobDecode b = .ok (g, none) ∧ g.Hostname = h := by
  refine ⟨_, bytes_of_encode henc, NewBroadcastMessage h, ?_, rfl⟩
  unfold DecodeBroadcastMessage
  rw [magic_length]
  have hlen : ¬ (([36, 67, 65, 82, 73, 83, 77, 65, 36, 1] ++ encoded).length < 9 + 1) := by
    simp
  rw [if_neg hlen]
  have hdrop : ([36, 67, 65, 82, 73, 83, 77, 65, 36, 1] ++ encoded).drop (9 + 1) = encoded := by
    simp
  rw [hdrop, hdec]

/-- Witness for C16: with a codec that writes the bytes of the host name and
reads them back, the message for `ab` survives the round trip. -/
theorem decode_bytes_roundtrip_witness :
    ∃ b, (NewBroadcastMessage "ab").Bytes (fun g => .ok (asciiBytes g.Hostname)) = .ok b ∧
      ∃ g, DecodeBroadcastMessage
          (fun bytes => ({ Hostname := String.mk (bytes.map Char.ofNat) }, none)) b =
          .ok (g, none) ∧ g.Hostname = "ab" :=
  decode_bytes_roundtrip (fun g => .ok (asciiBytes g.Hostname))
    (fun bytes => ({ Hostname := String.mk (bytes.map Char.ofNat) }, none)) "ab"
    (asciiBytes "ab") rfl (by decide)

/-! ## Central actual-state aggregator: sticky states -/

theorem keysNodup_mapSet {α : Type} {m : GoMap α} (h : KeysNodup m) (key : String) (v : α) :
    KeysNodup (mapSet m key v) := by
  unfold KeysNodup at h ⊢
  induction m with
  | nil => simp [mapSet]
  | cons a m ih =>
    obtain ⟨k, w⟩ := a
    simp only [List.map_cons, List.nodup_cons] at h
    by_cases hk : k = key
    · subst hk
      simp only [mapSet, if_true, List.map_cons, List.nodup_cons]
      exact h
    · simp only [mapSet, hk, if_false, List.map_cons, List.nodup_cons]
      refine ⟨?_, ih h.2⟩
      intro hmem
      rw [List.mem_map] at hmem
      obtain ⟨e, he, hek⟩ := hmem
      rcases mem_mapSet he with heq | hin
      · rw [heq] at hek
        exact hk hek.symm
      · exact h.1 (List.mem_map.2 ⟨e, hin, hek⟩)

theorem mapGet_of_mem {α : Type} {m : GoMap α} (h : KeysNodup m) {key : String} {v : α}
    (hmem : (key, v) ∈ m) : mapGet m key = some v := by
  unfold KeysNodup at h
  induction m with
  | nil => exact absurd hmem (List.not_mem_nil _)
  | cons a m ih =>
    obtain ⟨k, w⟩ := a
    simp only [List.map_cons, List.nodup_cons] at h
    rcases List.mem_cons.1 hmem with heq | hin
    · simp only [Prod.mk.injEq] at heq
      simp [mapGet, heq.1, heq.2]
    · have hk : k ≠ key := by
        intro hk
        exact h.1 (List.mem_map.2 ⟨(key, v), hin, hk.symm⟩)
      simp [mapGet, hk, ih h.2 hin]

theorem stateOf_mapSet_ne (cfg : DeploymentConfig) {key h : String} (node : NodeConfig)
    (hne : key ≠ h) : stateOf (mapSet cfg key node) h = stateOf cfg h := by
  unfold stateOf
  rw [mapGet_mapSet_ne _ _ hne]

theorem coerceAll_not_key (g : List (String × NodeConfig)) (prev : DeploymentConfig)
    (h : String) (hkey : h ∉ g.map Prod.fst) :
    mapGet (coerceAll g prev) h = mapGet prev h := by
  induction g generalizing prev with
  | nil => rfl
  | cons e g ih =>
    obtain ⟨k, node⟩ := e
    simp only [List.map_cons, List.mem_cons, not_or] at hkey
    unfold coerceAll
    rw [ih _ hkey.2, mapGet_mapSet_ne _ _ (Ne.symm hkey.1)]

theorem coerceAll_key (g : List (String × NodeConfig)) (prev : DeploymentConfig)
    (hg : KeysNodup g) (h : String) (node : NodeConfig) (hmem : (h, node) ∈ g) :
    mapGet (coerceAll g prev) h =
      some { node with State := coerceState (stateOf prev h) node.State } := by
  induction g generalizing prev with
  | nil => exact absurd hmem (List.not_mem_nil _)
  | cons e g ih =>
    obtain ⟨k, n⟩ := e
    unfold KeysNodup at hg
    simp only [List.map_cons, List.nodup_cons] at hg
    unfold coerceAll
    rcases List.mem_cons.1 hmem with heq | hin
    · simp only [Prod.mk.injEq] at heq
      obtain ⟨rfl, rfl⟩ := heq
      rw [coerceAll_not_key _ _ _ hg.1, mapGet_mapSet_same]
    · have hk : k ≠ h := by
        intro hk
        exact hg.1 (List.mem_map.2 ⟨(h, node), hin, hk.symm⟩)
      rw [ih _ hg.2 hin, stateOf_mapSet_ne _ _ hk]

theorem coerceState_table (prev new : NodeState)
    (hnew : new = NodeStateRunning ∨ new = NodeStateStopped) :
    coerceState prev new =
      if prev = NodeStateStopping ∧ new = NodeStateRunning then NodeStateStopping
      else if prev = NodeStateStarting ∧ new = NodeStateStopped then NodeStateStarting
      else new := by
  unfold coerceState
  have h1 : NodeStateStopping ≠ NodeStateStopped := by decide
  have h2 : NodeStateRunning ≠ NodeStateStopped := by decide
  have h3 : NodeStateStarting ≠ NodeStateStopping := by decide
  rcases hnew with rfl | rfl
  · by_cases hp : prev = NodeStateStopping
    · simp [hp, h1, h2, h3]
    · simp [hp, h2]
  · by_cases hp : prev = NodeStateStopping
    · simp [hp, h1, h2, h3, Ne.symm h2, Ne.symm h3]
    · simp [hp, Ne.symm h2]

theorem keysNodup_recordActual (received : DeploymentConfig) (l : List (String × NodeConfig))
    (acc : DeploymentConfig × Nat) (h : KeysNodup acc.1) :
    KeysNodup (recordActual received l acc).1 := by
  induction l generalizing acc with
  | nil => exact h
  | cons e l ih =>
    obtain ⟨hostname, node⟩ := e
    obtain ⟨g, f⟩ := acc
    unfold recordActual
    by_cases h1 : node.State = NodeStateStarting
    · rw [if_pos h1]
      exact ih _ h
    · rw [if_neg h1]
      by_cases h2 : node.State = NodeStateRunning ∨ node.State = NodeStateStopped
      · rw [if_pos h2]
        exact ih _ (keysNodup_mapSet h _ _)
      · rw [if_neg h2]
        exact ih _ h

theorem onActual_parsed (s : Aggregator) (prev received : DeploymentConfig) :
    s.onActual (.parsed prev) received =
      .ok { globalActualDplmCfg :=
              (recordActual received received (s.globalActualDplmCfg, s.forcedDiffs)).1
            written := some (coerceAll
              (recordActual received received (s.globalActualDplmCfg, s.forcedDiffs)).1 prev)
            forcedDiffs :=
              (recordActual received received (s.globalActualDplmCfg, s.forcedDiffs)).2 } :=
  rfl

theorem stateOf_coerceAll (g : List (String × NodeConfig)) (prev : DeploymentConfig)
    (hg : KeysNodup g) (h : String) (node : NodeConfig) (hmem : (h, node) ∈ g) :
    stateOf (coerceAll g prev) h = coerceState (stateOf prev h) node.State := by
  unfold stateOf
  rw [coerceAll_key g prev hg h node hmem]
  rfl

theorem recordActual_single (g : DeploymentConfig) (f : Nat) (h : String) (node : NodeConfig)
    (hnew : node.State = NodeStateRunning ∨ node.State = NodeStateStopped) :
    (recordActual [(h, node)] [(h, node)] (g, f)).1 = mapSet g h node := by
  have hs : node.State ≠ NodeStateStarting := by
    rcases hnew with hn | hn <;> rw [hn] <;> decide
  simp [recordActual, hs, hnew]

theorem reportAll_step (s : Aggregator) (file : DeploymentConfig) (h : String)
    (node : NodeConfig) (rest : List NodeConfig) (hw : s.written = some file)
    (hnew : node.State = NodeStateRunning ∨ node.State = NodeStateStopped) :
    reportAll h (node :: rest) s =
      reportAll h rest
        { globalActualDplmCfg := mapSet s.globalActualDplmCfg h node
          written := some (coerceAll (mapSet s.globalActualDplmCfg h node) file)
          forcedDiffs := (recordActual [(h, node)] [(h, node)]
            (s.globalActualDplmCfg, s.forcedDiffs)).2 } := by
  simp only [reportAll, hw, onActual_parsed, recordActual_single _ _ _ _ hnew]

theorem reportAll_running (h : String) (reports : List NodeConfig)
    (hrun : ∀ r ∈ reports, r.State = NodeStateRunning) (s : Aggregator)
    (file : DeploymentConfig) (hw : s.written = some file)
    (hkeys : KeysNodup s.globalActualDplmCfg) (hst : stateOf file h = NodeStateStopping) :
    ∃ s1 file1, reportAll h reports s = .ok s1 ∧ s1.written = some file1 ∧
      KeysNodup s1.globalActualDplmCfg ∧ stateOf file1 h = NodeStateStopping := by
  induction reports generalizing s file with
  | nil => exact ⟨s, file, rfl, hw, hkeys, hst⟩
  | cons node rest ih =>
    have hn : node.State = NodeStateRunning := hrun node (List.mem_cons_self _ _)
    rw [reportAll_step s file h node rest hw (Or.inl hn)]
    apply ih (fun r hr => hrun r (List.mem_cons_of_mem _ hr)) _ _ rfl
    · exact keysNodup_mapSet hkeys _ _
    · rw [stateOf_coerceAll _ _ (keysNodup_mapSet hkeys _ _) h node
        (mem_of_mapGet (mapGet_mapSet_same _ _ _)), hst, hn]
      decide

theorem reportAll_append (h : String) (l1 l2 : List NodeConfig) (s : Aggregator) :
    reportAll h (l1 ++ l2) s =
      match reportAll h l1 s with
      | .error err => .error err
      | .ok s1 => reportAll h l2 s1 := by
  induction l1 generalizing s with
  | nil => rfl
  | cons node rest ih =>
    simp only [List.cons_append, reportAll]
    split
    · rfl
    · exact ih _

/-- C18: in the aggregator step for a received actual configuration, for every
host h that the global configuration then holds with a recorded state `new`
(running or stopped), the state written to the actual-state file for h is
stopping when the persisted state of h is stopping and `new` is running,
starting when the persisted state is starting and `new` is stopped, and `new`
otherwise. Consequently a persisted stopping stays stopping under any number
of running reports of h and becomes stopped at the first stopped report. -/
theorem sticky_state (s : Aggregator) (prev received : DeploymentConfig) (h : String)
    (node : NodeConfig) (reports : List NodeConfig) (stoppedNode : NodeConfig)
    (hkeys : KeysNodup s.globalActualDplmCfg)
    (hrec : (h, node) ∈
      (recordActual received received (s.globalActualDplmCfg, s.forcedDiffs)).1)
    (hnew : node.State = NodeStateRunning ∨ node.State = NodeStateStopped)
    (hrun : ∀ r ∈ reports, r.State = NodeStateRunning)
    (hstop : stoppedNode.State = NodeStateStopped) :
    (∃ s1 file, s.onActual (.parsed prev) received = .ok s1 ∧ s1.written = some file ∧
        stateOf file h =
          if stateOf prev h = NodeStateStopping ∧ node.State = NodeStateRunning then
            NodeStateStopping
          else if stateOf prev h = NodeStateStarting ∧ node.State = NodeStateStopped then
            NodeStateStarting
          else node.State) ∧
      (s.written = some prev → stateOf prev h = NodeStateStopping →
        (∃ s1 file, reportAll h reports s = .ok s1 ∧ s1.written = some file ∧
            stateOf file h = NodeStateStopping) ∧
          ∃ s2 file, reportAll h (reports ++ [stoppedNode]) s = .ok s2 ∧
            s2.written = some file ∧ stateOf file h = NodeStateStopped) := by
  constructor
  · refine ⟨_, _, onActual_parsed s prev received, rfl, ?_⟩
    rw [stateOf_coerceAll _ _ (keysNodup_recordActual _ _ _ hkeys) h node hrec,
      coerceState_table _ _ hnew]
  · intro hw hst
    obtain ⟨s1, file1, hr, hw1, hk1, hst1⟩ := reportAll_running h reports hrun s prev hw hkeys hst
    refine ⟨⟨s1, file1, hr, hw1, hst1⟩, ?_⟩
    rw [reportAll_append, hr]
    simp only
    rw [reportAll_step s1 file1 h stoppedNode [] hw1 (Or.inr hstop)]
    refine ⟨_, _, rfl, rfl, ?_⟩
    rw [stateOf_coerceAll _ _ (keysNodup_mapSet hk1 _ _) h stoppedNode
      (mem_of_mapGet (mapGet_mapSet_same _ _ _)), hst1, hstop]
    decide

/-- Witness for C18: the file holds stopping for h1; two running reports leave
it stopping and a stopped report then makes it stopped. -/
theorem sticky_state_witness :
    (∃ s1 file, reportAll "h1" [⟨"running", []⟩, ⟨"running", []⟩]
          { globalActualDplmCfg := [], written := some [("h1", ⟨"stopping", []⟩)],
            forcedDiffs := 0 } = .ok s1 ∧
        s1.written = some file ∧ stateOf file "h1" = NodeStateStopping) ∧
      ∃ s2 file, reportAll "h1" ([⟨"running", []⟩, ⟨"running", []⟩] ++ [⟨"stopped", []⟩])
          { globalActualDplmCfg := [], written := some [("h1", ⟨"stopping", []⟩)],
            forcedDiffs := 0 } = .ok s2 ∧
        s2.written = some file ∧ stateOf file "h1" = NodeStateStopped :=
  (sticky_state
    { globalActualDplmCfg := [], written := some [("h1", ⟨"stopping", []⟩)], forcedDiffs := 0 }
    [("h1", ⟨"stopping", []⟩)] [("h1", ⟨"running", []⟩)] "h1" ⟨"running", []⟩
    [⟨"running", []⟩, ⟨"running", []⟩] ⟨"stopped", []⟩
    (by simp [KeysNodup]) (by decide) (Or.inl rfl)
    (by intro r hr; simp only [List.mem_cons, List.mem_singleton, List.not_mem_nil,
          or_false, or_self] at hr; rw [hr]; rfl)
    rfl).2 rfl (by decide)

/-! ## File watcher: forced and unforced diffs -/

/-- C19, as the code has it: when the watcher, with a handler set, processes
the event of `Diff(force)` and the file can be read, the handler is called
once, with the prior bytes (the last-read bytes, or no bytes when `force` is
true) and the file's current bytes, whether or not they differ; the callback
registered by `Run` acts (sends the DESIRED message and runs the orchestrator)
exactly when the current bytes differ from those prior bytes and parse as a
deployment configuration. -/
theorem diff_event_spec (c : FileWatcher) (force : Bool) (content : List Nat)
    (fromJSON : List Nat → Except Error DeploymentConfig) (hset : c.handlerSet = true) :
    ((c.Diff force).processEvent (some content)).calls =
        c.calls ++ [(if force then [] else c.lastRead, content)] ∧
      ((c.Diff force).processEvent (some content)).lastRead = content ∧
      (desiredHandler fromJSON (if force then [] else c.lastRead) content ≠ [] ↔
        (if force then [] else c.lastRead) ≠ content ∧
          ∃ dplmCfg, fromJSON content = .ok dplmCfg) := by
  refine ⟨?_, ?_, ?_⟩
  · cases force <;> simp [FileWatcher.Diff, FileWatcher.processEvent, hset]
  · cases force <;> simp [FileWatcher.Diff, FileWatcher.processEvent]
  · unfold desiredHandler
    by_cases heq : (if force then [] else c.lastRead) = content
    · simp [heq]
    · cases hj : fromJSON content with
      | error e => simp [heq]
      | ok cfg => simp [heq]

/-- Witness for C19: a watcher with a handler, last-read bytes `[1]`, a forced
diff and current bytes `[1]`: the handler is called with no prior bytes. -/
theorem diff_event_spec_witness :
    (((⟨[1], true, []⟩ : FileWatcher).Diff true).processEvent (some [1])).calls =
      [] ++ [(if true then [] else [1], [1])] :=
  (diff_event_spec ⟨[1], true, []⟩ true [1] (fun _ => .ok []) rfl).1

/-- C19 as stated fails: with `force` false and unchanged content the handler
is called all the same (with equal byte sequences), and with `force` true and
an empty file the callback registered by `Run` does nothing. -/
theorem unforced_unchanged_diff_calls_handler :
    (((⟨[1], true, []⟩ : FileWatcher).Diff false).processEvent (some [1])).calls =
        [([1], [1])] ∧
      (((⟨[1], true, []⟩ : FileWatcher).Diff true).processEvent (some [])).calls =
        [([], [])] ∧
      (desiredHandler (fun _ => .ok []) [] []).length = 0 := by
  decide

/-! ## Orchestrator: the alpine scenario -/

theorem parseFQIN_alpine (grammar : String → Bool) :
    ParseFQIN grammar "alpine" "docker.io" =
      if grammar "docker.io/library/alpine" then .error .sliceBoundsOutOfRange
      else .error .invalidReference := by
  have hsplit : splitDockerDomain "alpine".data = ("docker.io".data, "library/alpine".data) := by
    decide
  have hid : isIdentifier "alpine".data = false := by decide
  unfold ParseFQIN ParseNormalizedNamed
  rw [hid, hsplit]
  have hremote : (match stringsIndex ("docker.io".data, "library/alpine".data).2 ':' with
      | some tagSep => ("docker.io".data, "library/alpine".data).2.take tagSep
      | none => ("docker.io".data, "library/alpine".data).2) = "library/alpine".data := by decide
  simp only [hremote]
  have hlow : stringsToLower "library/alpine".data = "library/alpine".data := by decide
  have hascii : "alpine".data.all (fun c => decide (c.toNat < 128)) = true := by decide
  have hstr : String.mk ("docker.io".data ++ '/' :: "library/alpine".data) =
      "docker.io/library/alpine" := by decide
  simp only [hlow, hascii, hstr, ne_eq, not_true_eq_false, if_false, Bool.false_eq_true,
    true_and]
  by_cases hg : grammar "docker.io/library/alpine" = true
  · simp only [hg, if_true]
    have hname : namePart "library/alpine".data = "library/alpine".data := by decide
    have hidx : stringsIndex (String.mk ("docker.io".data ++ '/' :: "library/alpine".data)).data
        '/' = some 9 := by decide
    simp only [hname, hidx]
    have hlen : (String.mk ("docker.io".data ++ '/' :: "library/alpine".data)).data.length ≠
        "alpine".data.length := by decide
    have hshort : "alpine".data.length < 9 + 1 := by decide
    simp only [hlen, hshort, ne_eq, not_false_eq_true, if_true]
  · simp only [hg, if_false, Bool.false_eq_true]

theorem qualifyAll_alpine (grammar : String → Bool) :
    qualifyAll grammar "docker.io" [ParseImageName "alpine:3"] =
      if grammar "docker.io/library/alpine" then .error .sliceBoundsOutOfRange
      else .error .invalidReference := by
  have himg : ParseImageName "alpine:3" = { Name := "alpine", Version := "3" } := by decide
  rw [himg]
  unfold qualifyAll
  simp only [parseFQIN_alpine]
  split_ifs <;> rfl

/-- C14 at its input: for node h1, default domain docker.io and the desired
configuration `{"h1": {running, ["alpine:3"]}}`, whatever the container runtime
holds and whatever the reference grammar accepts, `process` does not complete
normally and makes no pull and no announcement: when the runtime lists its
containers and the grammar accepts `docker.io/library/alpine`, `ParseFQIN`
panics on the slice `name[:10]` of the 6-byte name `alpine`. -/
theorem process_alpine_fails (σ : Type) (grammar : String → Bool) (cntMgr : Manager σ) (s : σ) :
    (process grammar (Config.Default "h1") cntMgr s
        [("h1", { State := "running", Images := ["alpine:3"] })]).events = [] ∧
      (process grammar (Config.Default "h1") cntMgr s
        [("h1", { State := "running", Images := ["alpine:3"] })]).err ≠ none ∧
      (process (fun _ => true) (Config.Default "h1")
        ({ Containers := fun u => (.ok [], u)
           PullImageAndCreateContainer := fun u _ _ => (.ok ("com.x.app", 8080), u)
           RemoveImageAndContainer := fun u _ _ => (.ok ("com.x.app", 8080), u) } : Manager Unit)
        () [("h1", { State := "running", Images := ["alpine:3"] })]).err =
        some .sliceBoundsOutOfRange := by
  have hget : mapGet ([("h1", { State := "running", Images := ["alpine:3"] })] : DeploymentConfig)
      (Config.Default "h1").NodeHostname = some { State := "running", Images := ["alpine:3"] } := by
    decide
  have hdom : (Config.Default "h1").DefaultContainerRegistryDomain = "docker.io" := rfl
  have key : ∀ (τ : Type) (g : String → Bool) (m : Manager τ) (t : τ),
      (process g (Config.Default "h1") m t
          [("h1", { State := "running", Images := ["alpine:3"] })]).events = [] ∧
        (process g (Config.Default "h1") m t
          [("h1", { State := "running", Images := ["alpine:3"] })]).err ≠ none ∧
        ∀ cs t1, m.Containers t = (.ok cs, t1) → g "docker.io/library/alpine" = true →
          (process g (Config.Default "h1") m t
            [("h1", { State := "running", Images := ["alpine:3"] })]).err =
            some .sliceBoundsOutOfRange := by
    intro τ g m t
    unfold process
    rw [hget, hdom]
    simp only [List.map_cons, List.map_nil, qualifyAll_alpine]
    rcases hc : m.Containers t with ⟨r, t1⟩
    cases r with
    | error e => simp
    | ok cs =>
      by_cases hg : g "docker.io/library/alpine" = true
      · simp [hg]
      · simp [hg]
  refine ⟨(key σ grammar cntMgr s).1, (key σ grammar cntMgr s).2.1, ?_⟩
  exact (key Unit (fun _ => true) _ ()).2.2 [] () rfl rfl

/-! ## Image references: `ParseFQIN` -/

theorem stringsIndex_append {a b : List Char} {c : Char} (h : c ∉ a) :
    stringsIndex (a ++ c :: b) c = some a.length := by
  induction a with
  | nil => simp [stringsIndex]
  | cons x a ih =>
    simp only [List.mem_cons, not_or] at h
    simp [stringsIndex, Ne.symm h.1, ih h.2]

theorem stringsIndex_eq_none {s : List Char} {c : Char} :
    stringsIndex s c = none ↔ c ∉ s := by
  induction s with
  | nil => simp [stringsIndex]
  | cons x t ih =>
    by_cases h : x = c
    · simp [stringsIndex, h]
    · simp [stringsIndex, h, ih, Ne.symm h]

theorem stringsIndex_some {s : List Char} {c : Char} {i : Nat}
    (h : stringsIndex s c = some i) :
    s = s.take i ++ c :: s.drop (i + 1) ∧ c ∉ s.take i := by
  induction s generalizing i with
  | nil => simp [stringsIndex] at h
  | cons x t ih =>
    unfold stringsIndex at h
    split_ifs at h with hx
    · simp only [Option.some.injEq] at h
      subst h hx
      simp
    · rw [Option.map_eq_some'] at h
      obtain ⟨j, hj, rfl⟩ := h
      obtain ⟨h1, h2⟩ := ih hj
      refine ⟨?_, ?_⟩
      · simp only [List.take_succ_cons, List.drop_succ_cons, List.cons_append]
        rw [← h1]
      · simp only [List.take_succ_cons, List.mem_cons, not_or]
        exact ⟨Ne.symm hx, h2⟩

theorem splitDockerDomain_explicit {name dom rest : List Char} (hname : name = dom ++ '/' :: rest)
    (hslash : '/' ∉ dom) (hdom : noDomain dom = false) (hlegacy : dom ≠ "index.docker.io".data)
    (hlib : dom ≠ "docker.io".data ∨ '/' ∈ rest) :
    splitDockerDomain name = (dom, rest) := by
  unfold splitDockerDomain
  have hidx : stringsIndex name '/' = some dom.length := by
    rw [hname]
    exact stringsIndex_append hslash
  have htake : name.take dom.length = dom := by rw [hname]; simp
  have hdrop : name.drop (dom.length + 1) = rest := by rw [hname]; simp
  simp only [hidx, htake, hdrop, hdom, Bool.false_eq_true, if_false, hlegacy]
  have hcond : ¬ (dom = "docker.io".data ∧ '/' ∉ rest) := by
    rintro ⟨h1, h2⟩
    rcases hlib with h | h
    · exact h h1
    · exact h2 h
  rw [if_neg hcond]

theorem splitDockerDomain_default {name : List Char} (h : namesNoDomain name = true) :
    splitDockerDomain name =
      ("docker.io".data, if '/' ∈ name then name else "library/".data ++ name) := by
  unfold splitDockerDomain
  have hsplit : (match stringsIndex name '/' with
      | none => ("docker.io".data, name)
      | some i =>
        if noDomain (name.take i) then ("docker.io".data, name)
        else (name.take i, name.drop (i + 1))) = ("docker.io".data, name) := by
    unfold namesNoDomain at h
    cases hi : stringsIndex name '/' with
    | none => rfl
    | some i =>
      rw [hi] at h
      simp only at h
      simp [h]
  rw [hsplit]
  have hne : "docker.io".data ≠ "index.docker.io".data := by decide
  simp only [hne, if_false, true_and]
  by_cases hs : '/' ∈ name
  · simp [hs]
  · simp [hs]

theorem namePart_append_library (name : List Char) :
    namePart ("library/".data ++ name) = "library/".data ++ namePart name := by
  unfold namePart
  simp [List.takeWhile_cons]

theorem tagPart_append_library (name : List Char) :
    tagPart ("library/".data ++ name) = tagPart name := by
  unfold tagPart
  simp [List.dropWhile_cons]

theorem parseNormalizedNamed_ok {grammar : String → Bool} {name : String} {ref : NamedRef}
    (h : ParseNormalizedNamed grammar name = .ok ref) :
    ref.Name = String.mk ((splitDockerDomain name.data).1 ++
        '/' :: namePart (splitDockerDomain name.data).2) ∧
      ref.Tag = (tagPart (splitDockerDomain name.data).2).map String.mk := by
  unfold ParseNormalizedNamed at h
  by_cases h1 : isIdentifier name.data = true
  · rw [if_pos h1] at h
    exact absurd h (by simp)
  · rw [if_neg h1] at h
    simp only at h
    split_ifs at h with h2 h3
    simp only [Except.ok.injEq] at h
    rw [← h]
    exact ⟨rfl, rfl⟩

theorem parseFQIN_of_ref {grammar : String → Bool} {name : String} {ref : NamedRef}
    (h : ParseNormalizedNamed grammar name = .ok ref) (defaultDomain : String)
    (dom path : List Char) (hname : ref.Name = String.mk (dom ++ '/' :: path))
    (hslash : '/' ∉ dom) :
    ParseFQIN grammar name defaultDomain =
      match (if (dom ++ '/' :: path).length ≠ name.data.length then
          if name.data.length < dom.length + 1 then
            (.error .sliceBoundsOutOfRange : Except Error (List Char))
          else if dom ++ ['/'] ≠ name.data.take (dom.length + 1) then
            .ok (defaultDomain.data ++ '/' :: path)
          else .ok (dom ++ '/' :: path)
        else .ok (dom ++ '/' :: path)) with
      | .error err => .error err
      | .ok normalizedImageName =>
        match ref.Tag with
        | some tag => .ok (String.mk normalizedImageName ++ ":" ++ tag)
        | none => .ok (String.mk normalizedImageName) := by
  unfold ParseFQIN
  rw [h]
  simp only [hname, stringsIndex_append hslash]
  have htake : (dom ++ '/' :: path).take (dom.length + 1) = dom ++ ['/'] := by
    rw [List.take_append_eq_append_take]
    simp
  have hdrop : (dom ++ '/' :: path).drop dom.length = '/' :: path := by
    simp
  rw [htake, hdrop]

theorem take_ten_ne_docker {name : List Char} (h : namesNoDomain name = true) :
    "docker.io".data ++ ['/'] ≠ name.take ("docker.io".data.length + 1) := by
  intro heq
  have hname : name = "docker.io".data ++ '/' :: name.drop 10 := by
    have h1 := List.take_append_drop 10 name
    have h2 : name.take 10 = "docker.io".data ++ ['/'] := heq.symm
    rw [h2] at h1
    rw [← h1]
    simp
  have hidx : stringsIndex name '/' = some 9 := by
    rw [hname]
    exact stringsIndex_append (by decide)
  have htake : name.take 9 = "docker.io".data := by
    rw [hname]
    rfl
  unfold namesNoDomain at h
  rw [hidx] at h
  simp only [htake] at h
  exact absurd h (by decide)

theorem dropWhile_eq_cons {p : Char → Bool} {l : List Char} {x : Char} {t : List Char}
    (h : l.dropWhile p = x :: t) : p x = false ∧ l = l.takeWhile p ++ x :: t := by
  induction l with
  | nil => simp at h
  | cons y l ih =>
    by_cases hy : p y = true
    · rw [List.dropWhile_cons_of_pos hy] at h
      obtain ⟨h1, h2⟩ := ih h
      refine ⟨h1, ?_⟩
      rw [List.takeWhile_cons_of_pos hy, List.cons_append, ← h2]
    · rw [List.dropWhile_cons_of_neg hy] at h
      simp only [List.cons.injEq] at h
      obtain ⟨rfl, rfl⟩ := h
      refine ⟨by simpa using hy, ?_⟩
      rw [List.takeWhile_cons_of_neg hy]
      rfl

theorem namePart_tagSuffix {rest : List Char} (h : '@' ∉ rest) :
    String.mk (namePart rest) ++ tagSuffix rest = String.mk rest := by
  unfold tagSuffix tagPart namePart
  cases hd : rest.dropWhile (fun c => decide (c ≠ ':' ∧ c ≠ '@')) with
  | nil =>
    have hsplit := List.takeWhile_append_dropWhile (fun c => decide (c ≠ ':' ∧ c ≠ '@')) rest
    rw [hd, List.append_nil] at hsplit
    rw [hsplit]
    apply String.ext
    simp [String.data_append]
  | cons x t =>
    obtain ⟨hx, hsplit⟩ := dropWhile_eq_cons hd
    have hmem : x ∈ rest := by
      rw [hsplit]
      simp
    have hxa : x ≠ '@' := fun hxa => h (hxa ▸ hmem)
    have hxc : x = ':' := by
      by_contra hxc
      simp [hxc, hxa] at hx
    subst hxc
    have ht : ∀ c ∈ t, c ≠ '@' := by
      intro c hc hca
      apply h
      rw [hsplit, ← hca]
      simp [hc]
    have htw : t.takeWhile (fun c => decide (c ≠ '@')) = t := by
      rw [List.takeWhile_eq_self_iff]
      intro c hc
      simpa using ht c hc
    simp only [htw]
    apply String.ext
    simp only [String.data_append]
    exact hsplit.symm

theorem tag_result_eq (n : List Char) (remainder : List Char) :
    (match (tagPart remainder).map String.mk with
      | some tag => (.ok (String.mk n ++ ":" ++ tag) : Except Error String)
      | none => .ok (String.mk n)) = .ok (String.mk n ++ tagSuffix remainder) := by
  unfold tagSuffix
  cases tagPart remainder with
  | none =>
    simp only [Option.map_none']
    congr 1
    apply String.ext
    simp [String.data_append]
  | some tag =>
    simp only [Option.map_some']
    congr 1
    apply String.ext
    simp [String.data_append]

theorem parseFQIN_explicit {grammar : String → Bool} {name : String} {ref : NamedRef}
    (hparse : ParseNormalizedNamed grammar name = .ok ref) (d : String)
    {dom rest : List Char} (hname : name.data = dom ++ '/' :: rest)
    (hslash : '/' ∉ dom) (hdom : noDomain dom = false) (hlegacy : dom ≠ "index.docker.io".data)
    (hlib : dom ≠ "docker.io".data ∨ '/' ∈ rest) :
    ParseFQIN grammar name d =
      .ok (String.mk (dom ++ '/' :: namePart rest) ++ tagSuffix rest) := by
  have hsplit := splitDockerDomain_explicit hname hslash hdom hlegacy hlib
  obtain ⟨hn, ht⟩ := parseNormalizedNamed_ok hparse
  rw [hsplit] at hn ht
  rw [parseFQIN_of_ref hparse d dom (namePart rest) hn hslash]
  have htake : name.data.take (dom.length + 1) = dom ++ ['/'] := by
    rw [hname, List.take_append_eq_append_take]
    simp
  have hlen : ¬ name.data.length < dom.length + 1 := by
    rw [hname]
    simp
  simp only [htake, hlen, ne_eq, not_true_eq_false, if_false, ite_self, ht]
  exact tag_result_eq _ _

theorem parseFQIN_default {grammar : String → Bool} {name : String} {ref : NamedRef}
    (hparse : ParseNormalizedNamed grammar name = .ok ref) (d : String)
    (hno : namesNoDomain name.data = true) (hten : 10 ≤ name.data.length)
    (hlen : name.data.length ≠ ("docker.io/".data ++ repoPath name.data).length) :
    ParseFQIN grammar name d =
      .ok (String.mk (d.data ++ '/' :: repoPath name.data) ++ tagSuffix name.data) := by
  have hsplit := splitDockerDomain_default hno
  obtain ⟨hn, ht⟩ := parseNormalizedNamed_ok hparse
  rw [hsplit] at hn ht
  have hpath : namePart (if '/' ∈ name.data then name.data else "library/".data ++ name.data) =
      repoPath name.data := by
    unfold repoPath
    split_ifs
    · rfl
    · exact namePart_append_library _
  have htag : tagPart (if '/' ∈ name.data then name.data else "library/".data ++ name.data) =
      tagPart name.data := by
    split_ifs
    · rfl
    · exact tagPart_append_library _
  simp only [hpath, htag] at hn ht
  rw [parseFQIN_of_ref hparse d "docker.io".data (repoPath name.data) hn (by decide)]
  have h1 : ("docker.io".data ++ '/' :: repoPath name.data).length ≠ name.data.length := by
    intro h
    apply hlen
    rw [← h]
    simp
  have h2 : ¬ name.data.length < "docker.io".data.length + 1 := by
    have : "docker.io".data.length = 9 := by decide
    omega
  simp only [h1, h2, take_ten_ne_docker hno, ne_eq, not_false_eq_true, if_true, if_false, ht]
  have htr : tagSuffix name.data = tagSuffix name.data := rfl
  have := tag_result_eq (d.data ++ '/' :: repoPath name.data) name.data
  exact this

/-- C13, as the code has it: for every reference that
`reference.ParseNormalizedNamed` accepts and every default domain d, when the
reference begins with an explicit registry domain other than `index.docker.io`
(and is not a one-component path under `docker.io`), `ParseFQIN` returns the
domain, `/`, the repository path and `:` with the tag when the reference is
tagged, which is the reference unchanged when it has no digest; when the
reference names no registry domain, is at least 10 bytes long and its length
differs from that of `docker.io/` with its repository path, `ParseFQIN` returns
d, `/`, the repository path (with `library/` in front of a single component)
and `:` with the tag when the reference is tagged. -/
theorem parseFQIN_spec (grammar : String → Bool) (name d : String) (ref : NamedRef)
    (hparse : ParseNormalizedNamed grammar name = .ok ref) :
    (∀ dom rest : List Char, name.data = dom ++ '/' :: rest → '/' ∉ dom →
        noDomain dom = false → dom ≠ "index.docker.io".data →
        (dom ≠ "docker.io".data ∨ '/' ∈ rest) →
        ParseFQIN grammar name d =
            .ok (String.mk dom ++ "/" ++ String.mk (namePart rest) ++ tagSuffix rest) ∧
          ('@' ∉ rest → ParseFQIN grammar name d = .ok name)) ∧
      (namesNoDomain name.data = true → 10 ≤ name.data.length →
        name.data.length ≠ ("docker.io/".data ++ repoPath name.data).length →
        ParseFQIN grammar name d =
          .ok (d ++ "/" ++ String.mk (repoPath name.data) ++ tagSuffix name.data)) := by
  constructor
  · intro dom rest hname hslash hdom hlegacy hlib
    have h := parseFQIN_explicit hparse d hname hslash hdom hlegacy hlib
    have e1 : String.mk (dom ++ '/' :: namePart rest) =
        String.mk dom ++ "/" ++ String.mk (namePart rest) := by
      apply String.ext
      simp [String.data_append]
    constructor
    · rw [h, e1]
    · intro hat
      rw [h, e1, String.append_assoc, namePart_tagSuffix hat]
      congr 1
      apply String.ext
      simp [String.data_append, hname]
  · intro hno hten hlen
    rw [parseFQIN_default hparse d hno hten hlen]
    congr 2
    apply String.ext
    simp [String.data_append]

/-- Witness for C13: `gcr.io/envoyproxy/envoy:v1`, accepted by the grammar,
names the domain `gcr.io` and comes back unchanged. -/
theorem parseFQIN_spec_witness :
    ParseFQIN (fun _ => true) "gcr.io/envoyproxy/envoy:v1" "customcr.io" =
      .ok "gcr.io/envoyproxy/envoy:v1" :=
  ((parseFQIN_spec (fun _ => true) "gcr.io/envoyproxy/envoy:v1" "customcr.io"
      { Name := "gcr.io/envoyproxy/envoy", Tag := some "v1" } (by decide)).1
    "gcr.io".data "envoyproxy/envoy:v1".data (by decide) (by decide) (by decide) (by decide)
    (Or.inl (by decide))).2 (by decide)

theorem parseNormalizedNamed_eval (grammar : String → Bool) (name : String)
    (dom rem : List Char) (hid : isIdentifier name.data = false)
    (hsplit : splitDockerDomain name.data = (dom, rem))
    (hlow : stringsToLower
        (match stringsIndex rem ':' with
          | some tagSep => rem.take tagSep
          | none => rem) =
        (match stringsIndex rem ':' with
          | some tagSep => rem.take tagSep
          | none => rem))
    (hascii : name.data.all (fun c => decide (c.toNat < 128)) = true) :
    ParseNormalizedNamed grammar name =
      if grammar (String.mk (dom ++ '/' :: rem)) = true then
        .ok { Name := String.mk (dom ++ '/' :: namePart rem)
              Tag := (tagPart rem).map String.mk }
      else .error .invalidReference := by
  unfold ParseNormalizedNamed
  rw [hid, hsplit]
  simp only [hlow, hascii, ne_eq, not_true_eq_false, if_false, Bool.false_eq_true, true_and]

theorem parseFQIN_short (grammar : String → Bool) :
    ParseFQIN grammar "a/b" "customcr.io" =
      if grammar "docker.io/a/b" = true then .error .sliceBoundsOutOfRange
      else .error .invalidReference := by
  have hp := parseNormalizedNamed_eval grammar "a/b" "docker.io".data "a/b".data
    (by decide) (by decide) (by decide) (by decide)
  have hstr : String.mk ("docker.io".data ++ '/' :: "a/b".data) = "docker.io/a/b" := by decide
  rw [hstr] at hp
  by_cases hg : grammar "docker.io/a/b" = true
  · rw [if_pos hg] at hp
    rw [if_pos hg, parseFQIN_of_ref hp "customcr.io" "docker.io".data (namePart "a/b".data) rfl
      (by decide)]
    have hlen : ("docker.io".data ++ '/' :: namePart "a/b".data).length ≠ "a/b".data.length := by
      decide
    have hshort : "a/b".data.length < "docker.io".data.length + 1 := by decide
    simp only [hlen, hshort, ne_eq, not_false_eq_true, if_true]
  · rw [if_neg hg] at hp
    rw [if_neg hg]
    unfold ParseFQIN
    rw [hp]

theorem parseFQIN_docker_single (grammar : String → Bool) :
    ParseFQIN grammar "docker.io/alpine" "customcr.io" =
      if grammar "docker.io/library/alpine" = true then .ok "docker.io/library/alpine"
      else .error .invalidReference := by
  have hp := parseNormalizedNamed_eval grammar "docker.io/alpine" "docker.io".data
    "library/alpine".data (by decide) (by decide) (by decide) (by decide)
  have hstr : String.mk ("docker.io".data ++ '/' :: "library/alpine".data) =
      "docker.io/library/alpine" := by decide
  rw [hstr] at hp
  by_cases hg : grammar "docker.io/library/alpine" = true
  · rw [if_pos hg] at hp
    rw [if_pos hg, parseFQIN_of_ref hp "customcr.io" "docker.io".data
      (namePart "library/alpine".data) rfl (by decide)]
    have hlen : ("docker.io".data ++ '/' :: namePart "library/alpine".data).length ≠
        "docker.io/alpine".data.length := by decide
    have hshort : ¬ "docker.io/alpine".data.length < "docker.io".data.length + 1 := by decide
    have htake : ¬ ("docker.io".data ++ ['/'] ≠
        "docker.io/alpine".data.take ("docker.io".data.length + 1)) := by decide
    simp only [hlen, hshort, htake, ne_eq, not_false_eq_true, if_true, if_false]
    decide
  · rw [if_neg hg] at hp
    rw [if_neg hg]
    unfold ParseFQIN
    rw [hp]

/-- C13 as stated fails: whatever the reference grammar accepts, `ParseFQIN`
does not return `docker.io/alpine` unchanged (the normalised name has
`library/` in it), and for the reference `a/b`, which names no domain, it does
not return `customcr.io/a/b` (the slice `name[:10]` is out of range for a name
of 3 bytes). -/
theorem parseFQIN_not_as_claimed :
    (¬ ∃ grammar : String → Bool,
        ParseFQIN grammar "docker.io/alpine" "customcr.io" = .ok "docker.io/alpine") ∧
      ¬ ∃ grammar : String → Bool,
        ParseFQIN grammar "a/b" "customcr.io" = .ok "customcr.io/a/b" := by
  constructor
  · rintro ⟨grammar, h⟩
    rw [parseFQIN_docker_single] at h
    split_ifs at h
    exact absurd h (by decide)
  · rintro ⟨grammar, h⟩
    rw [parseFQIN_short] at h
    split_ifs at h

/-! ## Node registry: the message on open -/

/-- C20 at its input: with the node 10.0.0.1:8000 registered as node-0, a
channel opened with the header `node-0` on which the peer sends nothing and
then closes ends without error and without a single write to the broker; and
for every server, metadata and stream, every message `OpenChannel` writes to
the broker is one the peer sent, so the starting message is never written:
`JSON()` returns no error and the write stands under `err != nil`. -/
theorem openChannel_writes_no_starting_message :
    (registerAll NewNodeRegistryServer [⟨"10.0.0.1", 8000⟩]).1.OpenChannel
        DeploymentConfig.JSON (some [("x-carisma-node-id", ["node-0"])]) [] none = (none, []) ∧
      ∀ (s : NodeRegistryServer) (md : Option (GoMap (List String)))
        (recv : List DeploymentConfiguration) (closeErr : Option Error),
        ∀ m ∈ (s.OpenChannel DeploymentConfig.JSON md recv closeErr).2, m ∈ recv := by
  constructor
  · decide
  · intro s md recv closeErr m hm
    unfold NodeRegistryServer.OpenChannel at hm
    cases md with
    | none => simp at hm
    | some md =>
      simp only at hm
      cases hget : mdGet md HeaderNodeID with
      | nil => simp [hget] at hm
      | cons nodeID0 rest =>
        simp only [hget] at hm
        cases hval : s.ValidateNodeID nodeID0 with
        | error e => simp [hval] at hm
        | ok nodeIdx =>
          simp only [hval] at hm
          cases hnode : s.nodes[nodeIdx.toNat]? with
          | none => simp [hnode] at hm
          | some node =>
            simp only [hnode, DeploymentConfig.JSON, GoDeploymentConfig.JSON, List.nil_append,
              List.append_nil] at hm
            exact hm

/-! ## UTF-8: a well-formed rune decodes to what encodes it -/

theorem decodeRune_ascii (b : Nat) (t : GoString) (hb : b < 128) :
    decodeRune (b :: t) = (b, 1) := by
  simp only [decodeRune, if_pos hb]

/-- The three shapes of a rune of more than one byte that `decodeRune`
accepts. -/
theorem decodeRune_cases (b : Nat) (t : GoString) (hb : 128 ≤ b)
    (hn : (decodeRune (b :: t)).2 ≠ 1) :
    (∃ s1 t1, t = s1 :: t1 ∧ 194 ≤ b ∧ b < 224 ∧ 128 ≤ s1 ∧ s1 ≤ 191 ∧
        decodeRune (b :: t) = (b % 32 * 64 + s1 % 64, 2)) ∨
      (∃ s1 s2 t1, t = s1 :: s2 :: t1 ∧ 224 ≤ b ∧ b < 240 ∧
        (if b = 224 then 160 else 128) ≤ s1 ∧ s1 ≤ (if b = 237 then 159 else 191) ∧
        128 ≤ s2 ∧ s2 ≤ 191 ∧
        decodeRune (b :: t) = (b % 16 * 4096 + s1 % 64 * 64 + s2 % 64, 3)) ∨
      (∃ s1 s2 s3 t1, t = s1 :: s2 :: s3 :: t1 ∧ 240 ≤ b ∧ b < 245 ∧
        (if b = 240 then 144 else 128) ≤ s1 ∧ s1 ≤ (if b = 244 then 143 else 191) ∧
        128 ≤ s2 ∧ s2 ≤ 191 ∧ 128 ≤ s3 ∧ s3 ≤ 191 ∧
        decodeRune (b :: t) =
          (b % 8 * 262144 + s1 % 64 * 4096 + s2 % 64 * 64 + s3 % 64, 4)) := by
  have h128 : ¬ b < 128 := by omega
  by_cases h194 : b < 194
  · exfalso
    apply hn
    simp only [decodeRune, if_neg h128, if_pos h194]
  by_cases h224 : b < 224
  · left
    cases t with
    | nil =>
      exfalso
      apply hn
      simp only [decodeRune, if_neg h128, if_neg h194, if_pos h224]
    | cons s1 t1 =>
      by_cases hc : 128 ≤ s1 ∧ s1 ≤ 191
      · refine ⟨s1, t1, rfl, by omega, h224, hc.1, hc.2, ?_⟩
        simp only [decodeRune, if_neg h128, if_neg h194, if_pos h224, if_pos hc]
      · exfalso
        apply hn
        simp only [decodeRune, if_neg h128, if_neg h194, if_pos h224, if_neg hc]
  by_cases h240 : b < 240
  · right
    left
    have hshort : ∀ u : GoString, u.length < 2 →
        (decodeRune (b :: u)).2 = 1 := by
      intro u hu
      match u, hu with
      | [], _ => simp only [decodeRune, if_neg h128, if_neg h194, if_neg h224, if_pos h240]
      | [_], _ => simp only [decodeRune, if_neg h128, if_neg h194, if_neg h224, if_pos h240]
    match t, hn, hshort with
    | [], hn, hshort => exact absurd (hshort [] (by decide)) hn
    | [x], hn, hshort => exact absurd (hshort [x] (by simp)) hn
    | s1 :: s2 :: t1, hn, _ =>
      by_cases hc : (if b = 224 then 160 else 128) ≤ s1 ∧ s1 ≤ (if b = 237 then 159 else 191) ∧
          128 ≤ s2 ∧ s2 ≤ 191
      · refine ⟨s1, s2, t1, rfl, by omega, h240, hc.1, hc.2.1, hc.2.2.1, hc.2.2.2, ?_⟩
        simp only [decodeRune, if_neg h128, if_neg h194, if_neg h224, if_pos h240, if_pos hc]
      · exfalso
        apply hn
        simp only [decodeRune, if_neg h128, if_neg h194, if_neg h224, if_pos h240, if_neg hc]
  by_cases h245 : b < 245
  · right
    right
    have hshort : ∀ u : GoString, u.length < 3 →
        (decodeRune (b :: u)).2 = 1 := by
      intro u hu
      match u, hu with
      | [], _ =>
        simp only [decodeRune, if_neg h128, if_neg h194, if_neg h224, if_neg h240, if_pos h245]
      | [_], _ =>
        simp only [decodeRune, if_neg h128, if_neg h194, if_neg h224, if_neg h240, if_pos h245]
      | [_, _], _ =>
        simp only [decodeRune, if_neg h128, if_neg h194, if_neg h224, if_neg h240, if_pos h245]
    match t, hn, hshort with
    | [], hn, hshort => exact absurd (hshort [] (by decide)) hn
    | [x], hn, hshort => exact absurd (hshort [x] (by simp)) hn
    | [x, y], hn, hshort => exact absurd (hshort [x, y] (by simp)) hn
    | s1 :: s2 :: s3 :: t1, hn, _ =>
      by_cases hc : (if b = 240 then 144 else 128) ≤ s1 ∧ s1 ≤ (if b = 244 then 143 else 191) ∧
          128 ≤ s2 ∧ s2 ≤ 191 ∧ 128 ≤ s3 ∧ s3 ≤ 191
      · refine ⟨s1, s2, s3, t1, rfl, by omega, h245, hc.1, hc.2.1, hc.2.2.1, hc.2.2.2.1,
          hc.2.2.2.2.1, hc.2.2.2.2.2, ?_⟩
        simp only [decodeRune, if_neg h128, if_neg h194, if_neg h224, if_neg h240, if_pos h245,
          if_pos hc]
      · exfalso
        apply hn
        simp only [decodeRune, if_neg h128, if_neg h194, if_neg h224, if_neg h240, if_pos h245,
          if_neg hc]
  · exfalso
    apply hn
    simp only [decodeRune, if_neg h128, if_neg h194, if_neg h224, if_neg h240, if_neg h245]

/-- A rune of more than one byte that `decodeRune` accepts: its bytes are the
encoding of the rune, and the encoding followed by any bytes decodes to the
rune again. -/
theorem decodeRune_wellformed (b : Nat) (t : GoString) (hb : 128 ≤ b)
    (hn : (decodeRune (b :: t)).2 ≠ 1) :
    (b :: t).take (decodeRune (b :: t)).2 = encodeRune (decodeRune (b :: t)).1 ∧
      (encodeRune (decodeRune (b :: t)).1).length = (decodeRune (b :: t)).2 ∧
      (∀ X : GoString, decodeRune (encodeRune (decodeRune (b :: t)).1 ++ X) =
        decodeRune (b :: t)) ∧
      (∃ tl, encodeRune (decodeRune (b :: t)).1 = b :: tl) := by
  rcases decodeRune_cases b t hb hn with
    ⟨s1, t1, rfl, h0, h0', h1, h1', hd⟩ |
    ⟨s1, s2, t1, rfl, h0, h0', h1, h1', h2, h2', hd⟩ |
    ⟨s1, s2, s3, t1, rfl, h0, h0', h1, h1', h2, h2', h3, h3', hd⟩
  · have henc : encodeRune (b % 32 * 64 + s1 % 64) = [b, s1] := by
      have e1 : ¬ b % 32 * 64 + s1 % 64 < 128 := by omega
      have e2 : b % 32 * 64 + s1 % 64 < 2048 := by omega
      have e3 : 192 + (b % 32 * 64 + s1 % 64) / 64 = b := by omega
      have e4 : 128 + (b % 32 * 64 + s1 % 64) % 64 = s1 := by omega
      simp only [encodeRune, if_neg e1, if_pos e2, e3, e4]
    rw [hd]
    simp only [henc]
    refine ⟨rfl, rfl, ?_, ⟨_, rfl⟩⟩
    intro X
    have h128 : ¬ b < 128 := by omega
    have h194 : ¬ b < 194 := by omega
    simp only [List.cons_append, List.nil_append, decodeRune, if_neg h128, if_neg h194,
      if_pos h0', if_pos (And.intro h1 h1')]
  · have hr1 : 2048 ≤ b % 16 * 4096 + s1 % 64 * 64 + s2 % 64 := by
      split_ifs at h1 h1' <;> omega
    have hr2 : ¬ ((55296 ≤ b % 16 * 4096 + s1 % 64 * 64 + s2 % 64 ∧
        b % 16 * 4096 + s1 % 64 * 64 + s2 % 64 < 57344) ∨
        1114111 < b % 16 * 4096 + s1 % 64 * 64 + s2 % 64) := by
      split_ifs at h1 h1' <;> omega
    have henc : encodeRune (b % 16 * 4096 + s1 % 64 * 64 + s2 % 64) = [b, s1, s2] := by
      have e1 : ¬ b % 16 * 4096 + s1 % 64 * 64 + s2 % 64 < 128 := by omega
      have e2 : ¬ b % 16 * 4096 + s1 % 64 * 64 + s2 % 64 < 2048 := by omega
      have e3 : b % 16 * 4096 + s1 % 64 * 64 + s2 % 64 < 65536 := by omega
      have e4 : 224 + (b % 16 * 4096 + s1 % 64 * 64 + s2 % 64) / 4096 = b := by omega
      have e5 : 128 + (b % 16 * 4096 + s1 % 64 * 64 + s2 % 64) / 64 % 64 = s1 := by
        split_ifs at h1 h1' <;> omega
      have e6 : 128 + (b % 16 * 4096 + s1 % 64 * 64 + s2 % 64) % 64 = s2 := by omega
      simp only [encodeRune, if_neg e1, if_neg e2, if_neg hr2, if_pos e3, e4, e5, e6]
    rw [hd]
    simp only [henc]
    refine ⟨rfl, rfl, ?_, ⟨_, rfl⟩⟩
    intro X
    have h128 : ¬ b < 128 := by omega
    have h194 : ¬ b < 194 := by omega
    have h224 : ¬ b < 224 := by omega
    simp only [List.cons_append, List.nil_append, decodeRune, if_neg h128, if_neg h194,
      if_neg h224, if_pos h0', if_pos (And.intro h1 (And.intro h1' (And.intro h2 h2')))]
  · have hr1 : 65536 ≤ b % 8 * 262144 + s1 % 64 * 4096 + s2 % 64 * 64 + s3 % 64 := by
      split_ifs at h1 h1' <;> omega
    have hr2 : ¬ ((55296 ≤ b % 8 * 262144 + s1 % 64 * 4096 + s2 % 64 * 64 + s3 % 64 ∧
        b % 8 * 262144 + s1 % 64 * 4096 + s2 % 64 * 64 + s3 % 64 < 57344) ∨
        1114111 < b % 8 * 262144 + s1 % 64 * 4096 + s2 % 64 * 64 + s3 % 64) := by
      split_ifs at h1 h1' <;> omega
    have henc : encodeRune (b % 8 * 262144 + s1 % 64 * 4096 + s2 % 64 * 64 + s3 % 64) =
        [b, s1, s2, s3] := by
      have e1 : ¬ b % 8 * 262144 + s1 % 64 * 4096 + s2 % 64 * 64 + s3 % 64 < 128 := by omega
      have e2 : ¬ b % 8 * 262144 + s1 % 64 * 4096 + s2 % 64 * 64 + s3 % 64 < 2048 := by omega
      have e3 : ¬ b % 8 * 262144 + s1 % 64 * 4096 + s2 % 64 * 64 + s3 % 64 < 65536 := by
        omega
      have e4 : 240 + (b % 8 * 262144 + s1 % 64 * 4096 + s2 % 64 * 64 + s3 % 64) / 262144 =
          b := by omega
      have e5 : 128 + (b % 8 * 262144 + s1 % 64 * 4096 + s2 % 64 * 64 + s3 % 64) / 4096 % 64 =
          s1 := by
        split_ifs at h1 h1' <;> omega
      have e6 : 128 + (b % 8 * 262144 + s1 % 64 * 4096 + s2 % 64 * 64 + s3 % 64) / 64 % 64 =
          s2 := by omega
      have e7 : 128 + (b % 8 * 262144 + s1 % 64 * 4096 + s2 % 64 * 64 + s3 % 64) % 64 = s3 := by
        omega
      simp only [encodeRune, if_neg e1, if_neg e2, if_neg hr2, if_neg e3, e4, e5, e6, e7]
    rw [hd]
    simp only [henc]
    refine ⟨rfl, rfl, ?_, ⟨_, rfl⟩⟩
    intro X
    have h128 : ¬ b < 128 := by omega
    have h194 : ¬ b < 194 := by omega
    have h224 : ¬ b < 224 := by omega
    have h240 : ¬ b < 240 := by omega
    simp only [List.cons_append, List.nil_append, decodeRune, if_neg h128, if_neg h194,
      if_neg h224, if_neg h240, if_pos h0',
      if_pos (And.intro h1 (And.intro h1' (And.intro h2 (And.intro h2' (And.intro h3 h3')))))]

/-! ## JSON: string literals read back -/

theorem hexValue_hexDigit : ∀ k : Nat, k < 16 → hexValue (hexDigit k) = some k := by
  decide

theorem parseHex4_byte (n : Nat) (h : n < 256) :
    parseHex4 48 48 (hexDigit (n / 16)) (hexDigit (n % 16)) = some n := by
  have h0 : hexValue 48 = some 0 := by decide
  unfold parseHex4
  rw [h0, hexValue_hexDigit (n / 16) (by omega), hexValue_hexDigit (n % 16) (by omega)]
  simp only [Option.some.injEq]
  omega

theorem decodeEscape_plain (n : Nat) (cs : GoString) (h : n < 55296) :
    decodeEscape n cs = (n, cs) := by
  unfold decodeEscape
  rw [if_neg (by omega)]

theorem encodeRune_ascii (b : Nat) (hb : b < 128) : encodeRune b = [b] := by
  simp only [encodeRune, if_pos hb]

theorem scanString_escapeByte (b : Nat) (hb : b < 128) (tail : GoString) (fuel : Nat) :
    scanString (fuel + 1) (escapeByte b ++ tail) =
      (scanString fuel tail).map (fun r => (b :: r.1, r.2)) := by
  unfold escapeByte
  by_cases hsafe : htmlSafe b = true
  · rw [if_pos hsafe]
    simp only [htmlSafe, decide_eq_true_eq] at hsafe
    have h34 : ¬ b = 34 := hsafe.2.2.1
    have h92 : ¬ b = 92 := hsafe.2.2.2.2.2.2
    have h32 : ¬ b < 32 := by omega
    simp only [List.singleton_append, scanString, if_neg h34, if_neg h92, if_neg h32,
      if_pos hb]
    rfl
  rw [if_neg hsafe]
  by_cases hq : b = 92 ∨ b = 34
  · rw [if_pos hq]
    rcases hq with rfl | rfl <;> simp [scanString, simpleEscape]
  rw [if_neg hq]
  by_cases h8 : b = 8
  · subst h8
    simp [scanString, simpleEscape]
  rw [if_neg h8]
  by_cases h12 : b = 12
  · subst h12
    simp [scanString, simpleEscape]
  rw [if_neg h12]
  by_cases h10 : b = 10
  · subst h10
    simp [scanString, simpleEscape]
  rw [if_neg h10]
  by_cases h13 : b = 13
  · subst h13
    simp [scanString, simpleEscape]
  rw [if_neg h13]
  by_cases h9 : b = 9
  · subst h9
    simp [scanString, simpleEscape]
  rw [if_neg h9]
  have hdec : decodeEscape b tail = (b, tail) := decodeEscape_plain b tail (by omega)
  simp [scanString, parseHex4_byte b (by omega), hdec, encodeRune_ascii b hb]

theorem scanString_rune (b : Nat) (t : GoString) (hb : 128 ≤ b)
    (hn : (decodeRune (b :: t)).2 ≠ 1) (tail : GoString) (fuel : Nat) :
    scanString (fuel + 1) ((b :: t).take (decodeRune (b :: t)).2 ++ tail) =
      (scanString fuel tail).map
        (fun r => ((b :: t).take (decodeRune (b :: t)).2 ++ r.1, r.2)) := by
  obtain ⟨htake, hlen, hdec, tl, htl⟩ := decodeRune_wellformed b t hb hn
  have hdrop : (b :: (tl ++ tail)).drop (decodeRune (b :: t)).2 = tail := by
    have : b :: (tl ++ tail) = encodeRune (decodeRune (b :: t)).1 ++ tail := by
      rw [htl]
      rfl
    rw [this, ← hlen, List.drop_left]
  have hdec2 : decodeRune (b :: (tl ++ tail)) = decodeRune (b :: t) := by
    have := hdec tail
    rw [htl] at this
    exact this
  rw [htake, htl, List.cons_append]
  have h34 : ¬ b = 34 := by omega
  have h92 : ¬ b = 92 := by omega
  have h32 : ¬ b < 32 := by omega
  have h128 : ¬ b < 128 := by omega
  simp only [scanString, if_neg h34, if_neg h92, if_neg h32, if_neg h128, hdec2, hdrop, htl]

theorem scanString_lineSeparator (r : Nat) (hr : r = 8232 ∨ r = 8233) (tail : GoString)
    (fuel : Nat) :
    scanString (fuel + 1) ([92, 117, 50, 48, 50, hexDigit (r % 16)] ++ tail) =
      (scanString fuel tail).map (fun x => (encodeRune r ++ x.1, x.2)) := by
  have hp : parseHex4 50 48 50 (hexDigit (r % 16)) = some r := by
    rcases hr with rfl | rfl <;> decide
  have hdec : decodeEscape r tail = (r, tail) := decodeEscape_plain r tail (by omega)
  simp [scanString, hp, hdec]

theorem escapeByte_length_pos (b : Nat) : 1 ≤ (escapeByte b).length := by
  unfold escapeByte
  split_ifs <;> simp

/-- The bytes `appendStringLoop` writes for a valid UTF-8 string, read by
`scanString` up to the closing quote, are the string. -/
theorem scanString_appendStringLoop (f : Nat) :
    ∀ (s tail : GoString) (fuel : Nat), validLoop f s = true →
      (appendStringLoop f s).length + 1 ≤ fuel →
      scanString fuel (appendStringLoop f s ++ 34 :: tail) = some (s, tail) := by
  induction f with
  | zero =>
    intro s tail fuel hv hfuel
    obtain ⟨g, rfl⟩ : ∃ g, fuel = g + 1 := ⟨fuel - 1, by omega⟩
    have hs : s = [] := by
      cases s with
      | nil => rfl
      | cons b t => simp [validLoop] at hv
    subst hs
    simp [appendStringLoop, scanString]
  | succ f ih =>
    intro s tail fuel hv hfuel
    obtain ⟨g, rfl⟩ : ∃ g, fuel = g + 1 := ⟨fuel - 1, by omega⟩
    cases s with
    | nil => simp [appendStringLoop, scanString]
    | cons b t =>
      by_cases hb : b < 128
      · simp only [validLoop, if_pos hb] at hv
        simp only [appendStringLoop, if_pos hb, List.length_append] at hfuel ⊢
        have hpos := escapeByte_length_pos b
        rw [List.append_assoc, scanString_escapeByte b hb, ih t tail g hv (by omega)]
        rfl
      · have hn : (decodeRune (b :: t)).2 ≠ 1 := by
          intro h1
          simp [validLoop, hb, h1] at hv
        simp only [validLoop, if_neg hb, if_neg hn] at hv
        have hbad : ¬ ((decodeRune (b :: t)).1 = runeError ∧ (decodeRune (b :: t)).2 = 1) :=
          fun h => hn h.2
        obtain ⟨htake, hlen, _, tl, htl⟩ := decodeRune_wellformed b t (by omega) hn
        have hsplit : (b :: t).take (decodeRune (b :: t)).2 ++
            (b :: t).drop (decodeRune (b :: t)).2 = b :: t := List.take_append_drop _ _
        by_cases hsep : (decodeRune (b :: t)).1 = 8232 ∨ (decodeRune (b :: t)).1 = 8233
        · simp only [appendStringLoop, if_neg hb, if_neg hbad, if_pos hsep,
            List.length_append, List.length_cons, List.length_nil] at hfuel ⊢
          rw [List.append_assoc, scanString_lineSeparator _ hsep,
            ih _ tail g hv (by omega)]
          simp only [Option.map_some', ← htake, hsplit]
        · simp only [appendStringLoop, if_neg hb, if_neg hbad, if_neg hsep,
            List.length_append] at hfuel ⊢
          have hpos : 1 ≤ ((b :: t).take (decodeRune (b :: t)).2).length := by
            rw [htake, htl]
            simp
          rw [List.append_assoc, scanString_rune b t (by omega) hn,
            ih _ tail g hv (by omega)]
          simp only [Option.map_some', hsplit]

/-- The string literal of a valid UTF-8 string, read from after its opening
quote with the fuel the parser gives, is the string. -/
theorem scanString_appendString (s tail : GoString) (hv : utf8Valid s = true) :
    scanString (appendStringLoop s.length s ++ 34 :: tail).length
        (appendStringLoop s.length s ++ 34 :: tail) = some (s, tail) := by
  apply scanString_appendStringLoop _ _ _ _ hv
  rw [List.length_append, List.length_cons]
  omega

/-! ## JSON: the encoder's text read back -/

theorem skipSpace_of_space {c : Nat} (h : isJsonSpace c = true) (cs : GoString) :
    skipSpace (c :: cs) = skipSpace cs := by
  unfold skipSpace
  rw [List.dropWhile_cons_of_pos h]

theorem skipSpace_of_not_space {c : Nat} (h : isJsonSpace c = false) (cs : GoString) :
    skipSpace (c :: cs) = c :: cs := by
  unfold skipSpace
  rw [List.dropWhile_cons_of_neg (by simp [h])]

theorem skipSpace_indent (level : Nat) (cs : GoString) :
    skipSpace (jsonIndent level ++ cs) = skipSpace cs := by
  unfold jsonIndent
  induction 4 * level with
  | zero => rfl
  | succ n ih =>
    rw [List.replicate_succ, List.cons_append, skipSpace_of_space (by decide), ih]

theorem skipSpace_newline_indent (level : Nat) (cs : GoString) :
    skipSpace (10 :: (jsonIndent level ++ cs)) = skipSpace cs := by
  rw [skipSpace_of_space (by decide), skipSpace_indent]

theorem parseValue_skip {c : Nat} (h : isJsonSpace c = true) (depth : Nat) (cs : GoString) :
    parseValue depth (c :: cs) = parseValue depth cs := by
  cases depth <;> simp only [parseValue, skipSpace_of_space h]

theorem parseValue_indent (level depth : Nat) (cs : GoString) :
    parseValue depth (jsonIndent level ++ cs) = parseValue depth cs := by
  cases depth <;> simp only [parseValue, skipSpace_indent]

theorem appendString_append (s rest : GoString) :
    appendString s ++ rest = 34 :: (appendStringLoop s.length s ++ 34 :: rest) := by
  simp [appendString]

theorem parseValue_appendString (depth : Nat) (s rest : GoString) (hv : utf8Valid s = true) :
    parseValue depth (appendString s ++ rest) = some (JValue.string s, rest) := by
  rw [appendString_append]
  cases depth <;>
    simp only [parseValue, skipSpace_of_not_space (show isJsonSpace 34 = false by decide),
      if_true, scanString_appendString s rest hv, Option.map_some']

theorem parseValue_null (depth : Nat) (rest : GoString) :
    parseValue depth ([110, 117, 108, 108] ++ rest) = some (JValue.null, rest) := by
  cases depth <;>
    simp [parseValue, skipSpace_of_not_space (show isJsonSpace 110 = false by decide),
      scanLiteral, List.isPrefixOf]

theorem parseElems_skip {c : Nat} (h : isJsonSpace c = true) (depth fuel : Nat)
    (cs : GoString) :
    parseElems (parseValue depth) fuel (c :: cs) = parseElems (parseValue depth) fuel cs := by
  cases fuel with
  | zero => rfl
  | succ n => simp only [parseElems, parseValue_skip h]

theorem parseElems_renderElems (depth level level2 : Nat) (s : GoString) (t : List GoString)
    (rest : GoString) (fuel : Nat) (hfuel : (s :: t).length ≤ fuel)
    (hv : ∀ x ∈ s :: t, utf8Valid x = true) :
    parseElems (parseValue depth) fuel
        (renderElems level (s :: t) ++ 10 :: (jsonIndent level2 ++ 93 :: rest)) =
      some ((s :: t).map (fun x => JValue.string x), rest) := by
  induction t generalizing s fuel with
  | nil =>
    obtain ⟨f, rfl⟩ : ∃ f, fuel = f + 1 := ⟨fuel - 1, by simp at hfuel; omega⟩
    have hs := hv s (List.mem_cons_self _ _)
    simp only [renderElems, parseElems, List.append_assoc, parseValue_indent,
      parseValue_appendString _ _ _ hs, skipSpace_newline_indent,
      skipSpace_of_not_space (show isJsonSpace 93 = false by decide)]
    simp
  | cons s2 t ih =>
    obtain ⟨f, rfl⟩ : ∃ f, fuel = f + 1 := ⟨fuel - 1, by simp at hfuel; omega⟩
    have hf : (s2 :: t).length ≤ f := by simp at hfuel ⊢; omega
    have hs := hv s (List.mem_cons_self _ _)
    simp only [renderElems, parseElems, List.append_assoc, parseValue_indent,
      parseValue_appendString _ _ _ hs, List.cons_append, List.nil_append,
      skipSpace_of_not_space (show isJsonSpace 44 = false by decide)]
    simp only [if_true, parseElems_skip (show isJsonSpace 10 = true by decide)]
    have := ih s2 f hf (fun x hx => hv x (List.mem_cons_of_mem _ hx))
    simp only [List.append_assoc] at this
    rw [this]
    rfl

theorem length_le_renderElems (level : Nat) (l : List GoString) :
    l.length ≤ (renderElems level l).length := by
  induction l with
  | nil => simp
  | cons s t ih =>
    cases t with
    | nil =>
      simp only [renderElems, appendString, List.length_append, List.length_cons,
        List.length_nil]
      omega
    | cons s2 t =>
      simp only [renderElems, List.length_append, List.length_cons] at ih ⊢
      omega

theorem skipSpace_renderElems (level : Nat) (s : GoString) (t : List GoString)
    (tail : GoString) :
    ∃ X, skipSpace (10 :: (renderElems level (s :: t) ++ tail)) = 34 :: X := by
  have hquote : ∀ more : GoString,
      skipSpace (10 :: (jsonIndent level ++ (appendString s ++ more))) =
        34 :: (appendStringLoop s.length s ++ 34 :: more) := by
    intro more
    rw [skipSpace_newline_indent, appendString_append, skipSpace_of_not_space (by decide)]
  cases t with
  | nil =>
    refine ⟨appendStringLoop s.length s ++ 34 :: tail, ?_⟩
    rw [← hquote]
    simp only [renderElems, List.append_assoc]
  | cons s2 t =>
    refine ⟨appendStringLoop s.length s ++ 34 :: ([44, 10] ++ (renderElems level (s2 :: t) ++
      tail)), ?_⟩
    rw [← hquote]
    simp only [renderElems, List.append_assoc]

theorem parseValue_renderImages (depth level : Nat) (images : Option (List GoString))
    (rest : GoString) (hv : ∀ l, images = some l → ∀ x ∈ l, utf8Valid x = true) :
    parseValue (depth + 1) (renderImages level images ++ rest) =
      some (imagesValue images, rest) := by
  cases images with
  | none => exact parseValue_null (depth + 1) rest
  | some l =>
    cases l with
    | nil =>
      simp [renderImages, parseValue, imagesValue,
        skipSpace_of_not_space (show isJsonSpace 91 = false by decide),
        skipSpace_of_not_space (show isJsonSpace 93 = false by decide)]
    | cons s t =>
      obtain ⟨X, hskip⟩ := skipSpace_renderElems (level + 1) s t
        (10 :: (jsonIndent level ++ 93 :: rest))
      have htext : renderImages level (some (s :: t)) ++ rest =
          91 :: 10 :: (renderElems (level + 1) (s :: t) ++
            10 :: (jsonIndent level ++ 93 :: rest)) := by
        simp [renderImages]
      rw [htext]
      unfold parseValue
      rw [skipSpace_of_not_space (show isJsonSpace 91 = false by decide)]
      simp only [hskip]
      rw [parseElems_skip (by decide),
        parseElems_renderElems depth (level + 1) level s t rest _ (by
          have := length_le_renderElems (level + 1) (s :: t)
          simp only [List.length_cons, List.length_append] at this ⊢
          omega) (hv (s :: t) rfl)]
      simp [imagesValue]

theorem parseMembers_skip (pv : GoString → Option (JValue × GoString)) {c : Nat}
    (h : isJsonSpace c = true) (fuel : Nat) (cs : GoString) :
    parseMembers pv fuel (c :: cs) = parseMembers pv fuel cs := by
  cases fuel with
  | zero => rfl
  | succ n => simp only [parseMembers, skipSpace_of_space h]

theorem parseMembers_more (pv : GoString → Option (JValue × GoString)) (fuel level : Nat)
    (k rest1 rest3 : GoString) (v : JValue) (hk : utf8Valid k = true)
    (hv : pv rest1 = some (v, 44 :: rest3)) :
    parseMembers pv (fuel + 1) (jsonIndent level ++ (appendString k ++ 58 :: rest1)) =
      (parseMembers pv fuel rest3).map (fun r => ((k, v) :: r.1, r.2)) := by
  rw [appendString_append]
  simp only [parseMembers, skipSpace_indent,
    skipSpace_of_not_space (show isJsonSpace 34 = false by decide), if_true,
    scanString_appendString k _ hk,
    skipSpace_of_not_space (show isJsonSpace 58 = false by decide), hv,
    skipSpace_of_not_space (show isJsonSpace 44 = false by decide)]

theorem parseMembers_last (pv : GoString → Option (JValue × GoString)) (fuel level : Nat)
    (k rest1 rest2 rest3 : GoString) (v : JValue) (hk : utf8Valid k = true)
    (hv : pv rest1 = some (v, rest2)) (hclose : skipSpace rest2 = 125 :: rest3) :
    parseMembers pv (fuel + 1) (jsonIndent level ++ (appendString k ++ 58 :: rest1)) =
      some ([(k, v)], rest3) := by
  rw [appendString_append]
  simp only [parseMembers, skipSpace_indent,
    skipSpace_of_not_space (show isJsonSpace 34 = false by decide), if_true,
    scanString_appendString k _ hk,
    skipSpace_of_not_space (show isJsonSpace 58 = false by decide), hv, hclose]
  simp

theorem renderNode_append (level : Nat) (node : GoNodeConfig) (rest : GoString) :
    renderNode level node ++ rest =
      123 :: 10 :: (jsonIndent (level + 1) ++ (appendString (asciiBytes "state") ++ 58 :: 32 ::
        (appendString node.State ++ 44 :: 10 :: (jsonIndent (level + 1) ++
          (appendString (asciiBytes "container") ++ 58 :: 32 ::
            (renderImages (level + 1) node.Images ++
              10 :: (jsonIndent level ++ 125 :: rest))))))) := by
  simp [renderNode]

theorem parseMembers_node (depth level fuel : Nat) (node : GoNodeConfig) (rest : GoString)
    (hfuel : 2 ≤ fuel) (hstate : utf8Valid node.State = true)
    (himages : ∀ l, node.Images = some l → ∀ x ∈ l, utf8Valid x = true) :
    parseMembers (parseValue (depth + 1)) fuel
        (jsonIndent (level + 1) ++ (appendString (asciiBytes "state") ++ 58 :: 32 ::
          (appendString node.State ++ 44 :: 10 :: (jsonIndent (level + 1) ++
            (appendString (asciiBytes "container") ++ 58 :: 32 ::
              (renderImages (level + 1) node.Images ++
                10 :: (jsonIndent level ++ 125 :: rest))))))) =
      some ([(asciiBytes "state", JValue.string node.State),
        (asciiBytes "container", imagesValue node.Images)],
        rest) := by
  obtain ⟨fuel, rfl⟩ : ∃ f, fuel = f + 2 := ⟨fuel - 2, by omega⟩
  rw [parseMembers_more (parseValue (depth + 1)) (fuel + 1) (level + 1) (asciiBytes "state") _ _
      (JValue.string node.State) (by decide)
      (by rw [parseValue_skip (by decide), parseValue_appendString _ _ _ hstate]),
    parseMembers_skip _ (by decide),
    parseMembers_last (parseValue (depth + 1)) fuel (level + 1) (asciiBytes "container") _ _
      rest _ (by decide)
      (by rw [parseValue_skip (by decide), parseValue_renderImages _ _ _ _ himages])
      (by rw [skipSpace_newline_indent, skipSpace_of_not_space (by decide)])]
  rfl

theorem parseValue_renderNode (depth level : Nat) (node : GoNodeConfig) (rest : GoString)
    (hstate : utf8Valid node.State = true)
    (himages : ∀ l, node.Images = some l → ∀ x ∈ l, utf8Valid x = true) :
    parseValue (depth + 2) (renderNode level node ++ rest) = some (nodeValue node, rest) := by
  rw [renderNode_append]
  have hskip : ∀ tail : GoString,
      skipSpace (10 :: (jsonIndent (level + 1) ++ (appendString (asciiBytes "state") ++ tail))) =
        34 :: (appendStringLoop (asciiBytes "state").length (asciiBytes "state") ++
          34 :: tail) := by
    intro tail
    rw [skipSpace_newline_indent, appendString_append, skipSpace_of_not_space (by decide)]
  have hlen : ∀ tail : GoString,
      2 ≤ (10 :: (jsonIndent (level + 1) ++
        (appendString (asciiBytes "state") ++ tail))).length := by
    intro tail
    simp only [List.length_cons, List.length_append, appendString]
    omega
  unfold parseValue
  rw [skipSpace_of_not_space (show isJsonSpace 123 = false by decide)]
  simp only [hskip]
  rw [parseMembers_skip _ (by decide),
    parseMembers_node _ _ _ _ _ (hlen _) hstate himages]
  simp [nodeValue]

theorem parseMembers_renderHosts (depth : Nat) (e : GoString × GoNodeConfig)
    (t : List (GoString × GoNodeConfig)) (rest : GoString) (fuel : Nat)
    (hfuel : (e :: t).length ≤ fuel)
    (hv : ∀ x ∈ e :: t, utf8Valid x.1 = true ∧ utf8Valid x.2.State = true ∧
      ∀ l, x.2.Images = some l → ∀ y ∈ l, utf8Valid y = true) :
    parseMembers (parseValue (depth + 2)) fuel (renderHosts (e :: t) ++ 10 :: 125 :: rest) =
      some (hostMembers (e :: t), rest) := by
  induction t generalizing e fuel with
  | nil =>
    obtain ⟨f, rfl⟩ : ∃ f, fuel = f + 1 := ⟨fuel - 1, by simp at hfuel; omega⟩
    obtain ⟨hk, hs, hi⟩ := hv e (List.mem_cons_self _ _)
    have htext : renderHosts [e] ++ 10 :: 125 :: rest =
        jsonIndent 1 ++ (appendString e.1 ++ 58 :: 32 :: (renderNode 1 e.2 ++
          10 :: 125 :: rest)) := by
      simp [renderHosts]
    rw [htext, parseMembers_last (parseValue (depth + 2)) f 1 e.1 _ _ rest (nodeValue e.2) hk
      (by rw [parseValue_skip (by decide), parseValue_renderNode _ _ _ _ hs hi])
      (by rw [skipSpace_of_space (by decide), skipSpace_of_not_space (by decide)])]
    rfl
  | cons e2 t ih =>
    obtain ⟨f, rfl⟩ : ∃ f, fuel = f + 1 := ⟨fuel - 1, by simp at hfuel; omega⟩
    have hf : (e2 :: t).length ≤ f := by simp at hfuel ⊢; omega
    obtain ⟨hk, hs, hi⟩ := hv e (List.mem_cons_self _ _)
    have htext : renderHosts (e :: e2 :: t) ++ 10 :: 125 :: rest =
        jsonIndent 1 ++ (appendString e.1 ++ 58 :: 32 :: (renderNode 1 e.2 ++
          44 :: 10 :: (renderHosts (e2 :: t) ++ 10 :: 125 :: rest))) := by
      simp [renderHosts]
    rw [htext, parseMembers_more (parseValue (depth + 2)) f 1 e.1 _ _ (nodeValue e.2) hk
      (by rw [parseValue_skip (by decide), parseValue_renderNode _ _ _ _ hs hi]),
      parseMembers_skip _ (by decide),
      ih e2 f hf (fun x hx => hv x (List.mem_cons_of_mem _ hx))]
    rfl

theorem length_le_renderHosts (l : List (GoString × GoNodeConfig)) :
    l.length ≤ (renderHosts l).length := by
  induction l with
  | nil => simp
  | cons e t ih =>
    cases t with
    | nil =>
      simp only [renderHosts, appendString, List.length_append, List.length_cons,
        List.length_nil]
      omega
    | cons e2 t =>
      simp only [renderHosts, List.length_append, List.length_cons] at ih ⊢
      omega

theorem skipSpace_renderHosts (e : GoString × GoNodeConfig)
    (t : List (GoString × GoNodeConfig)) (tail : GoString) :
    ∃ X, skipSpace (10 :: (renderHosts (e :: t) ++ tail)) = 34 :: X := by
  have hquote : ∀ more : GoString,
      skipSpace (10 :: (jsonIndent 1 ++ (appendString e.1 ++ more))) =
        34 :: (appendStringLoop e.1.length e.1 ++ 34 :: more) := by
    intro more
    rw [skipSpace_newline_indent, appendString_append, skipSpace_of_not_space (by decide)]
  cases t with
  | nil =>
    refine ⟨appendStringLoop e.1.length e.1 ++ 34 :: ([58, 32] ++ (renderNode 1 e.2 ++ tail)),
      ?_⟩
    rw [← hquote]
    simp only [renderHosts, List.append_assoc]
  | cons e2 t =>
    refine ⟨appendStringLoop e.1.length e.1 ++ 34 :: ([58, 32] ++ (renderNode 1 e.2 ++
      ([44, 10] ++ (renderHosts (e2 :: t) ++ tail)))), ?_⟩
    rw [← hquote]
    simp only [renderHosts, List.append_assoc]

theorem parseValue_hosts (depth : Nat) (e : GoString × GoNodeConfig)
    (t : List (GoString × GoNodeConfig))
    (hv : ∀ x ∈ e :: t, utf8Valid x.1 = true ∧ utf8Valid x.2.State = true ∧
      ∀ l, x.2.Images = some l → ∀ y ∈ l, utf8Valid y = true) :
    parseValue (depth + 3) ([123, 10] ++ renderHosts (e :: t) ++ [10, 125]) =
      some (JValue.object (hostMembers (e :: t)), []) := by
  have htext : ([123, 10] ++ renderHosts (e :: t) ++ [10, 125] : GoString) =
      123 :: 10 :: (renderHosts (e :: t) ++ 10 :: 125 :: []) := by
    simp
  obtain ⟨X, hskip⟩ := skipSpace_renderHosts e t [10, 125]
  simp only [htext]
  unfold parseValue
  rw [skipSpace_of_not_space (show isJsonSpace 123 = false by decide)]
  simp only [hskip]
  rw [parseMembers_skip _ (by decide),
    parseMembers_renderHosts depth e t [] _ (by
      have := length_le_renderHosts (e :: t)
      simp only [List.length_cons, List.length_append] at this ⊢
      omega) hv]
  simp

/-! ## JSON: the parsed value decoded, and the round trip -/

theorem decodeImages_strings (images slots : List GoString) :
    decodeImages (images.map (fun s => JValue.string s)) slots = .ok images := by
  induction images generalizing slots with
  | nil => rfl
  | cons s t ih =>
    simp only [List.map_cons, decodeImages, decodeImage, ih]

theorem decodeField_state (node : NodeTarget) (s : GoString) :
    decodeField node [115, 116, 97, 116, 101] (JValue.string s) =
      .ok { State := s, Images := node.Images, spare := node.spare } := by
  unfold decodeField
  rw [if_pos (by decide)]

theorem decodeField_container (node : NodeTarget) (images : Option (List GoString)) :
    ∃ spare, decodeField node [99, 111, 110, 116, 97, 105, 110, 101, 114]
        (imagesValue images) =
      .ok { State := node.State, Images := images, spare := spare } := by
  unfold decodeField
  rw [if_neg (by decide), if_pos (by decide)]
  cases images with
  | none => exact ⟨[], rfl⟩
  | some l =>
    cases l with
    | nil => exact ⟨[], rfl⟩
    | cons s t =>
      refine ⟨(node.Images.getD [] ++ node.spare).drop (s :: t).length, ?_⟩
      have h := decodeImages_strings (s :: t) (node.Images.getD [] ++ node.spare)
      simp only [List.map_cons] at h
      simp only [imagesValue, List.map_cons, h, List.length_cons, List.length_map]

theorem decodeNode_nodeValue (node : GoNodeConfig) : decodeNode (nodeValue node) = .ok node := by
  have hs : asciiBytes "state" = [115, 116, 97, 116, 101] := by decide
  have hc : asciiBytes "container" = [99, 111, 110, 116, 97, 105, 110, 101, 114] := by decide
  obtain ⟨spare, hfield⟩ := decodeField_container
    { State := node.State, Images := none, spare := [] } node.Images
  simp only [nodeValue, decodeNode, decodeFields, hs, hc, decodeField_state, hfield]

theorem decodeHosts_hostMembers (hosts acc : List (GoString × GoNodeConfig)) :
    decodeHosts (hostMembers hosts) acc =
      .ok (hosts.foldl (fun m e => hostSet m e.1 e.2) acc) := by
  induction hosts generalizing acc with
  | nil => rfl
  | cons e t ih =>
    have := ih (hostSet acc e.1 e.2)
    simp only [hostMembers, List.map_cons, decodeHosts, decodeNode_nodeValue,
      List.foldl_cons] at this ⊢
    exact this

theorem hostSet_of_not_mem (m : List (GoString × GoNodeConfig)) (key : GoString)
    (v : GoNodeConfig) (h : key ∉ m.map Prod.fst) : hostSet m key v = m ++ [(key, v)] := by
  induction m with
  | nil => rfl
  | cons e m ih =>
    obtain ⟨k, w⟩ := e
    simp only [List.map_cons, List.mem_cons, not_or] at h
    have hk : ¬ k = key := fun hk => h.1 hk.symm
    simp only [hostSet, if_neg hk, ih h.2, List.cons_append]

theorem foldl_hostSet_of_nodup (l acc : List (GoString × GoNodeConfig))
    (h : ((acc ++ l).map Prod.fst).Nodup) :
    l.foldl (fun m e => hostSet m e.1 e.2) acc = acc ++ l := by
  induction l generalizing acc with
  | nil => simp
  | cons e t ih =>
    have hnot : e.1 ∉ acc.map Prod.fst := by
      rw [List.map_append, List.map_cons] at h
      have := (List.nodup_append.mp h).2.2
      intro hmem
      exact this hmem (List.mem_cons_self _ _)
    have h2 : (((acc ++ [e]) ++ t).map Prod.fst).Nodup := by
      rw [List.append_assoc]
      exact h
    rw [List.foldl_cons, hostSet_of_not_mem acc e.1 e.2 hnot, ih (acc ++ [e]) h2,
      List.append_assoc]
    rfl

theorem sortHosts_perm (l : List (GoString × GoNodeConfig)) : (sortHosts l).Perm l :=
  List.perm_insertionSort _ l

theorem validStrings_mem (l : List (GoString × GoNodeConfig))
    (hv : ValidStrings (some l) = true) :
    ∀ x ∈ l, utf8Valid x.1 = true ∧ utf8Valid x.2.State = true ∧
      ∀ im, x.2.Images = some im → ∀ y ∈ im, utf8Valid y = true := by
  intro x hx
  simp only [ValidStrings, List.all_eq_true, Bool.and_eq_true] at hv
  obtain ⟨⟨h1, h2⟩, h3⟩ := hv x hx
  refine ⟨h1, h2, ?_⟩
  intro im him y hy
  rw [him] at h3
  simp only [List.all_eq_true] at h3
  exact h3 y hy

/-- The decoder on the encoder's text: for a configuration whose strings are
valid UTF-8 and whose host names are distinct it gives the nil map for the nil
map and the entries in the order they were written otherwise. -/
theorem unmarshal_marshalIndent (d : GoDeploymentConfig) (hkeys : (hostNames d).Nodup)
    (hv : ValidStrings d = true) :
    unmarshal (marshalIndent d) = .ok (d.map sortHosts) := by
  cases d with
  | none =>
    have hp : parseValue maxNestingDepth [110, 117, 108, 108] = some (JValue.null, []) :=
      parseValue_null maxNestingDepth []
    simp only [marshalIndent, unmarshal, hp, skipSpace, List.dropWhile_nil, ne_eq,
      not_true_eq_false, if_false, Option.map_none']
  | some l =>
    have hsorted : ((sortHosts l).map Prod.fst).Nodup :=
      (((sortHosts_perm l).map Prod.fst).nodup_iff).mpr hkeys
    have hvalid : ∀ x ∈ sortHosts l, utf8Valid x.1 = true ∧ utf8Valid x.2.State = true ∧
        ∀ im, x.2.Images = some im → ∀ y ∈ im, utf8Valid y = true :=
      fun x hx => validStrings_mem l hv x ((sortHosts_perm l).mem_iff.mp hx)
    have hdecode : decodeHosts (hostMembers (sortHosts l)) [] = .ok (sortHosts l) := by
      rw [decodeHosts_hostMembers, foldl_hostSet_of_nodup _ _ (by
        rw [List.nil_append]
        exact hsorted)]
      rfl
    simp only [marshalIndent, Option.map_some']
    cases hsort : sortHosts l with
    | nil =>
      have hp : parseValue maxNestingDepth [123, 125] = some (JValue.object [], []) := by
        have h3 : maxNestingDepth = 9999 + 1 := rfl
        rw [h3]
        simp [parseValue, skipSpace_of_not_space (show isJsonSpace 123 = false by decide),
          skipSpace_of_not_space (show isJsonSpace 125 = false by decide)]
      simp only [unmarshal, hp, skipSpace, List.dropWhile_nil, ne_eq, not_true_eq_false,
        if_false, decodeHosts]
    | cons e t =>
      rw [hsort] at hvalid hdecode
      have hp : parseValue maxNestingDepth ([123, 10] ++ renderHosts (e :: t) ++ [10, 125]) =
          some (JValue.object (hostMembers (e :: t)), []) :=
        parseValue_hosts 9997 e t hvalid
      simp only [unmarshal, hp, skipSpace, List.dropWhile_nil, ne_eq, not_true_eq_false,
        if_false, hdecode]

/-- C15, amended: for every deployment configuration (a map, so its host
names are distinct) whose host names, states and image names are valid UTF-8,
the method `JSON` succeeds, and `DeploymentConfigFromJSON` on the bytes it
returns succeeds with the same map: nil for nil, and otherwise the same
entries, each host name with the same state and the same image slice (nil for
nil, and the same names in the same order). -/
theorem json_roundtrip (d : GoDeploymentConfig) (hkeys : (hostNames d).Nodup)
    (hv : ValidStrings d = true) :
    ∃ text d2, GoDeploymentConfig.JSON d = .ok text ∧
      DeploymentConfigFromJSON text = .ok d2 ∧ SameConfig d2 d := by
  refine ⟨marshalIndent d, d.map sortHosts, rfl, unmarshal_marshalIndent d hkeys hv, ?_⟩
  cases d with
  | none => exact True.intro
  | some l => exact sortHosts_perm l

theorem json_roundtrip_witness :
    ∃ text d2,
      GoDeploymentConfig.JSON
          (some [(goString "host-2",
                    { State := goString "running",
                      Images := some [goString "localhost/image3:latest"] }),
                 (goString "host-1", { State := goString "stopped", Images := none }),
                 (goString "h\u00e9", { State := [], Images := some [] })]) = .ok text ∧
        DeploymentConfigFromJSON text = .ok d2 ∧
        SameConfig d2
          (some [(goString "host-2",
                    { State := goString "running",
                      Images := some [goString "localhost/image3:latest"] }),
                 (goString "host-1", { State := goString "stopped", Images := none }),
                 (goString "h\u00e9", { State := [], Images := some [] })]) :=
  json_roundtrip _ (by decide) (by decide)

set_option maxRecDepth 100000 in
/-- The scenario against C15: the host name is the single byte 0xFF, which is
not valid UTF-8. `JSON` writes the key as the escape of U+FFFD, and
`DeploymentConfigFromJSON` on that text returns a map whose only host name is
the three bytes of U+FFFD: the configuration that comes back is another
one. -/
theorem json_roundtrip_changes_invalid_utf8 :
    GoDeploymentConfig.JSON (some [([255], { State := [], Images := none })]) =
        .ok (goString
          "\x7b\n    \"\\ufffd\": \x7b\n        \"state\": \"\",\n        \"container\": null\n    \x7d\n\x7d") ∧
      DeploymentConfigFromJSON (goString
          "\x7b\n    \"\\ufffd\": \x7b\n        \"state\": \"\",\n        \"container\": null\n    \x7d\n\x7d") =
        .ok (some [([239, 191, 189], { State := [], Images := none })]) ∧
      ¬ SameConfig (some [([239, 191, 189], { State := [], Images := none })])
        (some [([255], { State := [], Images := none })]) := by
  refine ⟨by decide, by decide, ?_⟩
  intro h
  have hmem := (List.Perm.mem_iff h (a := ([239, 191, 189], { State := [], Images := none }))).mp
    (List.mem_singleton.mpr rfl)
  simp at hmem

/-! ## JSON: the cases of the package tests, and single values -/

set_option maxRecDepth 100000 in
/-- The case of `TestFromJSON`: the text of the test decodes to the two hosts
the test expects. -/
theorem fromJSON_test_case :
    DeploymentConfigFromJSON (goString
        "\x7b\n\t\"host-1\": \x7b\n\t\t\"state\": \"running\",\n\t\t\"container\": [\n\t\t\t\"localhost/image1:latest\",\n\t\t\t\"localhost/image2:v1\"\n\t\t]\n\t\x7d,\n\t\"host-2\": \x7b\n\t\t\"state\": \"running\",\n\t\t\"container\": [\n\t\t\t\"localhost/image3:latest\"\n\t\t]\n\t\x7d\n\x7d") =
      .ok (some
        [(goString "host-1",
            { State := goString "running",
              Images := some [goString "localhost/image1:latest",
                goString "localhost/image2:v1"] }),
         (goString "host-2",
            { State := goString "running",
              Images := some [goString "localhost/image3:latest"] })]) := by
  decide

set_option maxRecDepth 100000 in
/-- The shape of `TestFromJSONInvalid`: a top-level array is refused with a
type error. -/
theorem fromJSON_invalid_case :
    DeploymentConfigFromJSON (goString
        "[\n    \x7b\n        \"name\": \"host-1\",\n        \"state\": \"running\",\n        \"container\": [\n\t\t\t\"localhost/image1:latest\"\n\t\t]\n    \x7d\n]") =
      .error .jsonType := by
  decide

set_option maxRecDepth 100000 in
/-- The text `JSON` writes: keys in order, four spaces per level, a space
after each colon; `null` for a nil image slice and `[]` for an empty one. -/
theorem json_text_case :
    GoDeploymentConfig.JSON
        (some [(goString "host-2",
                  { State := goString "running",
                    Images := some [goString "localhost/image3:latest"] }),
               (goString "host-1", { State := goString "starting", Images := some [] }),
               (goString "host-0", { State := [], Images := none })]) =
      .ok (goString
        "\x7b\n    \"host-0\": \x7b\n        \"state\": \"\",\n        \"container\": null\n    \x7d,\n    \"host-1\": \x7b\n        \"state\": \"starting\",\n        \"container\": []\n    \x7d,\n    \"host-2\": \x7b\n        \"state\": \"running\",\n        \"container\": [\n            \"localhost/image3:latest\"\n        ]\n    \x7d\n\x7d") ∧
      GoDeploymentConfig.JSON none = .ok (goString "null") ∧
      GoDeploymentConfig.JSON (some []) = .ok [123, 125] := by
  decide

/-- String literals of the encoder: backspace and form feed are written `\b`
and `\f`, newline, carriage return and tab `\n`, `\r`, `\t`, another control
byte and `<`, `>`, `&` as `\u00XX`, the byte 0x7F as it is, a byte that starts
no rune as `\ufffd`, U+2028 as its escape, and other runes as their bytes. -/
theorem appendString_cases :
    appendString [8, 12, 10, 13, 9] = goString "\"\\b\\f\\n\\r\\t\"" ∧
      appendString [1, 60, 62, 38, 127] =
        goString "\"\\u0001\\u003c\\u003e\\u0026\x7f\"" ∧
      appendString [34, 92, 47] = goString "\"\\\"\\\\/\"" ∧
      appendString [255, 104, 195] = goString "\"\\ufffdh\\ufffd\"" ∧
      appendString [226, 128, 168, 195, 169] = goString "\"\\u2028\u00e9\"" := by
  decide

set_option maxRecDepth 100000 in
/-- Values the decoder meets twice or as `null`: `null` under `container`
gives the nil slice; an array decoded after another one finds the strings of
the first in its elements, so `[null]` after `["a","b"]` gives `["a"]`, and
three `null` after that give `"a"`, `"b"` and an empty string; an empty array
gives a new empty slice; `null` at the top leaves the map nil and `\x7b\x7d`
makes an empty map; a member is decoded into a new zero value, so a repeated
host keeps nothing of its first value. -/
theorem unmarshal_cases :
    unmarshal (goString "\x7b\"h\":\x7b\"container\":[\"a\"],\"container\":null\x7d\x7d") =
        .ok (some [(goString "h", { State := [], Images := none })]) ∧
      unmarshal (goString
          "\x7b\"h\":\x7b\"container\":[\"a\",\"b\"],\"container\":[null]\x7d\x7d") =
        .ok (some [(goString "h", { State := [], Images := some [goString "a"] })]) ∧
      unmarshal (goString
          "\x7b\"h\":\x7b\"container\":[\"a\",\"b\"],\"container\":[null],\"container\":[null,null,null]\x7d\x7d") =
        .ok (some [(goString "h",
          { State := [], Images := some [goString "a", goString "b", []] })]) ∧
      unmarshal (goString
          "\x7b\"h\":\x7b\"container\":[\"a\"],\"container\":[],\"container\":[null]\x7d\x7d") =
        .ok (some [(goString "h", { State := [], Images := some [[]] })]) ∧
      unmarshal (goString "null") = .ok none ∧
      unmarshal (goString "\x7b\x7d") = .ok (some []) ∧
      unmarshal (goString
          "\x7b\"h\":\x7b\"state\":\"x\",\"container\":[\"a\"]\x7d,\"h\":\x7b\"STATE\":null\x7d\x7d") =
        .ok (some [(goString "h", { State := [], Images := none })]) ∧
      unmarshal (goString "\x7b\"h\":\x7b\"state\":5\x7d\x7d") = .error .jsonType ∧
      unmarshal (goString "\x7b\"h\":\x7b\"state\":\"x\"\x7d") = .error .jsonSyntax := by
  refine ⟨?_, ?_, ?_, ?_, ?_, ?_, ?_, ?_, ?_⟩ <;> decide

/-! ## Service registry: the channel without a node ID -/

theorem serviceOpenChannel_unregistered (s : ServiceRegistryServer)
    (nodeRegistry : NodeRegistryServer) (md : GoMap (List String)) (nodeID : String)
    (more : List String) (err : Error) (recv : List ServiceAnnouncement) (streamEnd : StreamEnd)
    (hmd : mdGet md HeaderNodeID = nodeID :: more)
    (hval : nodeRegistry.ValidateNodeID nodeID = .error err) :
    s.OpenChannel nodeRegistry (some md) recv streamEnd =
      (.ok (some (.FailedPrecondition .missingHeader)), s) := by
  simp only [ServiceRegistryServer.OpenChannel, hmd, List.getElem?_cons_zero, hval]

theorem serviceOpenChannel_no_metadata (s : ServiceRegistryServer)
    (nodeRegistry : NodeRegistryServer) (recv : List ServiceAnnouncement)
    (streamEnd : StreamEnd) :
    s.OpenChannel nodeRegistry none recv streamEnd =
      (.ok (some (.FailedPrecondition .missingHeader)), s) := rfl

/-- C21 at its input: on a stream whose metadata holds no value under
`x-carisma-node-id` (no metadata entry at all, only other headers, or the key
with an empty value list) `ServiceRegistryServer.OpenChannel` does not return
a status: the read of `nodeID[0]` panics with an index out of range, whatever
the registry, the announcements and the end of the stream are. -/
theorem serviceOpenChannel_without_header_panics (s : ServiceRegistryServer)
    (nodeRegistry : NodeRegistryServer) (recv : List ServiceAnnouncement)
    (streamEnd : StreamEnd) :
    s.OpenChannel nodeRegistry (some []) recv streamEnd = (.error .indexOutOfRange, s) ∧
      s.OpenChannel nodeRegistry (some [("user-agent", ["grpc-go/1.58.0"])]) recv streamEnd =
        (.error .indexOutOfRange, s) ∧
      s.OpenChannel nodeRegistry (some [("x-carisma-node-id", [])]) recv streamEnd =
        (.error .indexOutOfRange, s) :=
  ⟨rfl, rfl, rfl⟩

/-! ## Configuration: `fix` -/

/-- C24: `Config.fix` sets `CentralNodeHostname` to `NodeHostname` when
`EnableCentralMode` is true and leaves it as it is otherwise, and every other
field keeps its value in both cases. -/
theorem fix_spec (c : Config) :
    c.fix.CentralNodeHostname =
        (if c.EnableCentralMode = true then c.NodeHostname else c.CentralNodeHostname) ∧
      c.fix.EnableDebugMode = c.EnableDebugMode ∧
      c.fix.EmulateContainerRuntime = c.EmulateContainerRuntime ∧
      c.fix.EnableCentralMode = c.EnableCentralMode ∧
      c.fix.EnableDiscovery = c.EnableDiscovery ∧
      c.fix.NodeHostname = c.NodeHostname ∧
      c.fix.StatusMgrPort = c.StatusMgrPort ∧
      c.fix.GRPCPort = c.GRPCPort ∧
      c.fix.UDPPort = c.UDPPort ∧
      c.fix.UDPDelay = c.UDPDelay ∧
      c.fix.UDPTimeout = c.UDPTimeout ∧
      c.fix.IngressPort = c.IngressPort ∧
      c.fix.EgressPort = c.EgressPort ∧
      c.fix.AdminPort = c.AdminPort ∧
      c.fix.DefaultContainerRegistryDomain = c.DefaultContainerRegistryDomain := by
  unfold Config.fix
  by_cases h : c.EnableCentralMode = true
  · simp only [if_pos h, and_self]
  · simp only [if_neg h, and_self]

/-! ## Message broker: the fan-out step -/

theorem trySend_length_le {T : Type} (buf : List T) (msg : T) (h : buf.length ≤ readerCapacity) :
    (trySend buf msg).length ≤ readerCapacity := by
  unfold trySend
  by_cases hlt : buf.length < readerCapacity
  · rw [if_pos hlt, List.length_append, List.length_singleton]
    omega
  · rw [if_neg hlt]
    exact h

theorem receiveAt_bounded {T : Type} (listeners : List (List T)) (reader : Nat)
    (h : ∀ buf ∈ listeners, buf.length ≤ readerCapacity) :
    ∀ buf ∈ receiveAt listeners reader, buf.length ≤ readerCapacity := by
  induction listeners generalizing reader with
  | nil => intro buf hbuf; simp [receiveAt] at hbuf
  | cons ch rest ih =>
    cases reader with
    | zero =>
      intro buf hbuf
      simp only [receiveAt, List.mem_cons] at hbuf
      rcases hbuf with rfl | hbuf
      · have := h ch (List.mem_cons_self _ _)
        rw [List.length_tail]
        omega
      · exact h buf (List.mem_cons_of_mem _ hbuf)
    | succ r =>
      intro buf hbuf
      simp only [receiveAt, List.mem_cons] at hbuf
      rcases hbuf with rfl | hbuf
      · exact h _ (List.mem_cons_self _ _)
      · exact ih r (fun b hb => h b (List.mem_cons_of_mem _ hb)) buf hbuf

theorem brokerStep_bounded {T : Type} (listeners : List (List T)) (e : BrokerEvent T)
    (h : ∀ buf ∈ listeners, buf.length ≤ readerCapacity) :
    ∀ buf ∈ brokerStep listeners e, buf.length ≤ readerCapacity := by
  cases e with
  | attach =>
    intro buf hbuf
    simp only [brokerStep, List.mem_append, List.mem_singleton] at hbuf
    rcases hbuf with hbuf | rfl
    · exact h buf hbuf
    · exact Nat.zero_le _
  | write msg =>
    intro buf hbuf
    simp only [brokerStep, fanOut, List.mem_map] at hbuf
    obtain ⟨ch, hch, rfl⟩ := hbuf
    exact trySend_length_le ch msg (h ch hch)
  | receive reader => exact receiveAt_bounded listeners reader h

theorem foldl_brokerStep_bounded {T : Type} (events : List (BrokerEvent T))
    (listeners : List (List T)) (h : ∀ buf ∈ listeners, buf.length ≤ readerCapacity) :
    ∀ buf ∈ events.foldl brokerStep listeners, buf.length ≤ readerCapacity := by
  induction events generalizing listeners with
  | nil => exact h
  | cons e rest ih => exact ih _ (brokerStep_bounded listeners e h)

theorem fanOut_getElem {T : Type} (listeners : List (List T)) (msg : T) (i : Nat) :
    (fanOut listeners msg)[i]? = (listeners[i]?).map (fun ch => trySend ch msg) := by
  unfold fanOut
  rw [List.getElem?_map]

/-- C26: in the fan-out step for one message every listener keeps its place;
a listener whose buffer holds fewer than 5 messages gets the message appended
at the end of its buffer, whatever the other buffers hold, and a listener whose
buffer holds 5 messages is left as it is; and after any sequence of attached
readers, written messages and receives no buffer holds more than 5
messages. -/
theorem fanOut_spec {T : Type} (listeners : List (List T)) (msg : T)
    (events : List (BrokerEvent T)) :
    (fanOut listeners msg).length = listeners.length ∧
      (∀ (i : Nat) (buf : List T), listeners[i]? = some buf → buf.length < 5 →
        (fanOut listeners msg)[i]? = some (buf ++ [msg])) ∧
      (∀ (i : Nat) (buf : List T), listeners[i]? = some buf → buf.length = 5 →
        (fanOut listeners msg)[i]? = some buf) ∧
      (∀ buf ∈ brokerRun events, buf.length ≤ 5) := by
  refine ⟨by simp [fanOut], ?_, ?_, ?_⟩
  · intro i buf hi hlen
    rw [fanOut_getElem, hi, Option.map_some', trySend, if_pos (by exact hlen)]
  · intro i buf hi hlen
    rw [fanOut_getElem, hi, Option.map_some', trySend,
      if_neg (by rw [hlen]; exact Nat.lt_irrefl 5)]
  · exact foldl_brokerStep_bounded events [] (by intro buf hbuf; simp at hbuf)

theorem fanOut_spec_witness :
    (fanOut [[1, 2, 3, 4, 5], [1], [6, 7, 8, 9, 10]] 11)[1]? = some [1, 11] ∧
      (fanOut [[1, 2, 3, 4, 5], [1], [6, 7, 8, 9, 10]] 11)[0]? = some [1, 2, 3, 4, 5] :=
  ⟨(fanOut_spec [[1, 2, 3, 4, 5], [1], [6, 7, 8, 9, 10]] 11 []).2.1 1 [1] rfl (by decide),
    (fanOut_spec [[1, 2, 3, 4, 5], [1], [6, 7, 8, 9, 10]] 11 []).2.2.1 0 [1, 2, 3, 4, 5] rfl rfl⟩

/-! ## Snapshot builder: `makeClusters` fails on the first entry -/

theorem makeEndpoints_error (x : Server) (nodeID bundleID : String) (ports : List Int) :
    ∃ err, x.makeEndpoints nodeID bundleID ports = .error err := by
  unfold Server.makeEndpoints
  cases GetNodeIdx nodeID with
  | error err => exact ⟨err, rfl⟩
  | ok nodeIdx =>
    refine ⟨.xdsInvalidNodeID, ?_⟩
    simp only []
    rw [if_pos]
    exact (le_or_lt (x.nodes.length : Int) nodeIdx).imp_left (fun h => h)

theorem makeClustersLoop_error (x : Server) (localNodeID : String) (ingressPort : Int)
    (e : String × String × List Int) (rest : List (String × String × List Int))
    (clusters : List Cluster) :
    ∃ err, makeClustersLoop x localNodeID ingressPort (e :: rest) clusters [] = .error err := by
  obtain ⟨nodeID, bundleID, instances⟩ := e
  obtain ⟨err, herr⟩ := makeEndpoints_error x nodeID bundleID
    (if nodeID = localNodeID then instances else [ingressPort])
  refine ⟨err, ?_⟩
  simp only [makeClustersLoop, slicesContains, List.contains_nil, herr]
  rfl

/-- C27: `makeEndpoints` returns an error for every node ID, bundle ID, port
list and server state, and `makeClusters` returns an error exactly when the
nested loop over the services map has an entry to visit, that is, when some
node of the map has a bundle. -/
theorem makeClusters_error_iff (x : Server) (nodeID bundleID localNodeID : String)
    (ports : List Int) (ingressPort : Int) :
    (∃ err, x.makeEndpoints nodeID bundleID ports = .error err) ∧
      ((∃ err, x.makeClusters localNodeID ingressPort = .error err) ↔
        serviceEntries x.services ≠ []) := by
  refine ⟨makeEndpoints_error x nodeID bundleID ports, ?_⟩
  unfold Server.makeClusters
  cases h : serviceEntries x.services with
  | nil => simp [makeClustersLoop]
  | cons e rest =>
    simp only [ne_eq, not_false_eq_true, iff_true, reduceCtorEq]
    exact makeClustersLoop_error x localNodeID ingressPort e rest []

/-! ## Discovery messages: a message of the magic bytes only -/

/-- C28 at its input: the 9 bytes of the magic string pass `IsCARISMAMessage`,
and `DecodeBroadcastMessage` on them does not return: the slice
`msg[len(magicString)+1:]` is out of range, whatever the decoder is. -/
theorem decode_magic_only_panics (gobDecode : List Nat → BroadcastMessage × Option Error) :
    IsCARISMAMessage (asciiBytes magicString) = true ∧
      DecodeBroadcastMessage gobDecode (asciiBytes magicString) = .error .indexOutOfRange :=
  ⟨by decide, rfl⟩

/-! ## Service registry: the frame of the two updates -/

theorem mapGet_mapDelete_ne {α : Type} (m : GoMap α) {key k : String} (h : key ≠ k) :
    mapGet (mapDelete m key) k = mapGet m k := by
  induction m with
  | nil => rfl
  | cons a m ih =>
    obtain ⟨k2, w⟩ := a
    by_cases hk : k2 = key
    · have hk2 : ¬ k2 = k := fun e => h (hk ▸ e)
      simp only [mapDelete, if_pos hk, mapGet, if_neg hk2, ih]
    · by_cases hk2 : k2 = k
      · simp only [mapDelete, if_neg hk, mapGet, if_pos hk2]
      · simp only [mapDelete, if_neg hk, mapGet, if_neg hk2, ih]

/-- The shape both updates leave: the map itself, or the map with a new inner
map under the node that agrees with the old inner map on every other bundle. -/
theorem registerPorts_shape (s : ServiceConfigSnapshot) (n b : String) (p : Int) :
    ∃ inner, registerPorts s n b p = mapSet s n inner ∧
      ∀ b2, b ≠ b2 → mapGet inner b2 = mapGet ((mapGet s n).getD []) b2 := by
  refine ⟨_, registerPorts_eq s n b p, ?_⟩
  intro b2 hb
  exact mapGet_mapSet_ne _ _ hb

theorem unregisterPorts_shape (s : ServiceConfigSnapshot) (n b : String) (p : Int) :
    unregisterPorts s n b p = s ∨
      ∃ inner, unregisterPorts s n b p = mapSet s n inner ∧
        ∀ b2, b ≠ b2 → mapGet inner b2 = mapGet ((mapGet s n).getD []) b2 := by
  cases hidx : slicesIndex (portsOf s n b) p with
  | none =>
    rw [unregisterPorts_of_not_found hidx]
    by_cases hlen : (portsOf s n b).length = 0
    · rw [if_pos hlen]
      cases hn : mapGet s n with
      | none => exact Or.inl rfl
      | some inner =>
        refine Or.inr ⟨_, rfl, ?_⟩
        intro b2 hb
        simp only [Option.getD_some]
        exact mapGet_mapDelete_ne _ hb
    · rw [if_neg hlen]
      exact Or.inl rfl
  | some i =>
    rw [unregisterPorts_of_found hidx]
    by_cases hlen : (slicesDelete (portsOf s n b) i).length = 0
    · rw [if_pos hlen]
      refine Or.inr ⟨_, rfl, ?_⟩
      intro b2 hb
      rw [mapGet_mapDelete_ne _ hb, mapGet_mapSet_ne _ _ hb]
    · rw [if_neg hlen]
      refine Or.inr ⟨_, rfl, ?_⟩
      intro b2 hb
      exact mapGet_mapSet_ne _ _ hb

theorem frame_of_shape (s t : ServiceConfigSnapshot) (n b : String)
    (h : t = s ∨ ∃ inner, t = mapSet s n inner ∧
      ∀ b2, b ≠ b2 → mapGet inner b2 = mapGet ((mapGet s n).getD []) b2) :
    (∀ n2, n ≠ n2 → mapGet t n2 = mapGet s n2) ∧
      (∀ n2 b2, (n ≠ n2 ∨ b ≠ b2) →
        mapGet ((mapGet t n2).getD []) b2 = mapGet ((mapGet s n2).getD []) b2) := by
  rcases h with rfl | ⟨inner, rfl, hinner⟩
  · exact ⟨fun _ _ => rfl, fun _ _ _ => rfl⟩
  · refine ⟨fun n2 hn => mapGet_mapSet_ne _ _ hn, ?_⟩
    intro n2 b2 hne
    by_cases hn : n = n2
    · subst hn
      have hb : b ≠ b2 := by
        rcases hne with h1 | h1
        · exact absurd rfl h1
        · exact h1
      rw [mapGet_mapSet_same, Option.getD_some]
      exact hinner b2 hb
    · rw [mapGet_mapSet_ne _ _ hn]

/-- C29: `registerService` and `unregisterService` for (node, bundle, port)
leave the inner map of every other node as it is, and under every pair
(node2, bundle2) other than (node, bundle) the entry read from the services
map (present or not, and its port list) is the one read before. -/
theorem registry_updates_frame (s : ServiceRegistryServer) (nodeID bundleID : String)
    (port : Int) :
    (∀ n2, nodeID ≠ n2 →
        mapGet (s.registerService nodeID bundleID port).services n2 = mapGet s.services n2 ∧
        mapGet (s.unregisterService nodeID bundleID port).services n2 =
          mapGet s.services n2) ∧
      (∀ n2 b2, (nodeID ≠ n2 ∨ bundleID ≠ b2) →
        mapGet ((mapGet (s.registerService nodeID bundleID port).services n2).getD []) b2 =
            mapGet ((mapGet s.services n2).getD []) b2 ∧
          mapGet ((mapGet (s.unregisterService nodeID bundleID port).services n2).getD []) b2 =
            mapGet ((mapGet s.services n2).getD []) b2 ∧
          portsOf (s.registerService nodeID bundleID port).services n2 b2 =
            portsOf s.services n2 b2 ∧
          portsOf (s.unregisterService nodeID bundleID port).services n2 b2 =
            portsOf s.services n2 b2) := by
  have hreg := frame_of_shape s.services (registerPorts s.services nodeID bundleID port)
    nodeID bundleID (Or.inr (registerPorts_shape s.services nodeID bundleID port))
  have hunreg := frame_of_shape s.services (unregisterPorts s.services nodeID bundleID port)
    nodeID bundleID (unregisterPorts_shape s.services nodeID bundleID port)
  refine ⟨fun n2 hn => ⟨hreg.1 n2 hn, hunreg.1 n2 hn⟩, ?_⟩
  intro n2 b2 hne
  refine ⟨hreg.2 n2 b2 hne, hunreg.2 n2 b2 hne, ?_, ?_⟩
  · exact congrArg (fun o => Option.getD o []) (hreg.2 n2 b2 hne)
  · exact congrArg (fun o => Option.getD o []) (hunreg.2 n2 b2 hne)

theorem registry_updates_frame_witness :
    portsOf
        (ServiceRegistryServer.registerService
          { services := [("node-0", [("com.a", [8080])]), ("node-1", [("com.b", [8081])])],
            updateChannel := [] } "node-0" "com.a" 9090).services "node-1" "com.b" =
      portsOf [("node-0", [("com.a", [8080])]), ("node-1", [("com.b", [8081])])]
        "node-1" "com.b" ∧
    portsOf
        (ServiceRegistryServer.unregisterService
          { services := [("node-0", [("com.a", [8080])]), ("node-1", [("com.b", [8081])])],
            updateChannel := [] } "node-0" "com.a" 8080).services "node-1" "com.b" =
      portsOf [("node-0", [("com.a", [8080])]), ("node-1", [("com.b", [8081])])]
        "node-1" "com.b" :=
  ⟨((registry_updates_frame
      { services := [("node-0", [("com.a", [8080])]), ("node-1", [("com.b", [8081])])],
        updateChannel := [] } "node-0" "com.a" 9090).2 "node-1" "com.b"
      (Or.inl (by decide))).2.2.1,
    ((registry_updates_frame
      { services := [("node-0", [("com.a", [8080])]), ("node-1", [("com.b", [8081])])],
        updateChannel := [] } "node-0" "com.a" 8080).2 "node-1" "com.b"
      (Or.inl (by decide))).2.2.2⟩

/-! ## Emulated runtime: bundle IDs and service ports -/

theorem toInt32_of_range (i : Int) (h1 : -(2 : Int) ^ 31 ≤ i) (h2 : i < (2 : Int) ^ 31) :
    toInt32 i = i := by
  unfold toInt32
  norm_num at h1 h2 ⊢
  omega

theorem toInt32_add (a b : Int) : toInt32 (toInt32 a + b) = toInt32 (a + b) := by
  unfold toInt32
  norm_num
  omega

theorem pullIDs_append (a b : List DebugCall) : pullIDs (a ++ b) = pullIDs a ++ pullIDs b := by
  unfold pullIDs
  rw [List.filterMap_append]

theorem debugRun_append (d : debugContainerManager) (a b : List DebugCall) :
    (debugRun d (a ++ b)).1 = (debugRun (debugRun d a).1 b).1 := by
  induction a generalizing d with
  | nil => rfl
  | cons c rest ih =>
    rw [List.cons_append]
    simp only [debugRun]
    exact ih _

theorem debugRun_getElem (d : debugContainerManager) (calls : List DebugCall) (k : Nat) :
    (debugRun d calls).2[k]? =
      (calls[k]?).map (fun c => (debugStep (debugRun d (calls.take k)).1 c).2) := by
  induction calls generalizing d k with
  | nil => simp [debugRun]
  | cons c rest ih =>
    cases k with
    | zero => simp [debugRun]
    | succ k =>
      simp only [debugRun, List.getElem?_cons_succ, List.take_succ_cons]
      exact ih _ k

theorem tracksPulls_step (d : debugContainerManager) (ids : List String) (c : DebugCall)
    (h : TracksPulls d ids) : TracksPulls (debugStep d c).1 (ids ++ pullIDs [c]) := by
  obtain ⟨happ, hport, hmem⟩ := h
  cases c with
  | pull id name ports =>
    have hids : pullIDs [DebugCall.pull id name ports] = [id] := rfl
    rw [hids]
    refine ⟨?_, ?_, ?_⟩
    · simp only [debugStep, debugContainerManager.PullImageAndCreateContainer, happ,
        toInt32_add, List.length_append, List.length_singleton, Nat.cast_add, Nat.cast_one,
        Int.add_assoc]
    · simp only [debugStep, debugContainerManager.PullImageAndCreateContainer, hport,
        toInt32_add, List.length_append, List.length_singleton, Nat.cast_add, Nat.cast_one,
        Int.add_assoc]
    · intro e he
      simp only [debugStep, debugContainerManager.PullImageAndCreateContainer] at he
      rcases mem_mapSet he with rfl | hold
      · refine ⟨ids.length, ?_, happ⟩
        simp
      · obtain ⟨j, hj, hidx⟩ := hmem e hold
        refine ⟨j, ?_, hidx⟩
        have hlt : j < ids.length := by
          by_contra hge
          rw [List.getElem?_eq_none (by omega)] at hj
          exact Option.noConfusion hj
        rw [List.getElem?_append_left hlt]
        exact hj
  | remove name pick =>
    have hids : pullIDs [DebugCall.remove name pick] = [] := rfl
    rw [hids, List.append_nil]
    simp only [debugStep, debugContainerManager.RemoveImageAndContainer]
    cases hfound : (d.container.filter
        (fun e => decide (e.2.container.Image = name)))[pick %
          (d.container.filter (fun e => decide (e.2.container.Image = name))).length]? with
    | none => exact ⟨happ, hport, hmem⟩
    | some e0 =>
      refine ⟨happ, hport, ?_⟩
      intro e he
      exact hmem e (mem_mapDelete he).1
  | start id =>
    have hids : pullIDs [DebugCall.start id] = [] := rfl
    rw [hids, List.append_nil]
    simp only [debugStep, debugContainerManager.StartContainer]
    cases hget : mapGet d.container id with
    | none => exact ⟨happ, hport, hmem⟩
    | some vc =>
      refine ⟨happ, hport, ?_⟩
      intro e he
      rcases mem_mapSet he with rfl | hold
      · exact hmem (id, vc) (mem_of_mapGet hget)
      · exact hmem e hold
  | stop id =>
    have hids : pullIDs [DebugCall.stop id] = [] := rfl
    rw [hids, List.append_nil]
    simp only [debugStep, debugContainerManager.StopContainer]
    cases hget : mapGet d.container id with
    | none => exact ⟨happ, hport, hmem⟩
    | some vc =>
      refine ⟨happ, hport, ?_⟩
      intro e he
      rcases mem_mapSet he with rfl | hold
      · exact hmem (id, vc) (mem_of_mapGet hget)
      · exact hmem e hold

theorem tracksPulls_run (calls : List DebugCall) (d : debugContainerManager)
    (ids : List String) (h : TracksPulls d ids) :
    TracksPulls (debugRun d calls).1 (ids ++ pullIDs calls) := by
  induction calls generalizing d ids with
  | nil =>
    have hnil : pullIDs [] = [] := rfl
    rw [hnil, List.append_nil]
    exact h
  | cons c rest ih =>
    have hsplit : pullIDs (c :: rest) = pullIDs [c] ++ pullIDs rest :=
      pullIDs_append [c] rest
    rw [hsplit, ← List.append_assoc]
    exact ih _ _ (tracksPulls_step d ids c h)

theorem tracksPulls_fresh (calls : List DebugCall) :
    TracksPulls (debugRun NewDebugContainerManager calls).1 (pullIDs calls) := by
  have h := tracksPulls_run calls NewDebugContainerManager []
    ⟨by decide, by decide, by intro e he; cases he⟩
  rw [List.nil_append] at h
  exact h

theorem pullIDs_take_succ (calls : List DebugCall) (k : Nat) (id name ports : String)
    (hk : calls[k]? = some (.pull id name ports)) :
    pullIDs (calls.take (k + 1)) = pullIDs (calls.take k) ++ [id] := by
  rw [List.take_succ, pullIDs_append, hk]
  rfl

theorem pullIDs_take_drop (calls : List DebugCall) (k : Nat) :
    pullIDs calls = pullIDs (calls.take k) ++ pullIDs (calls.drop k) := by
  rw [← pullIDs_append, List.take_append_drop]

theorem pullIDs_index (calls : List DebugCall) (k : Nat) (id name ports : String)
    (hk : calls[k]? = some (.pull id name ports)) :
    (pullIDs calls)[(pullIDs (calls.take k)).length]? = some id := by
  obtain ⟨hlt, hget⟩ := List.getElem?_eq_some.mp hk
  rw [pullIDs_take_drop calls k, List.getElem?_append_right (Nat.le_refl _), Nat.sub_self,
    List.drop_eq_getElem_cons hlt, hget]
  simp [pullIDs]

theorem pull_result (calls : List DebugCall) (k : Nat) (id name ports : String)
    (hk : calls[k]? = some (.pull id name ports)) :
    (debugRun NewDebugContainerManager calls).2[k]? =
      some (.pulled (bundleIDOf (toInt32 (1 + ((pullIDs (calls.take k)).length : Int))))
        (toInt32 (8080 + ((pullIDs (calls.take k)).length : Int)))) := by
  obtain ⟨happ, hport, _⟩ := tracksPulls_fresh (calls.take k)
  rw [debugRun_getElem, hk, Option.map_some']
  simp only [debugStep, debugContainerManager.PullImageAndCreateContainer, happ, hport]

theorem remove_result (calls : List DebugCall) (k : Nat) (name : String) (pick : Nat)
    (id b : String) (p : Int) (hk : calls[k]? = some (.remove name pick))
    (hres : (debugRun NewDebugContainerManager calls).2[k]? = some (.removed (some id) b p)) :
    ∃ j : Nat, (pullIDs (calls.take k))[j]? = some id ∧
      b = bundleIDOf (toInt32 (1 + (j : Int))) ∧
      p = toInt32 (servicePortBase - 1 + toInt32 (1 + (j : Int))) := by
  obtain ⟨_, _, hmem⟩ := tracksPulls_fresh (calls.take k)
  rw [debugRun_getElem, hk, Option.map_some'] at hres
  simp only [debugStep, debugContainerManager.RemoveImageAndContainer] at hres
  cases hfound : ((debugRun NewDebugContainerManager (calls.take k)).1.container.filter
      (fun e => decide (e.2.container.Image = name)))[pick %
        ((debugRun NewDebugContainerManager (calls.take k)).1.container.filter
          (fun e => decide (e.2.container.Image = name))).length]? with
  | none =>
    rw [hfound] at hres
    simp at hres
  | some e0 =>
    obtain ⟨id0, vc⟩ := e0
    rw [hfound] at hres
    simp only [Option.some.injEq, DebugResult.removed.injEq] at hres
    obtain ⟨hid, hb, hp⟩ := hres
    have hin := (List.mem_filter.mp (List.getElem?_mem hfound)).1
    obtain ⟨j, hj, hidx⟩ := hmem (id0, vc) hin
    simp only at hj hidx
    refine ⟨j, ?_, ?_, ?_⟩
    · rw [hj, hid]
    · rw [← hb, hidx]
    · rw [← hp, hidx]

/-- C25: on a fresh emulated runtime, for every sequence of calls in which the
generated container IDs are distinct (and the pulls are few enough for the
`int32` counters), the n-th pull returns the bundle ID
`com.mercedes_benz.app_<n>` and the service port 8080 + (n - 1), where n counts
the pulls up to and including the call; and a removal that removes the
container a pull created returns the pair that pull returned. -/
theorem debug_manager_pairs (calls : List DebugCall) (hids : (pullIDs calls).Nodup)
    (hbound : (pullIDs calls).length + 8080 ≤ 2 ^ 31) :
    (∀ (k : Nat) (id name ports : String), calls[k]? = some (.pull id name ports) →
        (debugRun NewDebugContainerManager calls).2[k]? =
          some (.pulled
            ("com.mercedes_benz.app_" ++ fmtInt ((pullIDs (calls.take (k + 1))).length : Int))
            (8080 + (((pullIDs (calls.take (k + 1))).length : Int) - 1)))) ∧
      (∀ (k i : Nat) (name name2 ports id b : String) (pick : Nat) (p : Int),
        calls[k]? = some (.remove name pick) →
        (debugRun NewDebugContainerManager calls).2[k]? = some (.removed (some id) b p) →
        calls[i]? = some (.pull id name2 ports) →
        (debugRun NewDebugContainerManager calls).2[i]? = some (.pulled b p)) := by
  have hsmall : ∀ (k : Nat) (id name ports : String), calls[k]? = some (.pull id name ports) →
      (pullIDs (calls.take k)).length < (pullIDs calls).length := by
    intro k id name ports hk
    have := pullIDs_index calls k id name ports hk
    exact (List.getElem?_eq_some.mp this).1
  have hpull : ∀ (k : Nat) (id name ports : String), calls[k]? = some (.pull id name ports) →
      (debugRun NewDebugContainerManager calls).2[k]? =
        some (.pulled (bundleIDOf (1 + ((pullIDs (calls.take k)).length : Int)))
          (8080 + ((pullIDs (calls.take k)).length : Int))) := by
    intro k id name ports hk
    have hlt := hsmall k id name ports hk
    rw [pull_result calls k id name ports hk,
      toInt32_of_range (1 + ((pullIDs (calls.take k)).length : Int))
        (by norm_num; omega) (by norm_num; omega),
      toInt32_of_range (8080 + ((pullIDs (calls.take k)).length : Int))
        (by norm_num; omega) (by norm_num; omega)]
  constructor
  · intro k id name ports hk
    rw [hpull k id name ports hk, pullIDs_take_succ calls k id name ports hk,
      List.length_append, List.length_singleton]
    have e1 : (1 : Int) + ((pullIDs (calls.take k)).length : Int) =
        (((pullIDs (calls.take k)).length + 1 : Nat) : Int) := by
      push_cast
      omega
    have e2 : (8080 : Int) + ((pullIDs (calls.take k)).length : Int) =
        8080 + ((((pullIDs (calls.take k)).length + 1 : Nat) : Int) - 1) := by
      push_cast
      omega
    rw [bundleIDOf, e1, e2]
  · intro k i name name2 ports id b pick p hk hres hi
    obtain ⟨j, hj, hb, hp⟩ := remove_result calls k name pick id b p hk hres
    have hjlt : j < (pullIDs (calls.take k)).length := (List.getElem?_eq_some.mp hj).1
    have hjall : (pullIDs calls)[j]? = some id := by
      rw [pullIDs_take_drop calls k, List.getElem?_append_left hjlt]
      exact hj
    have hiall := pullIDs_index calls i id name2 ports hi
    have hjtot : j < (pullIDs calls).length := (List.getElem?_eq_some.mp hjall).1
    have hsame : j = (pullIDs (calls.take i)).length :=
      List.getElem?_inj hjtot hids (hjall.trans hiall.symm)
    rw [hpull i id name2 ports hi, ← hsame, hb, hp,
      toInt32_of_range (1 + (j : Int)) (by norm_num; omega) (by norm_num; omega),
      toInt32_of_range (servicePortBase - 1 + (1 + (j : Int)))
        (by unfold servicePortBase; norm_num; omega)
        (by unfold servicePortBase; norm_num; omega)]
    unfold servicePortBase
    congr 2
    omega

theorem debug_manager_pairs_witness :
    (pullIDs [.pull "a" "img1" "", .stop "a", .start "a", .remove "img1" 0,
        .pull "b" "img2" "", .remove "img2" 0]).Nodup ∧
      (debugRun NewDebugContainerManager
        [.pull "a" "img1" "", .stop "a", .start "a", .remove "img1" 0,
          .pull "b" "img2" "", .remove "img2" 0]).2[4]? =
        some (.pulled "com.mercedes_benz.app_2" 8081) ∧
      (debugRun NewDebugContainerManager
        [.pull "a" "img1" "", .stop "a", .start "a", .remove "img1" 0,
          .pull "b" "img2" "", .remove "img2" 0]).2[0]? =
        some (.pulled "com.mercedes_benz.app_1" 8080) :=
  ⟨by decide,
    (debug_manager_pairs
      [.pull "a" "img1" "", .stop "a", .start "a", .remove "img1" 0,
        .pull "b" "img2" "", .remove "img2" 0] (by decide) (by decide)).1 4 "b" "img2" "" rfl,
    (debug_manager_pairs
      [.pull "a" "img1" "", .stop "a", .start "a", .remove "img1" 0,
        .pull "b" "img2" "", .remove "img2" 0] (by decide) (by decide)).2 3 0 "img1" "img1" ""
      "a" "com.mercedes_benz.app_1" 0 8080 rfl (by decide) rfl⟩

/-- The calls of `TestDebugContainerManager`: the pairs the test expects, the
statuses after `StopContainer` and `StartContainer`, and the empty container
list after the removal. -/
theorem debug_manager_test_case :
    (debugRun NewDebugContainerManager
        [.pull "a" "img1" "", .stop "a", .start "a", .remove "img1" 0,
          .pull "b" "img2" "", .remove "img2" 0]).2 =
        [.pulled "com.mercedes_benz.app_1" 8080, .stopped none, .started none,
          .removed (some "a") "com.mercedes_benz.app_1" 8080,
          .pulled "com.mercedes_benz.app_2" 8081,
          .removed (some "b") "com.mercedes_benz.app_2" 8081] ∧
      ((debugRun NewDebugContainerManager
        [.pull "a" "img1" "", .stop "a"]).1.Containers.map (fun c => c.Status)) = ["exited"] ∧
      ((debugRun NewDebugContainerManager
        [.pull "a" "img1" "", .stop "a", .start "a"]).1.Containers.map (fun c => c.Status)) =
        ["running"] ∧
      (debugRun NewDebugContainerManager
        [.pull "a" "img1" "", .stop "a", .start "a", .remove "img1" 0]).1.Containers = [] := by
  decide

/-! ## Orchestrator: the two loops item by item -/

theorem removeAll_eq {σ : Type} (cntMgr : Manager σ) (imgs : List Image) (s : σ)
    (events : List OrchestratorEvent) :
    removeAll cntMgr imgs s events =
      ((runItems (removeOne cntMgr) (imgs.filter (fun i => !isMiddleware i)) s).1,
        events ++ (runItems (removeOne cntMgr) (imgs.filter (fun i => !isMiddleware i)) s).2) := by
  induction imgs generalizing s events with
  | nil => simp [removeAll, runItems]
  | cons i rest ih =>
    by_cases hmid : isMiddleware i = true
    · have hskip : stringsHasSuffix i.Name (ParseImageName envoyContainerImageName).Name = true :=
        hmid
      rw [removeAll, if_pos hskip, ih, List.filter_cons_of_neg (by simp [hmid])]
    · have hkeep : ¬ stringsHasSuffix i.Name (ParseImageName envoyContainerImageName).Name = true :=
        hmid
      rw [removeAll, if_neg hkeep, List.filter_cons_of_pos (by simp [hmid])]
      rcases hcall : cntMgr.RemoveImageAndContainer s (i.Name ++ ":" ++ i.Version) true with
        ⟨res, s1⟩
      cases res with
      | error err =>
        simp only [runItems, removeOne, imageIdentifier, hcall, ih, List.append_assoc]
      | ok pair =>
        obtain ⟨bundleID, servicePort⟩ := pair
        simp only [runItems, removeOne, imageIdentifier, hcall, ih, List.append_assoc]

theorem installAll_eq {σ : Type} (cntMgr : Manager σ) (imgs : List Image) (s : σ)
    (events : List OrchestratorEvent) :
    installAll cntMgr imgs s events =
      ((runItems (installOne cntMgr) imgs s).1,
        events ++ (runItems (installOne cntMgr) imgs s).2) := by
  induction imgs generalizing s events with
  | nil => simp [installAll, runItems]
  | cons i rest ih =>
    rw [installAll]
    rcases hcall : cntMgr.PullImageAndCreateContainer s (i.Name ++ ":" ++ i.Version) true with
      ⟨res, s1⟩
    cases res with
    | error err =>
      simp only [runItems, installOne, imageIdentifier, hcall, ih, List.append_assoc]
    | ok pair =>
      obtain ⟨bundleID, servicePort⟩ := pair
      simp only [runItems, installOne, imageIdentifier, hcall, ih, List.append_assoc]

theorem removalsOf_append (a b : List OrchestratorEvent) :
    removalsOf (a ++ b) = removalsOf a ++ removalsOf b := by
  unfold removalsOf
  rw [List.filterMap_append]

theorem pullsOf_append (a b : List OrchestratorEvent) :
    pullsOf (a ++ b) = pullsOf a ++ pullsOf b := by
  unfold pullsOf
  rw [List.filterMap_append]

theorem removeOne_calls {σ : Type} (cntMgr : Manager σ) (s : σ) (i : Image) :
    removalsOf (removeOne cntMgr s i).2 = [imageIdentifier i] ∧
      pullsOf (removeOne cntMgr s i).2 = [] := by
  unfold removeOne
  rcases hcall : cntMgr.RemoveImageAndContainer s (imageIdentifier i) true with ⟨res, s1⟩
  cases res with
  | error err => exact ⟨rfl, rfl⟩
  | ok pair => exact ⟨rfl, rfl⟩

theorem installOne_calls {σ : Type} (cntMgr : Manager σ) (s : σ) (i : Image) :
    removalsOf (installOne cntMgr s i).2 = [] ∧
      pullsOf (installOne cntMgr s i).2 = [imageIdentifier i] := by
  unfold installOne
  rcases hcall : cntMgr.PullImageAndCreateContainer s (imageIdentifier i) true with ⟨res, s1⟩
  cases res with
  | error err => exact ⟨rfl, rfl⟩
  | ok pair => exact ⟨rfl, rfl⟩

theorem runItems_removeOne_calls {σ : Type} (cntMgr : Manager σ) (imgs : List Image) (s : σ) :
    removalsOf (runItems (removeOne cntMgr) imgs s).2 = imgs.map imageIdentifier ∧
      pullsOf (runItems (removeOne cntMgr) imgs s).2 = [] := by
  induction imgs generalizing s with
  | nil => exact ⟨rfl, rfl⟩
  | cons i rest ih =>
    simp only [runItems, removalsOf_append, pullsOf_append, (removeOne_calls cntMgr s i).1,
      (removeOne_calls cntMgr s i).2, (ih _).1, (ih _).2, List.map_cons, List.singleton_append,
      List.append_nil, and_self]

theorem runItems_installOne_calls {σ : Type} (cntMgr : Manager σ) (imgs : List Image) (s : σ) :
    removalsOf (runItems (installOne cntMgr) imgs s).2 = [] ∧
      pullsOf (runItems (installOne cntMgr) imgs s).2 = imgs.map imageIdentifier := by
  induction imgs generalizing s with
  | nil => exact ⟨rfl, rfl⟩
  | cons i rest ih =>
    simp only [runItems, removalsOf_append, pullsOf_append, (installOne_calls cntMgr s i).1,
      (installOne_calls cntMgr s i).2, (ih _).1, (ih _).2, List.map_cons, List.singleton_append,
      List.append_nil, and_self]

/-- The outcome of `process` when the host has an entry, the runtime lists its
containers and the desired names are normalised. -/
theorem process_eq {σ : Type} (grammar : String → Bool) (cfg : Config) (cntMgr : Manager σ)
    (s s1 : σ) (dplmCfg : DeploymentConfig) (node : NodeConfig) (cs : List Container)
    (new : List Image) (hnode : mapGet dplmCfg cfg.NodeHostname = some node)
    (hcs : cntMgr.Containers s = (.ok cs, s1))
    (hnew : qualifyAll grammar cfg.DefaultContainerRegistryDomain
      (node.Images.map ParseImageName) = .ok new) :
    (process grammar cfg cntMgr s dplmCfg).err = none ∧
      (process grammar cfg cntMgr s dplmCfg).events =
        (runItems (removeOne cntMgr)
          ((diff new (ExtractImageList (managedRunning cs))).filter
            (fun i => !isMiddleware i)) s1).2 ++
        (runItems (installOne cntMgr) (diff (ExtractImageList (managedRunning cs)) new)
          (runItems (removeOne cntMgr)
            ((diff new (ExtractImageList (managedRunning cs))).filter
              (fun i => !isMiddleware i)) s1).1).2 ∧
      (process grammar cfg cntMgr s dplmCfg).state =
        (runItems (installOne cntMgr) (diff (ExtractImageList (managedRunning cs)) new)
          (runItems (removeOne cntMgr)
            ((diff new (ExtractImageList (managedRunning cs))).filter
              (fun i => !isMiddleware i)) s1).1).1 := by
  unfold process
  simp only [hnode, hcs, hnew, removeAll_eq, installAll_eq, List.nil_append, and_self]

theorem process_calls {σ : Type} (grammar : String → Bool) (cfg : Config) (cntMgr : Manager σ)
    (s s1 : σ) (dplmCfg : DeploymentConfig) (node : NodeConfig) (cs : List Container)
    (new : List Image) (hnode : mapGet dplmCfg cfg.NodeHostname = some node)
    (hcs : cntMgr.Containers s = (.ok cs, s1))
    (hnew : qualifyAll grammar cfg.DefaultContainerRegistryDomain
      (node.Images.map ParseImageName) = .ok new) :
    removalsOf (process grammar cfg cntMgr s dplmCfg).events =
        ((diff new (ExtractImageList (managedRunning cs))).filter
          (fun i => !isMiddleware i)).map imageIdentifier ∧
      pullsOf (process grammar cfg cntMgr s dplmCfg).events =
        (diff (ExtractImageList (managedRunning cs)) new).map imageIdentifier := by
  rw [(process_eq grammar cfg cntMgr s s1 dplmCfg node cs new hnode hcs hnew).2.1,
    removalsOf_append, pullsOf_append, (runItems_removeOne_calls cntMgr _ _).1,
    (runItems_removeOne_calls cntMgr _ _).2, (runItems_installOne_calls cntMgr _ _).1,
    (runItems_installOne_calls cntMgr _ _).2, List.append_nil, List.nil_append]
  exact ⟨rfl, rfl⟩

/-- C22: when the desired configuration has an entry for this host, the
runtime lists its containers and the desired names are normalised, `process`
returns nil, and its calls and announcements are those of handling every image
to remove in order and then every image to install in order, each item from the
state the one before left and whatever the one before returned: per image to
remove one removal with introspection, then one retry without introspection
and no announcement when it failed, or one UNREGISTERED with the returned
bundle ID and port when it succeeded; per image to install one pull, then
nothing when it failed, or one REGISTERED with the returned bundle ID and port
when it succeeded. So every image to remove is passed to the removal and
every image to install to the pull exactly once each. -/
theorem process_attempts_every_item {σ : Type} (grammar : String → Bool) (cfg : Config)
    (cntMgr : Manager σ) (s s1 : σ) (dplmCfg : DeploymentConfig) (node : NodeConfig)
    (cs : List Container) (new : List Image)
    (hnode : mapGet dplmCfg cfg.NodeHostname = some node)
    (hcs : cntMgr.Containers s = (.ok cs, s1))
    (hnew : qualifyAll grammar cfg.DefaultContainerRegistryDomain
      (node.Images.map ParseImageName) = .ok new) :
    (process grammar cfg cntMgr s dplmCfg).err = none ∧
      (process grammar cfg cntMgr s dplmCfg).events =
        (runItems (removeOne cntMgr)
          ((diff new (ExtractImageList (managedRunning cs))).filter
            (fun i => !isMiddleware i)) s1).2 ++
        (runItems (installOne cntMgr) (diff (ExtractImageList (managedRunning cs)) new)
          (runItems (removeOne cntMgr)
            ((diff new (ExtractImageList (managedRunning cs))).filter
              (fun i => !isMiddleware i)) s1).1).2 ∧
      removalsOf (process grammar cfg cntMgr s dplmCfg).events =
        ((diff new (ExtractImageList (managedRunning cs))).filter
          (fun i => !isMiddleware i)).map imageIdentifier ∧
      pullsOf (process grammar cfg cntMgr s dplmCfg).events =
        (diff (ExtractImageList (managedRunning cs)) new).map imageIdentifier :=
  ⟨(process_eq grammar cfg cntMgr s s1 dplmCfg node cs new hnode hcs hnew).1,
    (process_eq grammar cfg cntMgr s s1 dplmCfg node cs new hnode hcs hnew).2.1,
    process_calls grammar cfg cntMgr s s1 dplmCfg node cs new hnode hcs hnew⟩

set_option maxRecDepth 100000 in
theorem process_attempts_every_item_witness :
    (process (fun _ => true) (Config.Default "h1")
        ({ Containers := fun n =>
             (.ok [{ ID := "c1", FirstName := "/old", Image := "localhost/old:1", Ports := "",
                     Status := "Up 2 hours" },
                   { ID := "c2", FirstName := "/gone", Image := "localhost/gone:1", Ports := "",
                     Status := "Up 2 hours" }], n)
           PullImageAndCreateContainer := fun n name _ =>
             (if name = "localhost/bad:1" then .error (.runtime "pull failed")
              else .ok ("com.x.new", 8080), n + 1)
           RemoveImageAndContainer := fun n name _ =>
             (if name = "localhost/old:1" then .error (.runtime "removal failed")
              else .ok ("com.x.gone", 8081), n + 1) } : Manager Nat)
        0 [("h1", { State := "running", Images := ["localhost/bad:1", "localhost/new:2"] })]).events =
      [.remove "localhost/old:1" true, .remove "localhost/old:1" false,
        .remove "localhost/gone:1" true, .unregistered "com.x.gone" 8081,
        .pull "localhost/bad:1", .pull "localhost/new:2", .registered "com.x.new" 8080] :=
  (process_attempts_every_item (fun _ => true) (Config.Default "h1")
    ({ Containers := fun n =>
         (.ok [{ ID := "c1", FirstName := "/old", Image := "localhost/old:1", Ports := "",
                 Status := "Up 2 hours" },
               { ID := "c2", FirstName := "/gone", Image := "localhost/gone:1", Ports := "",
                 Status := "Up 2 hours" }], n)
       PullImageAndCreateContainer := fun n name _ =>
         (if name = "localhost/bad:1" then .error (.runtime "pull failed")
          else .ok ("com.x.new", 8080), n + 1)
       RemoveImageAndContainer := fun n name _ =>
         (if name = "localhost/old:1" then .error (.runtime "removal failed")
          else .ok ("com.x.gone", 8081), n + 1) } : Manager Nat)
    0 0 [("h1", { State := "running", Images := ["localhost/bad:1", "localhost/new:2"] })]
    { State := "running", Images := ["localhost/bad:1", "localhost/new:2"] }
    [{ ID := "c1", FirstName := "/old", Image := "localhost/old:1", Ports := "",
       Status := "Up 2 hours" },
     { ID := "c2", FirstName := "/gone", Image := "localhost/gone:1", Ports := "",
       Status := "Up 2 hours" }]
    [{ Name := "localhost/bad", Version := "1" }, { Name := "localhost/new", Version := "2" }]
    (by decide) rfl (by decide)).2.1.trans (by decide)

/-! ## Orchestrator: the images passed to the removal -/

/-- The scenario against C23: the host desires `localhost/x` in the versions 1
and 2 and runs a managed container of `localhost/x:1`; `process` passes
`localhost/x:1`, a desired image, to `RemoveImageAndContainer`, because `diff`
remembers one version per name, the last one. -/
theorem process_removes_desired_image :
    (process (fun _ => true) (Config.Default "h1")
        ({ Containers := fun n =>
             (.ok [{ ID := "c1", FirstName := "/x", Image := "localhost/x:1", Ports := "",
                     Status := "Up 2 hours" }], n)
           PullImageAndCreateContainer := fun n _ _ => (.ok ("com.x.app", 8080), n + 1)
           RemoveImageAndContainer := fun n _ _ => (.ok ("com.x.app", 8080), n + 1) } :
          Manager Nat)
        0 [("h1", { State := "running", Images := ["localhost/x:1", "localhost/x:2"] })]).events =
      [.remove "localhost/x:1" true, .unregistered "com.x.app" 8080,
        .pull "localhost/x:2", .registered "com.x.app" 8080] ∧
      "localhost/x:1" ∈ ["localhost/x:1", "localhost/x:2"] := by
  decide

/-- C23, amended: when the host has an entry, the runtime lists its containers
and the desired names are normalised, the images `process` passes to
`RemoveImageAndContainer` are, in the order of the container list, the images
of the containers that are managed and running, whose version is not the one
of the last desired image of the same name (in particular when no desired
image has the name), and whose name does not end in the name of the sidecar
image; when no name is desired in two versions these are the images that are
not among the normalised desired images. When the configuration has no entry
for the host, there is no call, no announcement and no change of the
runtime. -/
theorem process_removals_spec {σ : Type} (grammar : String → Bool) (cfg : Config)
    (cntMgr : Manager σ) (s s1 : σ) (dplmCfg : DeploymentConfig) (node : NodeConfig)
    (cs : List Container) (new : List Image)
    (hnode : mapGet dplmCfg cfg.NodeHostname = some node)
    (hcs : cntMgr.Containers s = (.ok cs, s1))
    (hnew : qualifyAll grammar cfg.DefaultContainerRegistryDomain
      (node.Images.map ParseImageName) = .ok new) :
    removalsOf (process grammar cfg cntMgr s dplmCfg).events =
        ((ExtractImageList (managedRunning cs)).filter
          (fun i => !isMiddleware i && decide (lastVersion new i.Name ≠ some i.Version))).map
          imageIdentifier ∧
      (OneVersionPerName new →
        removalsOf (process grammar cfg cntMgr s dplmCfg).events =
          ((ExtractImageList (managedRunning cs)).filter
            (fun i => !isMiddleware i && decide (i ∉ new))).map imageIdentifier) ∧
      (∀ other : DeploymentConfig, mapGet other cfg.NodeHostname = none →
        (process grammar cfg cntMgr s other).events = [] ∧
          (process grammar cfg cntMgr s other).err = none ∧
          (process grammar cfg cntMgr s other).state = s) := by
  have hcalls := (process_calls grammar cfg cntMgr s s1 dplmCfg node cs new hnode hcs hnew).1
  rw [diff_eq_filter, List.filter_filter] at hcalls
  refine ⟨hcalls, ?_, ?_⟩
  · intro hone
    rw [hcalls]
    congr 1
    apply List.filter_congr
    intro i _
    congr 1
    rw [decide_eq_decide, ne_eq, lastVersion_eq_some_iff hone]
  · intro other hother
    unfold process
    simp only [hother, and_self]

set_option maxRecDepth 100000 in
theorem process_removals_spec_witness :
    removalsOf (process (fun _ => true) (Config.Default "h1")
        ({ Containers := fun n =>
             (.ok [{ ID := "c0", FirstName := "/carisma-keep-db", Image := "localhost/db:1",
                     Ports := "", Status := "Up 2 hours" },
                   { ID := "c1", FirstName := "/old", Image := "localhost/old:1", Ports := "",
                     Status := "Up 2 hours" },
                   { ID := "c2", FirstName := "/done", Image := "localhost/done:1", Ports := "",
                     Status := "Exited (0) 1 hour ago" },
                   { ID := "c3", FirstName := "/envoy",
                     Image := "docker.io/envoyproxy/envoy:distroless-v1.27-latest", Ports := "",
                     Status := "Up 2 hours" },
                   { ID := "c4", FirstName := "/kept", Image := "localhost/kept:2", Ports := "",
                     Status := "Up 2 hours" }], n)
           PullImageAndCreateContainer := fun n _ _ => (.ok ("com.x.app", 8080), n + 1)
           RemoveImageAndContainer := fun n _ _ => (.ok ("com.x.app", 8080), n + 1) } :
          Manager Nat)
        0 [("h1", { State := "running", Images := ["localhost/kept:2"] })]).events =
      ["localhost/old:1"] :=
  (process_removals_spec (fun _ => true) (Config.Default "h1")
    ({ Containers := fun n =>
         (.ok [{ ID := "c0", FirstName := "/carisma-keep-db", Image := "localhost/db:1",
                 Ports := "", Status := "Up 2 hours" },
               { ID := "c1", FirstName := "/old", Image := "localhost/old:1", Ports := "",
                 Status := "Up 2 hours" },
               { ID := "c2", FirstName := "/done", Image := "localhost/done:1", Ports := "",
                 Status := "Exited (0) 1 hour ago" },
               { ID := "c3", FirstName := "/envoy",
                 Image := "docker.io/envoyproxy/envoy:distroless-v1.27-latest", Ports := "",
                 Status := "Up 2 hours" },
               { ID := "c4", FirstName := "/kept", Image := "localhost/kept:2", Ports := "",
                 Status := "Up 2 hours" }], n)
       PullImageAndCreateContainer := fun n _ _ => (.ok ("com.x.app", 8080), n + 1)
       RemoveImageAndContainer := fun n _ _ => (.ok ("com.x.app", 8080), n + 1) } :
      Manager Nat)
    0 0 [("h1", { State := "running", Images := ["localhost/kept:2"] })]
    { State := "running", Images := ["localhost/kept:2"] }
    [{ ID := "c0", FirstName := "/carisma-keep-db", Image := "localhost/db:1",
       Ports := "", Status := "Up 2 hours" },
     { ID := "c1", FirstName := "/old", Image := "localhost/old:1", Ports := "",
       Status := "Up 2 hours" },
     { ID := "c2", FirstName := "/done", Image := "localhost/done:1", Ports := "",
       Status := "Exited (0) 1 hour ago" },
     { ID := "c3", FirstName := "/envoy",
       Image := "docker.io/envoyproxy/envoy:distroless-v1.27-latest", Ports := "",
       Status := "Up 2 hours" },
     { ID := "c4", FirstName := "/kept", Image := "localhost/kept:2", Ports := "",
       Status := "Up 2 hours" }]
    [{ Name := "localhost/kept", Version := "2" }]
    (by decide) rfl (by decide)).1.trans (by decide)

/-! ## Emulated runtime: statuses, and what `process` computes with it -/

theorem statusesEmulated_step (d : debugContainerManager) (c : DebugCall)
    (h : StatusesEmulated d) : StatusesEmulated (debugStep d c).1 := by
  cases c with
  | pull id name ports =>
    intro e he
    simp only [debugStep, debugContainerManager.PullImageAndCreateContainer] at he
    rcases mem_mapSet he with rfl | hold
    · exact Or.inl rfl
    · exact h e hold
  | remove name pick =>
    simp only [debugStep, debugContainerManager.RemoveImageAndContainer]
    cases hfound : (d.container.filter
        (fun e => decide (e.2.container.Image = name)))[pick %
          (d.container.filter (fun e => decide (e.2.container.Image = name))).length]? with
    | none => exact h
    | some e0 =>
      intro e he
      exact h e (mem_mapDelete he).1
  | start id =>
    simp only [debugStep, debugContainerManager.StartContainer]
    cases hget : mapGet d.container id with
    | none => exact h
    | some vc =>
      intro e he
      rcases mem_mapSet he with rfl | hold
      · exact Or.inl rfl
      · exact h e hold
  | stop id =>
    simp only [debugStep, debugContainerManager.StopContainer]
    cases hget : mapGet d.container id with
    | none => exact h
    | some vc =>
      intro e he
      rcases mem_mapSet he with rfl | hold
      · exact Or.inr rfl
      · exact h e hold

theorem statusesEmulated_run (calls : List DebugCall) (d : debugContainerManager)
    (h : StatusesEmulated d) : StatusesEmulated (debugRun d calls).1 := by
  induction calls generalizing d with
  | nil => exact h
  | cons c rest ih => exact ih _ (statusesEmulated_step d c h)

theorem statusesEmulated_fresh (calls : List DebugCall) :
    StatusesEmulated (debugRun NewDebugContainerManager calls).1 :=
  statusesEmulated_run calls NewDebugContainerManager (by intro e he; cases he)

theorem managedRunning_emulated (d : debugContainerManager) (h : StatusesEmulated d) :
    managedRunning d.Containers = [] := by
  unfold managedRunning
  rw [List.filter_eq_nil_iff]
  intro c hc
  unfold debugContainerManager.Containers at hc
  obtain ⟨e, he, rfl⟩ := List.mem_map.mp hc
  have hup : stringsHasPrefix e.2.container.Status "Up" = false := by
    rcases h e he with hs | hs <;> rw [hs] <;> decide
  simp [hup]

theorem diff_nil_left (b : List Image) : diff [] b = b := by
  rw [diff_eq_filter]
  apply List.filter_eq_self.mpr
  intro i _
  simp [lastVersion]

theorem diff_nil_right (a : List Image) : diff a [] = [] := by
  rw [diff_eq_filter]
  rfl

/-- C30: every container the emulated runtime holds after any sequence of
calls has the status `running` or `exited`, and neither starts with `Up`; so
the managed-running filter of `process` keeps none of its containers, and when
the host has an entry and the desired names are normalised, `process` removes
nothing and passes every desired image, in order, to
`PullImageAndCreateContainer`, whatever the runtime already holds. -/
theorem emulated_runtime_installs_all (calls : List DebugCall) (randomIDs : Nat → String)
    (orders : Nat → Nat) (drawn ranged : Nat) (grammar : String → Bool) (cfg : Config)
    (dplmCfg : DeploymentConfig) (node : NodeConfig) (new : List Image)
    (hnode : mapGet dplmCfg cfg.NodeHostname = some node)
    (hnew : qualifyAll grammar cfg.DefaultContainerRegistryDomain
      (node.Images.map ParseImageName) = .ok new) :
    (∀ c ∈ (debugRun NewDebugContainerManager calls).1.Containers,
        c.Status = "running" ∨ c.Status = "exited") ∧
      stringsHasPrefix "running" "Up" = false ∧
      stringsHasPrefix "exited" "Up" = false ∧
      managedRunning (debugRun NewDebugContainerManager calls).1.Containers = [] ∧
      removalsOf (process grammar cfg emulatedManager
        { manager := (debugRun NewDebugContainerManager calls).1, randomIDs := randomIDs,
          drawn := drawn, orders := orders, ranged := ranged } dplmCfg).events = [] ∧
      pullsOf (process grammar cfg emulatedManager
        { manager := (debugRun NewDebugContainerManager calls).1, randomIDs := randomIDs,
          drawn := drawn, orders := orders, ranged := ranged } dplmCfg).events =
        new.map imageIdentifier := by
  have hst := statusesEmulated_fresh calls
  have hmr := managedRunning_emulated _ hst
  have hcalls := process_calls grammar cfg emulatedManager
    { manager := (debugRun NewDebugContainerManager calls).1, randomIDs := randomIDs,
      drawn := drawn, orders := orders, ranged := ranged }
    { manager := (debugRun NewDebugContainerManager calls).1, randomIDs := randomIDs,
      drawn := drawn, orders := orders, ranged := ranged }
    dplmCfg node (debugRun NewDebugContainerManager calls).1.Containers new hnode rfl hnew
  rw [hmr] at hcalls
  have hex : ExtractImageList [] = [] := rfl
  rw [hex, diff_nil_left, diff_nil_right] at hcalls
  refine ⟨?_, by decide, by decide, hmr, hcalls.1, hcalls.2⟩
  intro c hc
  unfold debugContainerManager.Containers at hc
  obtain ⟨e, he, rfl⟩ := List.mem_map.mp hc
  exact hst e he

set_option maxRecDepth 100000 in
theorem emulated_runtime_installs_all_witness :
    pullsOf (process (fun _ => true) (Config.Default "h1") emulatedManager
        { manager := (debugRun NewDebugContainerManager
            [.pull "a" "localhost/app:1" "", .pull "b" "localhost/other:1" ""]).1,
          randomIDs := fun _ => "c", drawn := 2, orders := fun _ => 0, ranged := 0 }
        [("h1", { State := "running", Images := ["localhost/app:1"] })]).events =
      ["localhost/app:1"] :=
  (emulated_runtime_installs_all
    [.pull "a" "localhost/app:1" "", .pull "b" "localhost/other:1" ""]
    (fun _ => "c") (fun _ => 0) 2 0 (fun _ => true) (Config.Default "h1")
    [("h1", { State := "running", Images := ["localhost/app:1"] })]
    { State := "running", Images := ["localhost/app:1"] }
    [{ Name := "localhost/app", Version := "1" }] (by decide) (by decide)).2.2.2.2.2

end Carisma
